import Mathlib

/-!
# rexd: policy engine, filesystem service and dispatcher

A shallow embedding of `internal/policy/policy.go`, `internal/fs/service.go`,
`internal/session/manager.go` and the filesystem part of
`internal/server/service.go`, with the properties proved about them.

Go strings that hold paths are modelled as `List Char`; the only character the
path functions look at is the separator `/` (and `.`), so the byte-level and
the character-level readings agree.
-/

namespace Rexd

/-! ## Errors (`errors.New` sentinels and everything else) -/

/-- Errors that reach the dispatcher. The three sentinels are the ones `errResp`
tests with `errors.Is`; every other error is carried with its message text. -/
inductive Err where
  | sessionNotFound
  | forbiddenPath
  | conflict
  | other (msg : List Char)
deriving DecidableEq, Repr

deriving instance DecidableEq for Except

/-! ## `path/filepath` on Unix -/

def Separator : Char := '/'

/-- Go `filepath.IsAbs` on Unix: `strings.HasPrefix(path, "/")`. -/
def IsAbs (path : List Char) : Bool :=
  match path with
  | [] => false
  | c :: _ => c == Separator

/-- Go `strings.HasPrefix`. -/
def HasPrefix (s pre : List Char) : Bool := pre.isPrefixOf s

/-- Splits a path at every separator; `splitSep [] = [[]]`. -/
def splitSep : List Char → List (List Char)
  | [] => [[]]
  | c :: cs =>
    if c = Separator then [] :: splitSep cs
    else
      match splitSep cs with
      | [] => [[c]]
      | s :: ss => (c :: s) :: ss

/-- Go `strings.Join(elems, "/")`. -/
def joinSep : List (List Char) → List Char
  | [] => []
  | [e] => e
  | e :: es => e ++ Separator :: joinSep es

def dot : List Char := ['.']
def dotdot : List Char := ['.', '.']

/-- One iteration of the loop of `filepath.Clean`, on a whole path element `e`.
`out` is the output buffer as a stack of elements, last written first. -/
def cleanElem (rooted : Bool) (out : List (List Char)) (e : List Char) : List (List Char) :=
  if e = [] then out            -- empty path element
  else if e = dot then out      -- . element
  else if e = dotdot then       -- .. element: remove to last separator
    match out with
    | [] => if rooted then [] else [dotdot]
    | top :: rest => if top = dotdot then dotdot :: out else rest
  else e :: out                 -- real path element

/-- The elements `filepath.Clean` keeps, last first. -/
def cleanElems (rooted : Bool) (path : List Char) : List (List Char) :=
  (splitSep path).foldl (cleanElem rooted) []

/-- Go `filepath.Clean` on Unix. -/
def Clean (path : List Char) : List Char :=
  if path = [] then dot
  else
    let rooted := IsAbs path
    let out := (cleanElems rooted path).reverse
    if rooted then Separator :: joinSep out
    else if out = [] then dot
    else joinSep out

/-- Go `filepath.Join`: empty leading elements are skipped, the rest is joined
with the separator and cleaned; all elements empty gives the empty string. -/
def Join (elem : List (List Char)) : List Char :=
  match elem.dropWhile (fun e => e.isEmpty) with
  | [] => []
  | es => Clean (joinSep es)

/-- The process environment that `filepath.Abs` consults through `os.Getwd`:
`none` when the lookup fails, otherwise the working directory, which the
operating system reports as a rooted path. -/
structure Env where
  wd : Option { w : List Char // IsAbs w = true }

def getwdFailed : Err := Err.other "getwd: no such file or directory".toList

/-- Go `os.Getwd`. -/
def Getwd (env : Env) : Except Err (List Char) :=
  match env.wd with
  | none => .error getwdFailed
  | some w => .ok w.val

/-- Go `filepath.Abs` on Unix. -/
def Abs (env : Env) (path : List Char) : Except Err (List Char) :=
  if IsAbs path then .ok (Clean path)
  else
    match Getwd env with
    | .error err => .error err
    | .ok wd => .ok (Join [wd, path])

/-! ## `internal/policy/policy.go` -/

structure Engine where
  allowedRoots : List (List Char)
  allowShell : Bool
deriving DecidableEq, Repr

/-- The loop of `policy.New`: each root is made absolute and cleaned. -/
def normRoots (env : Env) : List (List Char) → Except Err (List (List Char))
  | [] => .ok []
  | root :: rest =>
    match Abs env root with
    | .error err => .error err
    | .ok abs =>
      match normRoots env rest with
      | .error err => .error err
      | .ok norm => .ok (Clean abs :: norm)

def New (env : Env) (allowedRoots : List (List Char)) (allowShell : Bool) : Except Err Engine :=
  match normRoots env allowedRoots with
  | .error err => .error err
  | .ok norm => .ok { allowedRoots := norm, allowShell := allowShell }

def Engine.AllowedRoots (e : Engine) : List (List Char) := e.allowedRoots

def Engine.AllowShell (e : Engine) : Bool := e.allowShell

def Engine.IsAllowed (e : Engine) (path : List Char) : Bool :=
  if e.allowedRoots.length = 0 then false
  else
    let cleaned := Clean path
    e.allowedRoots.any (fun root =>
      decide (cleaned = root) || HasPrefix cleaned (root ++ [Separator]))

def Engine.ResolvePath (env : Env) (e : Engine) (cwd p : List Char) : Except Err (List Char) :=
  let candidate := if !IsAbs p then Join [cwd, p] else p
  match Abs env candidate with
  | .error err => .error err
  | .ok abs =>
    let cleaned := Clean abs
    if !e.IsAllowed cleaned then .error Err.forbiddenPath
    else .ok cleaned

/-- The shape of the output buffer of `Clean`, last element first: every
element is a real name or `..`, and `..` occurs only in an unrooted path, on
top of nothing but further `..` elements. -/
def CleanStack (rooted : Bool) : List (List Char) → Prop
  | [] => True
  | e :: rest =>
    Separator ∉ e ∧ e ≠ [] ∧ e ≠ dot ∧
    (e = dotdot → rooted = false ∧ ∀ x ∈ rest, x = dotdot) ∧ CleanStack rooted rest

/-! ## `internal/config/config.go` -/

structure LimitsConfig where
  DefaultTimeoutMs : Int
  HardTimeoutMs : Int
  MaxOutputBytes : Int
  MaxFileReadBytes : Int
  MaxProcessesPerSess : Int
  MaxConcurrentSessions : Int
deriving DecidableEq, Repr

structure AllowedRoot where
  Path : List Char
deriving DecidableEq, Repr

structure SecurityConfig where
  AllowShell : Bool
  AllowedRoot : List AllowedRoot
deriving DecidableEq, Repr

structure AuditConfig where
  Enabled : Bool
  Path : List Char
deriving DecidableEq, Repr

structure Config where
  Limits : LimitsConfig
  Security : SecurityConfig
  Audit : AuditConfig
deriving DecidableEq, Repr

def Default : Config :=
  { Limits :=
      { DefaultTimeoutMs := 30000
        HardTimeoutMs := 300000
        MaxOutputBytes := 1048576
        MaxFileReadBytes := 1048576
        MaxProcessesPerSess := 8
        MaxConcurrentSessions := 16 }
    Security := { AllowShell := true, AllowedRoot := [] }
    Audit := { Enabled := false, Path := [] } }

/-- The function `config.AllowedRoots`: the configured root paths that are not empty. -/
def AllowedRoots (cfg : Config) : List (List Char) :=
  (cfg.Security.AllowedRoot.filter (fun r => decide (r.Path ≠ []))).map (fun r => r.Path)

/-! ## `internal/protocol/jsonrpc.go` -/

def ErrInvalidParams : Int := -32602
def ErrMethodNotFound : Int := -32601
def ErrUnauthorized : Int := -32001
def ErrForbiddenPath : Int := -32002
def ErrTimeout : Int := -32003
def ErrOutputLimitExceeded : Int := -32004
def ErrProcessNotFound : Int := -32005
def ErrConcurrencyConflict : Int := -32006
def ErrUnsupportedCapability : Int := -32007
def ErrResourceLimit : Int := -32008

structure RPCError where
  Code : Int
  Message : List Char
deriving DecidableEq, Repr

/-- A response of the dispatcher; `ρ` is the type of results. The request id is
kept as the raw text of the request. -/
structure Response (ρ : Type) where
  ID : Option (List Char)
  Result : Option ρ
  Error : Option RPCError

def ErrorResponse {ρ : Type} (id : Option (List Char)) (code : Int) (msg : List Char) :
    Response ρ :=
  { ID := id, Result := none, Error := some { Code := code, Message := msg } }

/-- The text `err.Error()` of an error. -/
def Err.Error : Err → List Char
  | .sessionNotFound => "session not found".toList
  | .forbiddenPath => "path is outside allowed roots".toList
  | .conflict => "expected mtime does not match".toList
  | .other msg => msg

/-- Go `strings.Contains`. -/
def Contains : List Char → List Char → Bool
  | [], sub => sub.isEmpty
  | c :: cs, sub => sub.isPrefixOf (c :: cs) || Contains cs sub

/-- The method `Service.errResp` of `internal/server/service.go`. -/
def errResp {ρ : Type} (id : Option (List Char)) (err : Err) : Response ρ :=
  if err = Err.sessionNotFound then
    ErrorResponse id ErrInvalidParams err.Error
  else if err = Err.forbiddenPath then
    ErrorResponse id ErrForbiddenPath "Path is outside allowed roots".toList
  else if err = Err.conflict then
    ErrorResponse id ErrConcurrencyConflict err.Error
  else if Contains err.Error "process not found".toList then
    ErrorResponse id ErrProcessNotFound err.Error
  else
    ErrorResponse id ErrInvalidParams err.Error

/-- The error code of a response, when it is an error response. -/
def Response.code {ρ : Type} (r : Response ρ) : Option Int := r.Error.map (fun e => e.Code)

/-! ## Concrete configurations used as instances -/

/-- A process whose working directory is `/w`. -/
def envW : Env := { wd := some ⟨"/w".toList, rfl⟩ }

/-- A process whose working directory cannot be read. -/
def envNoWd : Env := { wd := none }

/-- The engine `New` builds from the single root `/tmp/w`. -/
def engineTmpW : Engine := { allowedRoots := ["/tmp/w".toList], allowShell := true }

/-- The engine `New` builds from the single root `/w`. -/
def engineW : Engine := { allowedRoots := ["/w".toList], allowShell := true }

/-- The engine `New` builds from the single root `/etc`. -/
def engineEtc : Engine := { allowedRoots := ["/etc".toList], allowShell := true }

/-- The engine `New` builds from the single root `/`. -/
def engineSlash : Engine := { allowedRoots := ["/".toList], allowShell := true }

/-- The engine `New` builds from no root at all. -/
def engineNone : Engine := { allowedRoots := [], allowShell := true }

/-! ## `encoding/base64`, the standard padded encoding

File contents and the `content` strings of the protocol are byte sequences. -/

abbrev Byte := Fin 256

def byte (n : Nat) : Byte := ⟨n % 256, Nat.mod_lt _ (by decide)⟩

/-- The bytes of an ASCII text. -/
def bytesOf (s : List Char) : List Byte := s.map (fun c => byte c.toNat)

def encodeStd : List Char :=
  "ABCDEFGHIJKLMNOPQRSTUVWXYZabcdefghijklmnopqrstuvwxyz0123456789+/".toList

def StdPadding : Byte := byte '='.toNat

/-- The character of the alphabet for a 6-bit value. -/
def encodeChar (v : Nat) : Byte := byte ((encodeStd.getD (v % 64) 'A').toNat)

/-- The decode map: the 6-bit value of a character of the alphabet. -/
def decodeChar (c : Byte) : Option Nat :=
  let i := (bytesOf encodeStd).indexOf c
  if i < 64 then some i else none

/-- Go `base64.StdEncoding.EncodeToString`. -/
def EncodeToString : List Byte → List Byte
  | a :: b :: c :: rest =>
    let val := a.val * 65536 + b.val * 256 + c.val
    encodeChar (val / 262144 % 64) :: encodeChar (val / 4096 % 64) ::
      encodeChar (val / 64 % 64) :: encodeChar (val % 64) :: EncodeToString rest
  | [a, b] =>
    let val := a.val * 65536 + b.val * 256
    [encodeChar (val / 262144 % 64), encodeChar (val / 4096 % 64),
      encodeChar (val / 64 % 64), StdPadding]
  | [a] =>
    let val := a.val * 65536
    [encodeChar (val / 262144 % 64), encodeChar (val / 4096 % 64), StdPadding, StdPadding]
  | [] => []

/-- The quanta of a base64 text without line breaks: four characters give three
bytes; only the last quantum may end in one or two padding characters. -/
def decodeQuanta : List Byte → Option (List Byte)
  | [] => some []
  | c0 :: c1 :: c2 :: c3 :: rest =>
    match decodeChar c0, decodeChar c1 with
    | some v0, some v1 =>
      if c2 = StdPadding then
        if c3 = StdPadding ∧ rest = [] then
          some [byte ((v0 * 262144 + v1 * 4096) / 65536)]
        else none
      else
        match decodeChar c2 with
        | none => none
        | some v2 =>
          if c3 = StdPadding then
            if rest = [] then
              some [byte ((v0 * 262144 + v1 * 4096 + v2 * 64) / 65536),
                    byte ((v0 * 262144 + v1 * 4096 + v2 * 64) / 256)]
            else none
          else
            match decodeChar c3 with
            | none => none
            | some v3 =>
              match decodeQuanta rest with
              | none => none
              | some bs =>
                some (byte ((v0 * 262144 + v1 * 4096 + v2 * 64 + v3) / 65536) ::
                      byte ((v0 * 262144 + v1 * 4096 + v2 * 64 + v3) / 256) ::
                      byte (v0 * 262144 + v1 * 4096 + v2 * 64 + v3) :: bs)
    | _, _ => none
  | _ => none

def corruptInput : Err := Err.other "illegal base64 data".toList

/-- Go `base64.StdEncoding.DecodeString`: carriage returns and line feeds are
skipped, anything else outside the padded alphabet is a `CorruptInputError`. -/
def DecodeString (s : List Byte) : Except Err (List Byte) :=
  match decodeQuanta (s.filter (fun c => decide (c ≠ byte 10 ∧ c ≠ byte 13))) with
  | none => .error corruptInput
  | some bs => .ok bs

/-! ## The file system as package `os` shows it

Regular files and directories only. Nodes are keyed by the path text; the
dispatcher hands the filesystem service cleaned absolute paths only. -/

inductive Node where
  | file (content : List Byte) (mtime : Int)
  | dir (size : Int) (mtime : Int)
deriving DecidableEq, Repr

/-- The nodes of the file system and the clock (Unix milliseconds) that stamps
what is written next. -/
structure FileSystem where
  nodes : List (List Char × Node)
  now : Int
deriving DecidableEq, Repr

def lookupNode : List (List Char × Node) → List Char → Option Node
  | [], _ => none
  | (k, n) :: rest, p => if k = p then some n else lookupNode rest p

def FileSystem.lookup (w : FileSystem) (path : List Char) : Option Node :=
  lookupNode w.nodes path

def FileSystem.set (w : FileSystem) (path : List Char) (n : Node) : FileSystem :=
  { w with nodes := (path, n) :: w.nodes.filter (fun kn => decide (kn.1 ≠ path)) }

def FileSystem.remove (w : FileSystem) (path : List Char) : FileSystem :=
  { w with nodes := w.nodes.filter (fun kn => decide (kn.1 ≠ path)) }

/-- Go `fs.FileInfo`, as far as the service reads it. -/
structure FileInfo where
  Size : Int
  ModTime : Int
  IsDir : Bool
deriving DecidableEq, Repr

def Node.info : Node → FileInfo
  | .file content mtime => { Size := content.length, ModTime := mtime, IsDir := false }
  | .dir size mtime => { Size := size, ModTime := mtime, IsDir := true }

def errNotExist : Err := Err.other "no such file or directory".toList
def errExist : Err := Err.other "file exists".toList
def errNotDir : Err := Err.other "not a directory".toList
def errIsDir : Err := Err.other "is a directory".toList

/-- The text of a Go `*fs.PathError`: the operation, the path, a colon and the
text of the underlying error. `fssvc.Service.Read` builds its errors with it;
the functions of this section return the underlying error alone. -/
def pathError (op path : List Char) (err : Err) : Err :=
  Err.other (op ++ " ".toList ++ path ++ ": ".toList ++ err.Error)

/-- Go `os.Stat`; without symbolic links `os.Lstat` is the same function. -/
def Stat (w : FileSystem) (path : List Char) : Except Err FileInfo :=
  match w.lookup path with
  | none => .error errNotExist
  | some n => .ok n.info

/-- Go `filepath.Dir`: the path up to and including its last separator, cleaned. -/
def Dir (path : List Char) : List Char :=
  Clean (path.reverse.dropWhile (fun c => decide (c ≠ Separator))).reverse

/-- Go `filepath.Base` for a path that does not end in a separator. -/
def Base (path : List Char) : List Char :=
  (path.reverse.takeWhile (fun c => decide (c ≠ Separator))).reverse

/-- Go `os.Mkdir`: the parent must be a directory and the path must be free. -/
def Mkdir (w : FileSystem) (path : List Char) : Except Err FileSystem :=
  match w.lookup path with
  | some _ => .error errExist
  | none =>
    match w.lookup (Dir path) with
    | some (.dir _ _) => .ok (w.set path (.dir 0 w.now))
    | some (.file _ _) => .error errNotDir
    | none => .error errNotExist

/-- The path and its ancestors, nearest first, as `os.MkdirAll` visits them. -/
def ancestorChain (path : List Char) : List (List Char) :=
  let elems := ((splitSep path).filter (fun e => decide (e ≠ []))).dropLast
  let up := (elems.inits.reverse.filter (fun l => decide (l ≠ []))).map
    (fun l => if IsAbs path then Separator :: joinSep l else joinSep l)
  if IsAbs path then path :: up ++ [[Separator]] else path :: up

/-- The recursion of `os.MkdirAll`: an existing directory ends it with success,
an existing file with an error; a missing path is made after its parent. -/
def mkdirAllChain (w : FileSystem) : List (List Char) → Except Err FileSystem
  | [] => .ok w
  | p :: parents =>
    match w.lookup p with
    | some (.dir _ _) => .ok w
    | some (.file _ _) => .error errNotDir
    | none =>
      match mkdirAllChain w parents with
      | .error err => .error err
      | .ok w1 => Mkdir w1 p

/-- Go `os.MkdirAll`. -/
def MkdirAll (w : FileSystem) (path : List Char) : Except Err FileSystem :=
  mkdirAllChain w (ancestorChain path)

/-- The flags the service adds to `os.O_CREATE | os.O_WRONLY`. -/
structure OpenFlags where
  O_APPEND : Bool
  O_EXCL : Bool
  O_TRUNC : Bool
deriving DecidableEq, Repr

/-- Go `os.OpenFile(path, O_CREATE|O_WRONLY|flags, 0644)`: what opening does to
the file system. -/
def OpenFile (w : FileSystem) (path : List Char) (flags : OpenFlags) : Except Err FileSystem :=
  match w.lookup path with
  | some (.dir _ _) => .error errIsDir
  | some (.file _ _) =>
    if flags.O_EXCL then .error errExist
    else if flags.O_TRUNC then .ok (w.set path (.file [] w.now))
    else .ok w
  | none =>
    match w.lookup (Dir path) with
    | some (.dir _ _) => .ok (w.set path (.file [] w.now))
    | some (.file _ _) => .error errNotDir
    | none => .error errNotExist

/-- The method `f.Write(data)` on a file just opened with `flags`: appended with
`O_APPEND`, written from offset 0 otherwise. -/
def fileWrite (w : FileSystem) (path : List Char) (flags : OpenFlags) (data : List Byte) :
    FileSystem :=
  if data = [] then w
  else
    match w.lookup path with
    | some (.file content _) =>
      if flags.O_APPEND then w.set path (.file (content ++ data) w.now)
      else w.set path (.file (data ++ content.drop data.length) w.now)
    | _ => w

/-- Go `os.WriteFile(path, data, 0644)`. -/
def WriteFile (w : FileSystem) (path : List Char) (data : List Byte) : Except Err FileSystem :=
  match OpenFile w path { O_APPEND := false, O_EXCL := false, O_TRUNC := true } with
  | .error err => .error err
  | .ok w1 => .ok (fileWrite w1 path { O_APPEND := false, O_EXCL := false, O_TRUNC := true } data)

/-- Go `os.Rename` of a regular file onto a path in the same directory. -/
def Rename (w : FileSystem) (oldpath newpath : List Char) : Except Err FileSystem :=
  match w.lookup oldpath with
  | none => .error errNotExist
  | some n =>
    match w.lookup newpath with
    | some (.dir _ _) => .error errIsDir
    | _ => if oldpath = newpath then .ok w else .ok ((w.set newpath n).remove oldpath)

/-- Order of file names in a directory listing: byte-wise lexicographic. -/
def nameLE : List Char → List Char → Bool
  | [], _ => true
  | _ :: _, [] => false
  | a :: as, b :: bs => if a.toNat < b.toNat then true else if a = b then nameLE as bs else false

/-- Go `fs.DirEntry`, with the `FileInfo` that `d.Info()` gives. -/
structure DirEntry where
  Name : List Char
  IsDir : Bool
  Info : FileInfo
deriving DecidableEq, Repr

/-- The name under which `key` is an entry of the directory `dir`, if it is one.
A listing never holds the names `.` and `..`. -/
def childName (dir key : List Char) : Option (List Char) :=
  let pre := if dir = [Separator] then dir else dir ++ [Separator]
  if pre.isPrefixOf key then
    let name := key.drop pre.length
    if name ≠ [] ∧ Separator ∉ name ∧ name ≠ dot ∧ name ≠ dotdot then some name else none
  else none

/-- A file name as a directory listing holds it: not empty, without separator,
and neither `.` nor `..`. -/
def GoodName (name : List Char) : Prop :=
  name ≠ [] ∧ Separator ∉ name ∧ name ≠ dot ∧ name ≠ dotdot

def insertEntry (d : DirEntry) : List DirEntry → List DirEntry
  | [] => [d]
  | e :: es => if nameLE d.Name e.Name then d :: e :: es else e :: insertEntry d es

def sortEntries : List DirEntry → List DirEntry
  | [] => []
  | d :: ds => insertEntry d (sortEntries ds)

/-- Go `os.ReadDir`: the entries of a directory, sorted by file name. -/
def ReadDir (w : FileSystem) (path : List Char) : Except Err (List DirEntry) :=
  match w.lookup path with
  | none => .error errNotExist
  | some (.file _ _) => .error errNotDir
  | some (.dir _ _) =>
    .ok (sortEntries (w.nodes.filterMap (fun kn =>
      match childName path kn.1 with
      | none => none
      | some name => some { Name := name, IsDir := kn.2.info.IsDir, Info := kn.2.info })))

/-! ## `internal/fs/service.go` -/

namespace fssvc

structure Service where
  maxReadBytes : Int
deriving DecidableEq, Repr

def NewService (maxReadBytes : Int) : Service := { maxReadBytes := maxReadBytes }

/-- The map that `Read` returns. -/
structure ReadResult where
  path : List Char
  size : Int
  mtime : Int
  encoding : List Char
  content : List Byte
  truncated : Bool
deriving DecidableEq, Repr

/-- The number of bytes `Read` asks `io.ReadFull` for. -/
def readLimit (s : Service) (length size : Int) : Int :=
  let limit := s.maxReadBytes
  let limit := if length > 0 ∧ (limit ≤ 0 ∨ length < limit) then length else limit
  if limit ≤ 0 then size else limit

/-- The bytes `io.ReadFull` puts in a buffer of `limit` bytes, reading a file
from position `offset` (a position past the end reads nothing). -/
def readFull (content : List Byte) (offset limit : Int) : List Byte :=
  (content.drop offset.toNat).take limit.toNat

def Service.Read (s : Service) (w : FileSystem) (path encoding : List Char)
    (offset length : Int) : Except Err ReadResult :=
  match w.lookup path with                              -- os.Open, f.Stat
  | none => .error (pathError "open".toList path errNotExist)
  | some node =>
    let st := node.info
    let pos := if offset > 0 then offset else 0         -- f.Seek
    let limit := readLimit s length st.Size
    match node with
    | .dir _ _ =>
      -- reading a directory fails unless the buffer is empty
      if limit = 0 then
        .ok { path := path, size := st.Size, mtime := st.ModTime,
              encoding := if encoding = "base64".toList then encoding else "utf8".toList,
              content := [], truncated := decide ((0 : Int) < st.Size - offset) }
      else .error (pathError "read".toList path errIsDir)
    | .file data _ =>
      let buf := readFull data pos limit
      .ok { path := path, size := st.Size, mtime := st.ModTime,
            encoding := if encoding = "base64".toList then encoding else "utf8".toList,
            content := if encoding = "base64".toList then EncodeToString buf else buf,
            truncated := decide ((buf.length : Int) < st.Size - offset) }

/-- The map that `Write` returns. -/
structure WriteResult where
  path : List Char
  bytes_written : Int
  mtime : Int
  created : Bool
deriving DecidableEq, Repr

/-- The open flags `Write` derives from the mode. -/
def modeFlags (mode : List Char) : OpenFlags :=
  if mode = "append".toList then { O_APPEND := true, O_EXCL := false, O_TRUNC := false }
  else if mode = "create".toList then { O_APPEND := false, O_EXCL := true, O_TRUNC := false }
  else { O_APPEND := false, O_EXCL := false, O_TRUNC := true }

/-- The part of `Write` after the mtime guard: the data is written, through a
temporary file and a rename when `atomic` is set and the mode is not `append`,
through `os.OpenFile` with the flags of the mode otherwise. -/
def writeData (w : FileSystem) (path : List Char) (data : List Byte) (mode : List Char)
    (atomic : Bool) (existed : Bool) : Except Err WriteResult × FileSystem :=
  let flags := modeFlags mode
  let written : Except Err FileSystem × FileSystem :=
    if atomic ∧ mode ≠ "append".toList then
      let tmp := path ++ ".rexd.tmp".toList
      match WriteFile w tmp data with
      | .error err => (.error err, w)
      | .ok w1 =>
        match Rename w1 tmp path with
        | .error err => (.error err, w1)
        | .ok w2 => (.ok w2, w2)
    else
      match OpenFile w path flags with
      | .error err => (.error err, w)
      | .ok w1 => (.ok (fileWrite w1 path flags data), fileWrite w1 path flags data)
  match written with
  | (.error err, w1) => (.error err, w1)
  | (.ok w2, _) =>
    match Stat w2 path with
    | .error err => (.error err, w2)
    | .ok st =>
      (.ok { path := path, bytes_written := data.length, mtime := st.ModTime,
             created := !existed }, w2)

/-- The method `Service.Write`; the second component is the file system it leaves. -/
def Service.Write (_s : Service) (w : FileSystem) (path : List Char) (data : List Byte)
    (mode : List Char) (mkdirParents atomic : Bool) (expectedMTime : Int) :
    Except Err WriteResult × FileSystem :=
  match (if mkdirParents then MkdirAll w (Dir path) else .ok w) with
  | .error err => (.error err, w)
  | .ok w0 =>
    match Stat w0 path with
    | .ok st =>
      if expectedMTime > 0 ∧ st.ModTime ≠ expectedMTime then (.error Err.conflict, w0)
      else writeData w0 path data mode atomic true
    | .error _ => writeData w0 path data mode atomic false

/-- An element of the `entries` list of `List`. -/
structure Entry where
  name : List Char
  path : List Char
  type : List Char
  size : Option Int
  mtime : Option Int
deriving DecidableEq, Repr

/-- The closure `appendEntry` of `List`, as the entry it appends. -/
def appendEntry (fullPath : List Char) (d : DirEntry) : Entry :=
  { name := d.Name
    path := fullPath
    type := if d.IsDir then "dir".toList else "file".toList
    size := if d.IsDir then none else some d.Info.Size
    mtime := some d.Info.ModTime }

/-- The loop over `os.ReadDir` in the non-recursive branch of `List`. -/
def listFlat (path : List Char) (maxEntries : Int) :
    List DirEntry → List Entry → List Entry
  | [], entries => entries
  | d :: ds, entries =>
    let entries := entries ++ [appendEntry (Join [path, d.Name]) d]
    if maxEntries > 0 ∧ (entries.length : Int) ≥ maxEntries then entries
    else listFlat path maxEntries ds entries

/-- Go `filepath.WalkDir` below the root with the callback of `List`: depth
first in name order; the flag tells that the callback returned `io.EOF`. The
first argument bounds the depth of the walk. -/
def walkDir (w : FileSystem) (maxEntries : Int) :
    Nat → List Char → List Entry → List Entry × Bool
  | 0, _, entries => (entries, false)
  | fuel + 1, path, entries =>
    match ReadDir w path with
    | .error _ => (entries, false)
    | .ok ds =>
      ds.foldl (fun (acc : List Entry × Bool) d =>
        if acc.2 then acc
        else
          let p := Join [path, d.Name]
          let entries := acc.1 ++ [appendEntry p d]
          if maxEntries > 0 ∧ (entries.length : Int) ≥ maxEntries then (entries, true)
          else if d.IsDir then walkDir w maxEntries fuel p entries
          else (entries, false)) (entries, false)

/-- The map that `List` returns. -/
structure ListResult where
  path : List Char
  entries : List Entry
deriving DecidableEq, Repr

/-- The method `Service.Glob`; `glob` stands for `filepath.Glob` on the file
system at hand. -/
def Service.Glob (_s : Service) (glob : List Char → Except Err (List (List Char)))
    (pattern : List Char) (maxMatches : Int) : Except Err (List (List Char)) :=
  match glob pattern with
  | .error err => .error err
  | .ok found =>
    if maxMatches > 0 ∧ (found.length : Int) > maxMatches then .ok (found.take maxMatches.toNat)
    else .ok found

/-- The map that `Stat` returns; `exists_` is its key `exists`. -/
structure StatResult where
  path : List Char
  exists_ : Bool
  type : Option (List Char)
  size : Option Int
  mtime : Option Int
deriving DecidableEq, Repr

def Service.Stat (_s : Service) (w : FileSystem) (path : List Char) : Except Err StatResult :=
  match Rexd.Stat w path with                                  -- os.Lstat
  | .error _ => .ok { path := path, exists_ := false, type := none, size := none, mtime := none }
  | .ok st =>
    .ok { path := path, exists_ := true
          type := some (if st.IsDir then "dir".toList else "file".toList)
          size := some st.Size, mtime := some st.ModTime }

/-- The function `DecodeContent`. -/
def DecodeContent (content : List Byte) (encoding : List Char) : Except Err (List Byte) :=
  if encoding = "base64".toList then DecodeString content
  else .ok content

/-- The method `Service.List`. -/
def Service.List (_s : Service) (w : FileSystem) (path : List Char) (recursive : Bool)
    (maxEntries : Int) : Except Err ListResult :=
  if recursive then
    match Rexd.Stat w path with                         -- the os.Lstat of filepath.WalkDir
    | .error err => .error err
    | .ok _ => .ok { path := path, entries := (walkDir w maxEntries (w.nodes.length + 1) path []).1 }
  else
    match ReadDir w path with
    | .error err => .error err
    | .ok ds => .ok { path := path, entries := listFlat path maxEntries ds [] }

end fssvc

/-! ## `internal/protocol`: notifications -/

namespace protocol

/-- The `params` map of a notification, one shape per method. -/
inductive Params where
  | stream (session_id process_id : List Char) (seq : Int) (data : List Byte)
      (encoding : List Char)
  | execExit (session_id process_id : List Char) (exit_code : Option Int)
      (signal : Option (List Char)) (timed_out : Bool) (duration_ms : Int)
      (bytes_stdout bytes_stderr : Int)
  | ptyOutput (session_id pty_id process_id : List Char) (seq : Int) (data : List Byte)
      (encoding : List Char)
  | ptyExit (session_id pty_id process_id : List Char) (exit_code : Int)
      (signal : Option (List Char)) (duration_ms : Int)
deriving DecidableEq, Repr

structure Notification where
  Method : List Char
  Params : Params
deriving DecidableEq, Repr

end protocol

/-! ## `internal/events/bus.go` -/

namespace events

/-- The bus: the subscriber table (session id, then subscriber id, then the
queued notifications of that channel), and two records the source does not
keep: every call of `Publish` in order, and every channel that was closed, by
session id and subscriber id, in order. -/
structure Bus where
  nextSubID : Int
  subscribers : List (List Char × List (Int × List protocol.Notification))
  published : List (List Char × protocol.Notification)
  closed : List (List Char × Int) := []
deriving DecidableEq, Repr

def NewBus : Bus := { nextSubID := 0, subscribers := [], published := [], closed := [] }

/-- Capacity of a subscriber channel. -/
def queueCap : Nat := 128

/-- The non-blocking send of `Publish` to one channel. -/
def trySend (evt : protocol.Notification) (ch : Int × List protocol.Notification) :
    Int × List protocol.Notification :=
  if ch.2.length < queueCap then (ch.1, ch.2 ++ [evt]) else ch

def Bus.Publish (b : Bus) (sessionID method : List Char) (params : protocol.Params) : Bus :=
  let evt : protocol.Notification := { Method := method, Params := params }
  { b with
    subscribers := b.subscribers.map (fun entry =>
      if entry.1 = sessionID then (entry.1, entry.2.map (trySend evt)) else entry)
    published := b.published ++ [(sessionID, evt)] }

/-- The map read `b.subscribers[sessionID]`. -/
def lookupSubs :
    List (List Char × List (Int × List protocol.Notification)) → List Char →
      Option (List (Int × List protocol.Notification))
  | [], _ => none
  | (k, subs) :: rest, sessionID => if k = sessionID then some subs else lookupSubs rest sessionID

/-- The map read `sessSubs[id]`. -/
def lookupChan : List (Int × List protocol.Notification) → Int →
    Option (List protocol.Notification)
  | [], _ => none
  | (k, q) :: rest, id => if k = id then some q else lookupChan rest id

/-- The queue of the subscriber `id` of a session, when it is registered. -/
def Bus.queue (b : Bus) (sessionID : List Char) (id : Int) :
    Option (List protocol.Notification) :=
  match lookupSubs b.subscribers sessionID with
  | none => none
  | some subs => lookupChan subs id

/-- The method `Subscribe` up to its return: the id of the new subscriber, whose
channel is empty, and the bus. The function it returns is `unsubscribe` below
with this session id and subscriber id. -/
def Bus.Subscribe (b : Bus) (sessionID : List Char) : Int × Bus :=
  let id := b.nextSubID + 1
  let table :=
    match lookupSubs b.subscribers sessionID with
    | none => (sessionID, []) :: b.subscribers
    | some _ => b.subscribers
  (id, { b with
    nextSubID := id
    subscribers := table.map (fun entry =>
      if entry.1 = sessionID then
        (entry.1, (id, []) :: entry.2.filter (fun ch => decide (ch.1 ≠ id)))
      else entry) })

/-- The function that `Subscribe` returns, for the session id and subscriber id
it was made with. -/
def Bus.unsubscribe (b : Bus) (sessionID : List Char) (id : Int) : Bus :=
  match lookupSubs b.subscribers sessionID with
  | none => b
  | some sessSubs =>
    let found := (lookupChan sessSubs id).isSome
    let sessSubs1 := if found then sessSubs.filter (fun ch => decide (ch.1 ≠ id)) else sessSubs
    let closed1 := if found then b.closed ++ [(sessionID, id)] else b.closed
    if sessSubs1.length = 0 then
      { b with
        subscribers := b.subscribers.filter (fun entry => decide (entry.1 ≠ sessionID))
        closed := closed1 }
    else
      { b with
        subscribers := b.subscribers.map (fun entry =>
          if entry.1 = sessionID then (entry.1, sessSubs1) else entry)
        closed := closed1 }

/-- A receive of the consumer from the channel of a subscriber: the oldest
queued notification leaves the queue. -/
def Bus.recv (b : Bus) (sessionID : List Char) (id : Int) : Bus :=
  { b with
    subscribers := b.subscribers.map (fun entry =>
      if entry.1 = sessionID then
        (entry.1, entry.2.map (fun ch => if ch.1 = id then (ch.1, ch.2.drop 1) else ch))
      else entry) }

/-- The buses that subscribers, publishers and consumers bring about from
`NewBus`. -/
inductive Reachable : Bus → Prop where
  | init : Reachable NewBus
  | subscribe (b : Bus) (sessionID : List Char) :
      Reachable b → Reachable (b.Subscribe sessionID).2
  | unsubscribe (b : Bus) (sessionID : List Char) (id : Int) :
      Reachable b → Reachable (b.unsubscribe sessionID id)
  | publish (b : Bus) (sessionID method : List Char) (params : protocol.Params) :
      Reachable b → Reachable (b.Publish sessionID method params)
  | recv (b : Bus) (sessionID : List Char) (id : Int) :
      Reachable b → Reachable (b.recv sessionID id)

end events

/-! ## `internal/exec/manager.go` -/

namespace execsvc

structure ProcessState where
  Status : List Char
  ExitCode : Option Int
  Signal : Option (List Char)
  BytesStdout : Int
  BytesStderr : Int
  TimedOut : Bool
deriving DecidableEq, Repr

/-- What `cmd.Wait()` returns: nil, an `*exec.ExitError` of a child that exited
with a code or was ended by a signal, or any other error. -/
inductive WaitErr where
  | none
  | exited (code : Int)
  | signaled (signal : List Char)
  | other
deriving DecidableEq, Repr

/-- The fields of `RunningProcess` that the code reads and writes. `cancelled`
records that the cancel function stored by `CancelTimeout` was called, `killed`
that `Cmd.Process.Kill` was called; `ExitCh` is the channel of capacity one. -/
structure RunningProcess where
  ID : List Char
  SessionID : List Char
  MaxOutput : Int
  BytesStdout : Int
  BytesStderr : Int
  StdoutSeq : Int
  StderrSeq : Int
  Detached : Bool
  TimedOut : Bool
  ExitCh : Option ProcessState
  cancelled : Bool
  killed : Bool
deriving DecidableEq, Repr

def RunningProcess.MarkTimedOut (p : RunningProcess) : RunningProcess :=
  { p with TimedOut := true }

/-- The registry of processes. It holds each process as it was added; the
counters of a running process are followed in the model of its tasks. -/
structure Manager where
  processes : List (List Char × RunningProcess)
deriving DecidableEq, Repr

def NewManager : Manager := { processes := [] }

def Manager.Add (m : Manager) (p : RunningProcess) : Manager :=
  { processes := (p.ID, p) :: m.processes.filter (fun kp => decide (kp.1 ≠ p.ID)) }

def lookupProcess : List (List Char × RunningProcess) → List Char → Option RunningProcess
  | [], _ => none
  | (k, p) :: rest, id => if k = id then some p else lookupProcess rest id

def processNotFound : Err := Err.other "process not found".toList

def Manager.Get (m : Manager) (id : List Char) : Except Err RunningProcess :=
  match lookupProcess m.processes id with
  | none => .error processNotFound
  | some p => .ok p

def Manager.Remove (m : Manager) (id : List Char) : Manager :=
  { processes := m.processes.filter (fun kp => decide (kp.1 ≠ id)) }

/-- The signals `Kill` sends. -/
inductive Sig where
  | SIGTERM
  | SIGKILL
deriving DecidableEq, Repr

/-- What a request does to a child or a PTY through the operating system, with
the id of the process or PTY in the registry. -/
inductive Effect where
  | signal (processID : List Char) (sig : Sig)
  | waitTimer (processID : List Char) (duration : Int)
  | exitReceived (processID : List Char)
  | stdinWrite (processID : List Char) (data : List Byte)
  | stdinClose (processID : List Char)
  | ptyWrite (ptyID : List Char) (data : List Byte)
  | ptySetsize (ptyID : List Char) (cols rows : Nat)
  | ptyKill (ptyID : List Char)
  | ptyFileClose (ptyID : List Char)
deriving DecidableEq, Repr

/-- The method `Manager.Kill`; `signal` is what `Process.Signal` returns. -/
def Manager.Kill (m : Manager) (signal : Except Err Unit) (id sig : List Char) :
    Except Err Unit × List Effect :=
  match m.Get id with
  | .error err => (.error err, [])
  | .ok p =>
    let s := if sig = "KILL".toList then Sig.SIGKILL else Sig.SIGTERM
    (signal, [.signal p.ID s])

/-- The local variables of the loop of `pipeStream` after its locked section. -/
structure Counted where
  seq : Int
  line : List Byte
  total : Int
  maxOutput : Int
deriving DecidableEq, Repr

/-- The locked section of the loop of `pipeStream` on the token
`scanner.Text()`: the counters of the stream go up, and the values the rest of
the pass works with are read. -/
def pipeCount (p : RunningProcess) (method : List Char) (token : List Byte) :
    RunningProcess × Counted :=
  let line := token ++ [byte 10]
  let p1 : RunningProcess :=
    if method = "exec.stdout".toList then
      { p with StdoutSeq := p.StdoutSeq + 1, BytesStdout := p.BytesStdout + line.length }
    else
      { p with StderrSeq := p.StderrSeq + 1, BytesStderr := p.BytesStderr + line.length }
  let seq := if method = "exec.stderr".toList then p1.StderrSeq else p1.StdoutSeq
  (p1, { seq := seq, line := line, total := p1.BytesStdout + p1.BytesStderr
         maxOutput := p1.MaxOutput })

/-- The test `maxOutput > 0 && total > maxOutput`. -/
def Counted.over (c : Counted) : Bool := decide (c.maxOutput > 0 ∧ c.total > c.maxOutput)

/-- The notification the loop of `pipeStream` publishes. -/
def streamParams (p : RunningProcess) (c : Counted) : protocol.Params :=
  .stream p.SessionID p.ID c.seq c.line "utf8".toList

/-- One pass of the loop of `pipeStream` on the token `scanner.Text()` when
nothing else runs in between: the new bus and process, and whether the loop goes
on. -/
def pipeLine (bus : events.Bus) (p : RunningProcess) (method : List Char)
    (token : List Byte) : events.Bus × RunningProcess × Bool :=
  match pipeCount p method token with
  | (p1, c) =>
    if c.over then (bus, { p1 with killed := true, TimedOut := true }, false)
    else (bus.Publish p1.SessionID method (streamParams p1 c), p1, true)

/-- The method `pipeStream` over the tokens its scanner delivers, when nothing
else runs in between. -/
def pipeStream (bus : events.Bus) (p : RunningProcess) (method : List Char) :
    List (List Byte) → events.Bus × RunningProcess
  | [] => (bus, p)
  | token :: rest =>
    match pipeLine bus p method token with
    | (bus1, p1, true) => pipeStream bus1 p1 method rest
    | (bus1, p1, false) => (bus1, p1)

/-- The function `dropCR` of `bufio`: a trailing carriage return is dropped. -/
def dropCR (data : List Byte) : List Byte :=
  match data.reverse with
  | c :: rest => if c = byte 13 then rest.reverse else data
  | [] => data

/-- The tokens `scanner.Scan()` delivers with `bufio.ScanLines` and a buffer of at
most `max` bytes; `cur` holds the bytes of the current line, last first. The
scan stops for good at a line that does not fit the buffer. -/
def scanFrom (max : Nat) : List Byte → List Byte → List (List Byte)
  | [], cur =>
    if cur = [] then []
    else if cur.length < max then [dropCR cur.reverse] else []
  | b :: rest, cur =>
    if b = byte 10 then
      if cur.length < max then dropCR cur.reverse :: scanFrom max rest [] else []
    else scanFrom max rest (b :: cur)

/-- The buffer limit `pipeStream` gives its scanner. -/
def maxTokenSize : Nat := 1024 * 1024

/-- The tokens the scanner of `pipeStream` delivers for the output `data`. -/
def scanTokens (data : List Byte) : List (List Byte) := scanFrom maxTokenSize data []

/-- The method `Manager.Wait`: the state reported for the process and the
process after the call (its timeout context cancelled). -/
def Manager.Wait (_m : Manager) (p : RunningProcess) (waitErr : WaitErr) :
    ProcessState × RunningProcess :=
  let state : ProcessState :=
    { Status := "exited".toList, ExitCode := none, Signal := none
      BytesStdout := p.BytesStdout, BytesStderr := p.BytesStderr, TimedOut := p.TimedOut }
  let p1 := { p with cancelled := true }
  match waitErr with
  | .none => ({ state with ExitCode := some 0 }, p1)
  | .exited code => ({ state with ExitCode := some code }, p1)
  | .signaled s =>
    ({ state with ExitCode := some (-1), Signal := some s, Status := "killed".toList }, p1)
  | .other => (state, p1)

/-! ## `internal/exec/pty.go` -/

structure PTYSession where
  ID : List Char
  ProcessID : List Char
  SessionID : List Char
  Cols : Nat
  Rows : Nat
deriving DecidableEq, Repr

structure PTYManager where
  ptys : List (List Char × PTYSession)
deriving DecidableEq, Repr

def NewPTYManager : PTYManager := { ptys := [] }

/-- The method `PTYManager.Open`. `spawn` is the outcome of `pty.StartWithSize`,
`stamp1` and `stamp2` are the decimal texts of the two clock readings that make
the ids. -/
def PTYManager.Open (m : PTYManager) (spawn : Except Err Unit) (stamp1 stamp2 : List Char)
    (sessionID : List Char) (argv : List (List Char)) (shell : Bool) (cols rows : Nat) :
    Except Err PTYSession × PTYManager :=
  if !shell ∧ argv.length = 0 then (.error (Err.other "argv is required".toList), m)
  else
    let cols := if cols = 0 then 120 else cols
    let rows := if rows = 0 then 32 else rows
    match spawn with
    | .error err => (.error err, m)
    | .ok _ =>
      let ps : PTYSession :=
        { ID := "pty_".toList ++ stamp1, ProcessID := "p_".toList ++ stamp2
          SessionID := sessionID, Cols := cols, Rows := rows }
      (.ok ps, { ptys := (ps.ID, ps) :: m.ptys.filter (fun kp => decide (kp.1 ≠ ps.ID)) })

def ptyNotFound : Err := Err.other "pty not found".toList

def lookupPTY : List (List Char × PTYSession) → List Char → Option PTYSession
  | [], _ => none
  | (k, ps) :: rest, id => if k = id then some ps else lookupPTY rest id

def PTYManager.Get (m : PTYManager) (id : List Char) : Except Err PTYSession :=
  match lookupPTY m.ptys id with
  | none => .error ptyNotFound
  | some ps => .ok ps

/-- The method `PTYManager.Input`; `write` is what `ps.File.Write` returns. -/
def PTYManager.Input (m : PTYManager) (write : Except Err Nat) (id : List Char)
    (data : List Byte) : Except Err Nat × List Effect :=
  match m.Get id with
  | .error err => (.error err, [])
  | .ok ps => (write, [.ptyWrite ps.ID data])

/-- The method `PTYManager.Resize`; `setsize` is what `pty.Setsize` returns. -/
def PTYManager.Resize (m : PTYManager) (setsize : Except Err Unit) (id : List Char)
    (cols rows : Nat) : Except Err Unit × List Effect :=
  match m.Get id with
  | .error err => (.error err, [])
  | .ok ps => (setsize, [.ptySetsize ps.ID cols rows])

/-- The method `PTYManager.Close`; `close` is what `ps.File.Close` returns. -/
def PTYManager.Close (m : PTYManager) (close : Except Err Unit) (id : List Char) :
    Except Err Unit × List Effect :=
  match m.Get id with
  | .error err => (.error err, [])
  | .ok ps => (close, [.ptyKill ps.ID, .ptyFileClose ps.ID])

end execsvc

/-! ## `internal/audit/logger.go`: the logger -/

namespace audit

structure Logger where
  enabled : Bool
  path : List Char
deriving DecidableEq, Repr

def New (enabled : Bool) (path : List Char) : Logger := { enabled := enabled, path := path }

end audit

/-! ## `internal/session/manager.go` (the part the filesystem methods use) -/

namespace session

structure Session where
  ID : List Char
  ClientName : List Char
  ClientVersion : List Char
  WorkspaceRoots : List (List Char)
  CWD : List Char
  ProcessCount : Int
deriving DecidableEq, Repr

structure Manager where
  sessions : List (List Char × Session)
  maxActive : Int
deriving DecidableEq, Repr

def lookupSession : List (List Char × Session) → List Char → Option Session
  | [], _ => none
  | (k, s) :: rest, id => if k = id then some s else lookupSession rest id

def Manager.Get (m : Manager) (id : List Char) : Except Err Session :=
  match lookupSession m.sessions id with
  | none => .error Err.sessionNotFound
  | some s => .ok s

end session

/-! ## `internal/server/service.go`: the filesystem methods of the dispatcher

Each method is taken from the point where `decode` has turned the raw params
into the typed value of package `protocol`; a request whose params do not
decode fails before any of the steps below. -/

namespace protocol

structure FSReadParams where
  SessionID : List Char
  Path : List Char
  Offset : Int
  Length : Int
  Encoding : List Char
deriving DecidableEq, Repr

structure FSWriteParams where
  SessionID : List Char
  Path : List Char
  Content : List Byte
  Encoding : List Char
  Mode : List Char
  MkdirParents : Bool
  Atomic : Bool
  ExpectedMTime : Int
deriving DecidableEq, Repr

structure FSListParams where
  SessionID : List Char
  Path : List Char
  Recursive : Bool
  MaxEntries : Int
deriving DecidableEq, Repr

structure FSGlobParams where
  SessionID : List Char
  Pattern : List Char
  Cwd : List Char
  MaxMatches : Int
deriving DecidableEq, Repr

structure FSStatParams where
  SessionID : List Char
  Path : List Char
deriving DecidableEq, Repr

end protocol

namespace server

/-- The struct `Service`. -/
structure Service where
  cfg : Config
  sessions : session.Manager
  policy : Engine
  fs : fssvc.Service
  exec : execsvc.Manager := execsvc.NewManager
  pty : execsvc.PTYManager := execsvc.NewPTYManager
  bus : events.Bus := events.NewBus
  audit : audit.Logger := audit.New false []
deriving DecidableEq, Repr

/-- A call of a method of the filesystem service, with its arguments. -/
inductive FsCall where
  | Read (path encoding : List Char) (offset length : Int)
  | Write (path : List Char) (data : List Byte) (mode : List Char)
      (mkdirParents atomic : Bool) (expectedMTime : Int)
  | List (path : List Char) (recursive : Bool) (maxEntries : Int)
  | Glob (pattern : List Char) (maxMatches : Int)
  | Stat (path : List Char)
deriving DecidableEq, Repr

/-- What a dispatcher method leaves behind: its result, the file system, and the
calls it made to the filesystem service, in order. -/
structure Outcome (ρ : Type) where
  result : Except Err ρ
  files : FileSystem
  calls : List FsCall

def Service.resolveSessionPath (s : Service) (env : Env) (sessionID inputPath : List Char) :
    Except Err (List Char) :=
  match s.sessions.Get sessionID with
  | .error err => .error err
  | .ok sess => s.policy.ResolvePath env sess.CWD inputPath

def Service.fsRead (s : Service) (env : Env) (w : FileSystem) (p : protocol.FSReadParams) :
    Outcome fssvc.ReadResult :=
  match s.resolveSessionPath env p.SessionID p.Path with
  | .error err => { result := .error err, files := w, calls := [] }
  | .ok abs =>
    { result := s.fs.Read w abs p.Encoding p.Offset p.Length
      files := w
      calls := [FsCall.Read abs p.Encoding p.Offset p.Length] }

def Service.fsWrite (s : Service) (env : Env) (w : FileSystem) (p : protocol.FSWriteParams) :
    Outcome fssvc.WriteResult :=
  match s.resolveSessionPath env p.SessionID p.Path with
  | .error err => { result := .error err, files := w, calls := [] }
  | .ok abs =>
    match fssvc.DecodeContent p.Content p.Encoding with
    | .error err => { result := .error err, files := w, calls := [] }
    | .ok content =>
      let mode := if p.Mode = [] then "replace".toList else p.Mode
      { result := (s.fs.Write w abs content mode p.MkdirParents true p.ExpectedMTime).1
        files := (s.fs.Write w abs content mode p.MkdirParents true p.ExpectedMTime).2
        calls := [FsCall.Write abs content mode p.MkdirParents true p.ExpectedMTime] }

def Service.fsList (s : Service) (env : Env) (w : FileSystem) (p : protocol.FSListParams) :
    Outcome fssvc.ListResult :=
  match s.resolveSessionPath env p.SessionID p.Path with
  | .error err => { result := .error err, files := w, calls := [] }
  | .ok abs =>
    { result := s.fs.List w abs p.Recursive p.MaxEntries
      files := w
      calls := [FsCall.List abs p.Recursive p.MaxEntries] }

/-- The method `fsGlob`; `glob` stands for `filepath.Glob` on the file system at
hand. The result is the list under the key `matches`. -/
def Service.fsGlob (s : Service) (env : Env) (w : FileSystem)
    (glob : List Char → Except Err (List (List Char))) (p : protocol.FSGlobParams) :
    Outcome (List (List Char)) :=
  match s.sessions.Get p.SessionID with
  | .error err => { result := .error err, files := w, calls := [] }
  | .ok sess =>
    match (if p.Cwd ≠ [] then s.policy.ResolvePath env sess.CWD p.Cwd else .ok sess.CWD) with
    | .error err => { result := .error err, files := w, calls := [] }
    | .ok cwd =>
      let pattern := if !IsAbs p.Pattern then Join [cwd, p.Pattern] else p.Pattern
      match s.fs.Glob glob pattern p.MaxMatches with
      | .error err =>
        { result := .error err, files := w, calls := [FsCall.Glob pattern p.MaxMatches] }
      | .ok found =>
        { result := .ok (found.filter (fun m => s.policy.IsAllowed m))
          files := w
          calls := [FsCall.Glob pattern p.MaxMatches] }

def Service.fsStat (s : Service) (env : Env) (w : FileSystem) (p : protocol.FSStatParams) :
    Outcome fssvc.StatResult :=
  match s.resolveSessionPath env p.SessionID p.Path with
  | .error err => { result := .error err, files := w, calls := [] }
  | .ok abs =>
    { result := s.fs.Stat w abs
      files := w
      calls := [FsCall.Stat abs] }

end server

/-! ## `internal/session/manager.go`: the registry operations -/

namespace session

instance : Inhabited Session :=
  ⟨{ ID := [], ClientName := [], ClientVersion := [], WorkspaceRoots := [], CWD := []
     ProcessCount := 0 }⟩

def NewManager (maxActive : Int) : Manager := { sessions := [], maxActive := maxActive }

def limitReached : Err := Err.other "max concurrent sessions reached".toList

/-- The assignment `m.sessions[id] = s`. -/
def putSession (sessions : List (List Char × Session)) (id : List Char) (s : Session) :
    List (List Char × Session) :=
  (id, s) :: sessions.filter (fun ks => decide (ks.1 ≠ id))

/-- The session `Open` makes: its id is `s_` and the random text, its cwd the
first root, or `/` when there is no root. -/
def newSession (rnd clientName clientVersion : List Char) (roots : List (List Char)) :
    Session :=
  { ID := "s_".toList ++ rnd, ClientName := clientName, ClientVersion := clientVersion
    WorkspaceRoots := roots
    CWD := match roots with
      | [] => "/".toList
      | r :: _ => r
    ProcessCount := 0 }

/-- The method `Open`. `rnd` is the text `randHex(6)` returns, twelve hex digits
drawn by `crypto/rand`. -/
def Manager.Open (m : Manager) (rnd : List Char) (clientName clientVersion : List Char)
    (roots : List (List Char)) : Except Err Session × Manager :=
  if m.maxActive > 0 ∧ (m.sessions.length : Int) ≥ m.maxActive then (.error limitReached, m)
  else
    let s := newSession rnd clientName clientVersion roots
    (.ok s, { m with sessions := putSession m.sessions s.ID s })

def Manager.Close (m : Manager) (id : List Char) : Except Err Unit × Manager :=
  match lookupSession m.sessions id with
  | none => (.error Err.sessionNotFound, m)
  | some _ => (.ok (), { m with sessions := m.sessions.filter (fun ks => decide (ks.1 ≠ id)) })

/-- The update of the session stored under `id`, in place. -/
def updateSession (sessions : List (List Char × Session)) (id : List Char)
    (f : Session → Session) : List (List Char × Session) :=
  sessions.map (fun ks => if ks.1 = id then (ks.1, f ks.2) else ks)

def Manager.SetCWD (m : Manager) (id cwd : List Char) : Except Err Unit × Manager :=
  match lookupSession m.sessions id with
  | none => (.error Err.sessionNotFound, m)
  | some _ =>
    (.ok (), { m with sessions := updateSession m.sessions id (fun s => { s with CWD := cwd }) })

def Manager.IncProcess (m : Manager) (id : List Char) : Except Err Unit × Manager :=
  match lookupSession m.sessions id with
  | none => (.error Err.sessionNotFound, m)
  | some _ =>
    let sessions :=
      updateSession m.sessions id (fun s => { s with ProcessCount := s.ProcessCount + 1 })
    (.ok (), { m with sessions := sessions })

def Manager.DecProcess (m : Manager) (id : List Char) : Except Err Unit × Manager :=
  match lookupSession m.sessions id with
  | none => (.error Err.sessionNotFound, m)
  | some _ =>
    let sessions :=
      updateSession m.sessions id (fun s =>
        if s.ProcessCount > 0 then { s with ProcessCount := s.ProcessCount - 1 } else s)
    (.ok (), { m with sessions := sessions })

end session

/-! ## Concrete services and file systems used as instances -/

/-- One session `s1` whose cwd is `cwd`. -/
def oneSession (cwd : List Char) : session.Manager :=
  { sessions := [("s1".toList,
      { ID := "s1".toList, ClientName := "test".toList, ClientVersion := [],
        WorkspaceRoots := [cwd], CWD := cwd, ProcessCount := 0 })]
    maxActive := 16 }

/-- The service of the default configuration with the single root `/w` and an
open session in it. -/
def serviceW : server.Service :=
  { cfg := { Default with Security := { AllowShell := true, AllowedRoot := [⟨"/w".toList⟩] } }
    sessions := oneSession "/w".toList
    policy := engineW
    fs := fssvc.NewService Default.Limits.MaxFileReadBytes }

/-- The same service with `max_file_read_bytes = 2`. -/
def serviceW2 : server.Service := { serviceW with fs := fssvc.NewService 2 }

/-- The same service with `max_file_read_bytes = 0`. -/
def serviceW0 : server.Service := { serviceW with fs := fssvc.NewService 0 }

/-- The service with the single root `/` and an open session in it. -/
def serviceSlash : server.Service :=
  { cfg := { Default with Security := { AllowShell := true, AllowedRoot := [⟨"/".toList⟩] } }
    sessions := oneSession "/".toList
    policy := engineSlash
    fs := fssvc.NewService Default.Limits.MaxFileReadBytes }

/-- A file system with the directories `/`, `/etc` and `/w` and the file
`/w/a.txt` holding `old`, written at time 1000; the clock shows 2000. -/
def filesW : FileSystem :=
  { nodes := [("/".toList, .dir 4096 500), ("/etc".toList, .dir 4096 500),
              ("/w".toList, .dir 4096 500),
              ("/w/a.txt".toList, .file (bytesOf "old".toList) 1000)]
    now := 2000 }

/-- An implementation of `filepath.Glob` that finds nothing. -/
def globNothing : List Char → Except Err (List (List Char)) := fun _ => .ok []

/-! ## `internal/server/service.go`: sessions, processes and PTYs -/

namespace protocol

structure SessionOpenParams where
  ClientName : List Char
  ClientVersion : List Char
  WorkspaceRoots : List (List Char)
  RequestedCapabilities : List (List Char)
deriving DecidableEq, Repr

structure SessionOpenResult where
  SessionID : List Char
  Protocol : List Char
  ServerVersion : List Char
  Capabilities : List (List Char)
  Limits : List (List Char × Int)
  WorkspaceRoots : List (List Char)
deriving DecidableEq, Repr

structure SessionCloseParams where
  SessionID : List Char
deriving DecidableEq, Repr

structure ExecStartParams where
  SessionID : List Char
  Argv : List (List Char)
  Cwd : List Char
  Env : List (List Char × List Char)
  Stdin : List Byte
  TimeoutMS : Int
  MaxOutputBytes : Int
  Shell : Bool
  Command : List Char
  Detach : Bool
deriving DecidableEq, Repr

structure ExecStartResult where
  ProcessID : List Char
  StartedAt : List Char
deriving DecidableEq, Repr

structure PTYOpenParams where
  SessionID : List Char
  Argv : List (List Char)
  Command : List Char
  Shell : Bool
  Cwd : List Char
  Env : List (List Char × List Char)
  Cols : Nat
  Rows : Nat
deriving DecidableEq, Repr

structure PTYOpenResult where
  PTYID : List Char
  ProcessID : List Char
deriving DecidableEq, Repr

end protocol

namespace server

def ServerVersion : List Char := "0.1.0".toList

/-- The roots `sessionOpen` gives the session: the requested roots that equal a
policy root, in request order, or all policy roots when there is none. -/
def effectiveRoots (policyRoots requested : List (List Char)) : List (List Char) :=
  if requested.length > 0 then
    let filtered := requested.filter (fun r => policyRoots.any (fun allowed => decide (r = allowed)))
    if filtered.length > 0 then filtered else policyRoots
  else policyRoots

/-- The method `sessionOpen`; `rnd` is the random text of the session id. -/
def Service.sessionOpen (s : Service) (rnd : List Char) (p : protocol.SessionOpenParams) :
    Except Err protocol.SessionOpenResult × Service :=
  let roots := effectiveRoots s.policy.AllowedRoots p.WorkspaceRoots
  match s.sessions.Open rnd p.ClientName p.ClientVersion roots with
  | (.error err, _) => (.error err, s)
  | (.ok sess, sessions) =>
    (.ok { SessionID := sess.ID, Protocol := "rexd/1".toList, ServerVersion := ServerVersion
           Capabilities := ["exec".toList, "fs".toList, "events".toList, "pty".toList,
             "http".toList]
           Limits := [("default_timeout_ms".toList, s.cfg.Limits.DefaultTimeoutMs),
             ("max_output_bytes".toList, s.cfg.Limits.MaxOutputBytes)]
           WorkspaceRoots := roots },
      { s with sessions := sessions })

def Service.sessionClose (s : Service) (p : protocol.SessionCloseParams) :
    Except Err Unit × Service :=
  match s.sessions.Close p.SessionID with
  | (.error err, _) => (.error err, s)
  | (.ok _, sessions) => (.ok (), { s with sessions := sessions })

def buildEnv (extra : List (List Char × List Char)) : List (List Char) :=
  extra.map (fun kv => kv.1 ++ "=".toList ++ kv.2)

/-- The value of a Go `int64` computation whose exact result is `x`. -/
def wrapInt64 (x : Int) : Int := (x + 2 ^ 63) % 2 ^ 64 - 2 ^ 63

/-- What `execStart` hands to the operating system and to the tasks it starts:
directory, command line and environment of the child, the clamped `timeoutMS`,
the `time.Duration` in nanoseconds that `context.WithTimeout` gets from it, and
the process object. -/
structure ExecLaunch where
  dir : List Char
  command : List (List Char)
  env : List (List Char)
  timeoutMS : Int
  timeout : Int
  rp : execsvc.RunningProcess
deriving DecidableEq, Repr

def processLimitReached : Err := Err.other "max processes per session reached".toList

/-- The method `execStart` up to its return; the tasks it starts are modelled
apart. `spawn` is the outcome of creating the pipes and starting the child,
`stamp` the decimal text of the clock reading in the process id, `startedAt` the
formatted start time. -/
def Service.execStart (s : Service) (env : Env) (spawn : Except Err Unit)
    (stamp startedAt : List Char) (p : protocol.ExecStartParams) :
    Except Err (protocol.ExecStartResult × ExecLaunch) × Service :=
  match s.sessions.Get p.SessionID with
  | .error err => (.error err, s)
  | .ok sess =>
    if sess.ProcessCount ≥ s.cfg.Limits.MaxProcessesPerSess then (.error processLimitReached, s)
    else
      match (if p.Cwd ≠ [] then s.policy.ResolvePath env sess.CWD p.Cwd else .ok sess.CWD) with
      | .error err => (.error err, s)
      | .ok cwd =>
        let command : Except Err (List (List Char)) :=
          if p.Shell then
            if !s.policy.AllowShell then .error (Err.other "shell mode disabled".toList)
            else if p.Command = [] then
              .error (Err.other "command required when shell=true".toList)
            else .ok ["sh".toList, "-lc".toList, p.Command]
          else
            if p.Argv.length = 0 then .error (Err.other "argv is required".toList)
            else .ok p.Argv
        match command with
        | .error err => (.error err, s)
        | .ok argv =>
          match spawn with
          | .error err => (.error err, s)
          | .ok _ =>
            match s.sessions.IncProcess sess.ID with
            | (.error err, _) => (.error err, s)
            | (.ok _, sessions) =>
              let maxOutput := p.MaxOutputBytes
              let maxOutput := if maxOutput ≤ 0 then s.cfg.Limits.MaxOutputBytes else maxOutput
              let timeoutMS := p.TimeoutMS
              let timeoutMS := if timeoutMS ≤ 0 then s.cfg.Limits.DefaultTimeoutMs else timeoutMS
              let timeoutMS :=
                if timeoutMS > s.cfg.Limits.HardTimeoutMs then s.cfg.Limits.HardTimeoutMs
                else timeoutMS
              let processID := "p_".toList ++ stamp
              let rp : execsvc.RunningProcess :=
                { ID := processID, SessionID := sess.ID, MaxOutput := maxOutput
                  BytesStdout := 0, BytesStderr := 0, StdoutSeq := 0, StderrSeq := 0
                  Detached := p.Detach, TimedOut := false, ExitCh := none
                  cancelled := false, killed := false }
              (.ok ({ ProcessID := processID, StartedAt := startedAt },
                    { dir := cwd, command := argv, env := buildEnv p.Env
                      timeoutMS := timeoutMS, timeout := wrapInt64 (timeoutMS * 1000000)
                      rp := rp }),
                { s with sessions := sessions, exec := s.exec.Add rp })

/-- The method `ptyOpen`; `spawn`, `stamp1` and `stamp2` as in `PTYManager.Open`. -/
def Service.ptyOpen (s : Service) (env : Env) (spawn : Except Err Unit)
    (stamp1 stamp2 : List Char) (p : protocol.PTYOpenParams) :
    Except Err protocol.PTYOpenResult × Service :=
  match s.sessions.Get p.SessionID with
  | .error err => (.error err, s)
  | .ok sess =>
    match (if p.Cwd ≠ [] then s.policy.ResolvePath env sess.CWD p.Cwd else .ok sess.CWD) with
    | .error err => (.error err, s)
    | .ok _ =>
      if p.Shell ∧ !s.policy.AllowShell then (.error (Err.other "shell mode disabled".toList), s)
      else
        match s.pty.Open spawn stamp1 stamp2 p.SessionID p.Argv p.Shell p.Cols p.Rows with
        | (.error err, _) => (.error err, s)
        | (.ok ptySession, pty) =>
          (.ok { PTYID := ptySession.ID, ProcessID := ptySession.ProcessID },
            { s with pty := pty })

/-- The task `PTYManager.wait` once the child of the PTY has ended: it publishes
`pty.exit` and drops the entry. -/
def Service.ptyWait (s : Service) (ps : execsvc.PTYSession) (exitCode : Int)
    (sig : Option (List Char)) (durationMs : Int) : Service :=
  { s with
    bus := s.bus.Publish ps.SessionID "pty.exit".toList
      (.ptyExit ps.SessionID ps.ID ps.ProcessID exitCode sig durationMs)
    pty := { ptys := s.pty.ptys.filter (fun kp => decide (kp.1 ≠ ps.ID)) } }

/-- The relation between a session and the policy roots that `sessionOpen`
sets up: without a policy root the session has no workspace root and its cwd is
`/`; otherwise its workspace roots are policy roots and its cwd is the first. -/
def sessionInRoots (pol : Engine) (sess : session.Session) : Prop :=
  (pol.allowedRoots = [] → sess.WorkspaceRoots = [] ∧ sess.CWD = "/".toList) ∧
  (pol.allowedRoots ≠ [] →
    ∃ r rest, sess.WorkspaceRoots = r :: rest ∧ sess.CWD = r ∧
      sess.CWD ∈ sess.WorkspaceRoots ∧ ∀ x ∈ sess.WorkspaceRoots, x ∈ pol.allowedRoots)

/-- The number of registered processes and PTYs that carry the session id. -/
def Service.liveCount (s : Service) (sessionID : List Char) : Nat :=
  (s.exec.processes.filter (fun kp => decide (kp.2.SessionID = sessionID))).length +
    (s.pty.ptys.filter (fun kp => decide (kp.2.SessionID = sessionID))).length

end server

/-! ## The tasks `execStart` starts for a process

Two pumps (`pipeStream` on stdout and on stderr), the timeout task and the wait
task run concurrently. One step of the model is a stretch of one task: a pump's
`scanner.Scan()` returning, the locked section of a pump's loop, the rest of the
pass (the test of the cap and then `Kill` or `Publish`), the locked assignment
of `TimedOut` after `Kill`, the timeout of the context elapsing, the body of
the timeout task, and the wait task from the return of `cmd.Wait()` on. A
schedule is a list of such steps. -/

namespace server

inductive Stream where
  | stdout
  | stderr
deriving DecidableEq, Repr

def Stream.method : Stream → List Char
  | .stdout => "exec.stdout".toList
  | .stderr => "exec.stderr".toList

/-- Where a pump stands: inside `scanner.Scan()`, holding the token that `Scan`
has just delivered, past the locked section with its local variables, past
`Kill`, or returned. -/
inductive Pump where
  | scanning
  | holding (token : List Byte)
  | counted (c : execsvc.Counted)
  | killing
  | returned
deriving DecidableEq, Repr

/-- The service, the process object, what the scanners would still deliver from
the two pipes, and the position of each task. -/
structure Tasks where
  svc : Service
  p : execsvc.RunningProcess
  pipeOut : List (List Byte)
  pipeErr : List (List Byte)
  pumpOut : Pump
  pumpErr : Pump
  ctxDone : Bool
  timeoutRan : Bool
  waited : Bool
deriving DecidableEq, Repr

inductive Action where
  | scan (s : Stream)
  | count (s : Stream)
  | emit (s : Stream)
  | mark (s : Stream)
  | deadline
  | timeoutTask
  | wait (err : execsvc.WaitErr) (durationMs : Int)
deriving DecidableEq, Repr

def Tasks.pump (t : Tasks) : Stream → Pump
  | .stdout => t.pumpOut
  | .stderr => t.pumpErr

def Tasks.pipe (t : Tasks) : Stream → List (List Byte)
  | .stdout => t.pipeOut
  | .stderr => t.pipeErr

def Tasks.setPump (t : Tasks) (s : Stream) (q : Pump) : Tasks :=
  match s with
  | .stdout => { t with pumpOut := q }
  | .stderr => { t with pumpErr := q }

def Tasks.setPipe (t : Tasks) (s : Stream) (rest : List (List Byte)) : Tasks :=
  match s with
  | .stdout => { t with pipeOut := rest }
  | .stderr => { t with pipeErr := rest }

/-- The tasks right after `execStart`: the child's whole output is `out` on
stdout and `err` on stderr. -/
def Tasks.start (svc : Service) (rp : execsvc.RunningProcess) (out err : List Byte) : Tasks :=
  { svc := svc, p := rp
    pipeOut := execsvc.scanTokens out, pipeErr := execsvc.scanTokens err
    pumpOut := .scanning, pumpErr := .scanning
    ctxDone := false, timeoutRan := false, waited := false }

/-- One step of one task. A step that is not enabled changes nothing. -/
def Tasks.step (t : Tasks) : Action → Tasks
  | .scan s =>
    match t.pump s with
    | .scanning =>
      match t.pipe s with
      | [] => t.setPump s .returned
      | token :: rest => (t.setPipe s rest).setPump s (.holding token)
    | _ => t
  | .count s =>
    match t.pump s with
    | .holding token =>
      ({ t with p := (execsvc.pipeCount t.p s.method token).1 }).setPump s
        (.counted (execsvc.pipeCount t.p s.method token).2)
    | _ => t
  | .emit s =>
    match t.pump s with
    | .counted c =>
      if c.over then ({ t with p := { t.p with killed := true } }).setPump s .killing
      else
        ({ t with svc := { t.svc with
            bus := t.svc.bus.Publish t.p.SessionID s.method (execsvc.streamParams t.p c) } }
          ).setPump s .scanning
    | _ => t
  | .mark s =>
    match t.pump s with
    | .killing => ({ t with p := { t.p with TimedOut := true } }).setPump s .returned
    | _ => t
  | .deadline => { t with ctxDone := true }
  | .timeoutTask =>
    -- the goroutine that waits for execCtx.Done()
    if (t.ctxDone ∨ t.p.cancelled) ∧ !t.timeoutRan then
      { t with p := { t.p.MarkTimedOut with killed := true }, timeoutRan := true }
    else t
  | .wait err durationMs =>
    if t.waited then t
    else
      match t.svc.exec.Wait t.p err with
      | (state, p) =>
        { t with
          p := { p with ExitCh := some state }
          svc := { t.svc with
            bus := t.svc.bus.Publish t.p.SessionID "exec.exit".toList
              (.execExit t.p.SessionID t.p.ID state.ExitCode state.Signal state.TimedOut
                durationMs state.BytesStdout state.BytesStderr)
            exec := t.svc.exec.Remove t.p.ID
            sessions := (t.svc.sessions.DecProcess t.p.SessionID).2 }
          -- cmd.Wait has closed the read ends of the pipes
          pipeOut := [], pipeErr := []
          waited := true }

def Tasks.run (t : Tasks) (schedule : List Action) : Tasks := schedule.foldl Tasks.step t

/-- The `seq` values of the stream notifications of a method in a record of
publications, in order. -/
def streamSeqs (method : List Char) (trace : List (List Char × protocol.Notification)) :
    List Int :=
  trace.filterMap (fun e =>
    if e.2.Method = method then
      match e.2.Params with
      | .stream _ _ seq _ _ => some seq
      | _ => none
    else none)

/-- The stream whose pump takes the step, if the step is a pump's. -/
def Action.stream : Action → Option Stream
  | .scan s => some s
  | .count s => some s
  | .emit s => some s
  | .mark s => some s
  | _ => none

/-- The counter `StdoutSeq` or `StderrSeq` of a stream. -/
def seqOf (st : Stream) (p : execsvc.RunningProcess) : Int :=
  match st with
  | .stdout => p.StdoutSeq
  | .stderr => p.StderrSeq

/-- What a step passes to `Publish`. -/
def Tasks.output (t : Tasks) : Action → List (List Char × protocol.Notification)
  | .emit s =>
    match t.pump s with
    | .counted c =>
      if c.over then []
      else [(t.p.SessionID, { Method := s.method, Params := execsvc.streamParams t.p c })]
    | _ => []
  | .wait err durationMs =>
    if t.waited then []
    else
      [(t.p.SessionID,
        { Method := "exec.exit".toList,
          Params := .execExit t.p.SessionID t.p.ID (t.svc.exec.Wait t.p err).1.ExitCode
            (t.svc.exec.Wait t.p err).1.Signal (t.svc.exec.Wait t.p err).1.TimedOut durationMs
            (t.svc.exec.Wait t.p err).1.BytesStdout (t.svc.exec.Wait t.p err).1.BytesStderr })]
  | _ => []

/-- A pump that will publish nothing more: it is past `Kill` or has returned. -/
def Pump.stopped : Pump → Bool
  | .killing => true
  | .returned => true
  | _ => false

/-- How the counter `seqNow` of a stream stands to the number `n` of
notifications its pump has published, by the position of the pump. -/
def Pump.seqOk (q : Pump) (seqNow n : Int) : Prop :=
  match q with
  | .scanning => seqNow = n
  | .holding _ => seqNow = n
  | .counted c => c.seq = n + 1 ∧ seqNow = n + 1
  | .killing => True
  | .returned => True

/-- The invariant of a pump over the notifications published since the record
of publications was `base`: the seq values of its stream count up from 1, and
the counter of the stream stands to their number as the position of the pump
tells. -/
def seqInv (base : List (List Char × protocol.Notification)) (st : Stream) (t : Tasks) :
    Prop :=
  ∃ new, t.svc.bus.published = base ++ new ∧
    streamSeqs st.method new
      = (List.range' 1 (streamSeqs st.method new).length).map Int.ofNat ∧
    (t.pump st).seqOk (seqOf st t.p) (streamSeqs st.method new).length

/-- The function `NewService`. -/
def NewService (env : Env) (cfg : Config) : Except Err Service :=
  match New env (AllowedRoots cfg) cfg.Security.AllowShell with
  | .error err => .error err
  | .ok pol =>
    .ok { cfg := cfg, sessions := session.NewManager cfg.Limits.MaxConcurrentSessions
          policy := pol, fs := fssvc.NewService cfg.Limits.MaxFileReadBytes
          exec := execsvc.NewManager, pty := execsvc.NewPTYManager, bus := events.NewBus
          audit := audit.New cfg.Audit.Enabled cfg.Audit.Path }

/-- The states of the service that requests and tasks can bring about from a
fresh service. The filesystem methods leave the service as it is. -/
inductive Reachable (env : Env) (cfg : Config) : Service → Prop where
  | init (s : Service) : NewService env cfg = .ok s → Reachable env cfg s
  | sessionOpen (s : Service) (rnd : List Char) (p : protocol.SessionOpenParams) :
      Reachable env cfg s → Reachable env cfg (s.sessionOpen rnd p).2
  | sessionClose (s : Service) (p : protocol.SessionCloseParams) :
      Reachable env cfg s → Reachable env cfg (s.sessionClose p).2
  | execStart (s : Service) (spawn : Except Err Unit) (stamp startedAt : List Char)
      (p : protocol.ExecStartParams) :
      Reachable env cfg s → Reachable env cfg (s.execStart env spawn stamp startedAt p).2
  | ptyOpen (s : Service) (spawn : Except Err Unit) (stamp1 stamp2 : List Char)
      (p : protocol.PTYOpenParams) :
      Reachable env cfg s → Reachable env cfg (s.ptyOpen env spawn stamp1 stamp2 p).2
  | ptyWait (s : Service) (ps : execsvc.PTYSession) (exitCode : Int)
      (sig : Option (List Char)) (durationMs : Int) :
      Reachable env cfg s → Reachable env cfg (s.ptyWait ps exitCode sig durationMs)
  | task (t : Tasks) (a : Action) :
      Reachable env cfg t.svc → Reachable env cfg (t.step a).svc
  | events (s : Service) (bus : events.Bus) :
      -- subscriptions and the output of PTYs change the bus only
      Reachable env cfg s → Reachable env cfg { s with bus := bus }

/-- The service `t` has the policy of `s`, and every session of `t` is a session
of `s` under the same id with the same workspace roots and cwd. -/
def keepsSessions (s t : Service) : Prop :=
  t.policy = s.policy ∧
  ∀ id sess, session.lookupSession t.sessions.sessions id = some sess →
    ∃ old, session.lookupSession s.sessions.sessions id = some old ∧
      sess.WorkspaceRoots = old.WorkspaceRoots ∧ sess.CWD = old.CWD

end server

namespace session

/-- The registries that the operations of `Manager` bring about from
`NewManager maxActive`. -/
inductive Reachable (maxActive : Int) : Manager → Prop where
  | init : Reachable maxActive (NewManager maxActive)
  | open_ (m : Manager) (rnd clientName clientVersion : List Char) (roots : List (List Char)) :
      Reachable maxActive m →
      Reachable maxActive (m.Open rnd clientName clientVersion roots).2
  | close (m : Manager) (id : List Char) :
      Reachable maxActive m → Reachable maxActive (m.Close id).2
  | setCWD (m : Manager) (id cwd : List Char) :
      Reachable maxActive m → Reachable maxActive (m.SetCWD id cwd).2
  | incProcess (m : Manager) (id : List Char) :
      Reachable maxActive m → Reachable maxActive (m.IncProcess id).2
  | decProcess (m : Manager) (id : List Char) :
      Reachable maxActive m → Reachable maxActive (m.DecProcess id).2

end session

/-! ## Concrete services and processes used as instances -/

/-- The default configuration with the single allowed root `/w`. -/
def configW : Config :=
  { Default with Security := { AllowShell := true, AllowedRoot := [⟨"/w".toList⟩] } }

/-- The fresh service of `configW`. -/
def freshW : server.Service :=
  { cfg := configW, sessions := session.NewManager 16, policy := engineW
    fs := fssvc.NewService 1048576 }

/-- The configuration `configW` with room for one session and one process. -/
def configOne : Config :=
  { configW with Limits :=
      { configW.Limits with MaxConcurrentSessions := 1, MaxProcessesPerSess := 1 } }

/-- The fresh service of `configOne`. -/
def freshOne : server.Service :=
  { cfg := configOne, sessions := session.NewManager 1, policy := engineW
    fs := fssvc.NewService 1048576 }

/-- The fresh service of the default configuration, which has no allowed root. -/
def freshNone : server.Service :=
  { cfg := Default, sessions := session.NewManager 16, policy := engineNone
    fs := fssvc.NewService 1048576 }

/-- A `session.open` request of the client `test` for the root `/w`. -/
def openW : protocol.SessionOpenParams :=
  { ClientName := "test".toList, ClientVersion := [], WorkspaceRoots := ["/w".toList]
    RequestedCapabilities := [] }

/-- An `exec.start` request in the session `s_a1` for `sh -lc "printf test-output"`. -/
def startPrintf : protocol.ExecStartParams :=
  { SessionID := "s_a1".toList
    Argv := ["sh".toList, "-lc".toList, "printf test-output".toList]
    Cwd := "/w".toList, Env := [], Stdin := [], TimeoutMS := 0, MaxOutputBytes := 0
    Shell := false, Command := [], Detach := false }

/-- A `pty.open` request in the session `s_a1` for `sh`. -/
def ptySh : protocol.PTYOpenParams :=
  { SessionID := "s_a1".toList, Argv := ["sh".toList], Command := [], Shell := false
    Cwd := [], Env := [], Cols := 0, Rows := 0 }

/-- The service `freshW` after `session.open` has made the session `s_a1`. -/
def withSession : server.Service := (freshW.sessionOpen "a1".toList openW).2

/-- The process object `execStart` makes for `startPrintf` at clock reading 7. -/
def processP7 : execsvc.RunningProcess :=
  { ID := "p_7".toList, SessionID := "s_a1".toList, MaxOutput := 1048576
    BytesStdout := 0, BytesStderr := 0, StdoutSeq := 0, StderrSeq := 0
    Detached := false, TimedOut := false, ExitCh := none, cancelled := false, killed := false }

/-- The service after `exec.start` of `startPrintf` in `withSession`. -/
def withProcess : server.Service :=
  (withSession.execStart envW (.ok ()) "7".toList "t0".toList startPrintf).2

/-- The registry with cap 16 after one `Open` with the random text `a1`. -/
def registryOne : session.Manager :=
  ((session.NewManager 16).Open "a1".toList "test".toList [] ["/w".toList]).2

/-- The service `freshOne` with its one session `s_a1` open. -/
def oneSessionFull : server.Service := (freshOne.sessionOpen "a1".toList openW).2

/-- The service `oneSessionFull` with one process running in the session. -/
def oneProcessFull : server.Service :=
  (oneSessionFull.execStart envW (.ok ()) "7".toList "t0".toList startPrintf).2

/-- The configuration `configW` with a negative hard timeout above a lower default. -/
def configBackward : Config :=
  { configW with Limits :=
      { configW.Limits with DefaultTimeoutMs := -10, HardTimeoutMs := -5 } }

/-- The fresh service of `configBackward`. -/
def freshBackward : server.Service :=
  { cfg := configBackward, sessions := session.NewManager 16, policy := engineW
    fs := fssvc.NewService 1048576 }

/-- The request `startPrintf` with `timeout_ms = -4`. -/
def startMinus4 : protocol.ExecStartParams := { startPrintf with TimeoutMS := -4 }

/-- The request `startPrintf` with `timeout_ms = 300001`. -/
def startOver : protocol.ExecStartParams := { startPrintf with TimeoutMS := 300001 }


/-- The tasks of the process `p_7` whose child writes `test-output` to stdout,
with no newline, and nothing to stderr. -/
def tasksPrintf : server.Tasks :=
  server.Tasks.start withProcess processP7 (bytesOf "test-output".toList) []

/-- The tasks of the process `p_7` whose child writes the line `x` to stdout. -/
def tasksLine : server.Tasks :=
  server.Tasks.start withProcess processP7 (bytesOf "x\n".toList) []

/-- The tasks of the process `p_7` whose child writes `a`, a carriage return and
a newline to stdout. -/
def tasksCRLF : server.Tasks :=
  server.Tasks.start withProcess processP7 (bytesOf "a\r\n".toList) []

/-- The tasks of the process `p_7` whose child writes the lines `a` and `b` to
stdout and the line `e` to stderr. -/
def tasksTwoStreams : server.Tasks :=
  server.Tasks.start withProcess processP7 (bytesOf "a\nb\n".toList) (bytesOf "e\n".toList)

/-- The process `processP7` with an output cap of 4 bytes. -/
def processCap4 : execsvc.RunningProcess := { processP7 with MaxOutput := 4 }

/-- The tasks of `processCap4` whose child writes the lines `a`, `b` and `c` to
stdout, after the first line has been published and the second counted. -/
def tasksAtCap : server.Tasks :=
  (server.Tasks.start withProcess processCap4 (bytesOf "a\nb\nc\n".toList) []).run
    [.scan .stdout, .count .stdout, .emit .stdout, .scan .stdout, .count .stdout]

/-- The tasks `tasksAtCap` after the second line has been published and the
third counted. -/
def tasksOverCap : server.Tasks :=
  tasksAtCap.run [.emit .stdout, .scan .stdout, .count .stdout]

/-- A schedule that runs the tasks of `tasksTwoStreams` to their end, the two
pumps taking turns. -/
def turnsSchedule : List server.Action :=
  [.scan .stdout, .count .stdout, .scan .stderr, .count .stderr, .emit .stderr,
   .emit .stdout, .scan .stdout, .count .stdout, .emit .stdout, .scan .stdout,
   .scan .stderr, .wait .none 5]

/-- The launch `execStart` returns for `startPrintf` in `withSession`. -/
def launchP7 : server.ExecLaunch :=
  { dir := "/w".toList, command := startPrintf.Argv, env := []
    timeoutMS := 30000, timeout := 30000000000, rp := processP7 }
/-! ## `internal/server/service.go`: the remaining methods and the dispatcher -/

namespace protocol

structure SessionInfoParams where
  SessionID : List Char
deriving DecidableEq, Repr

/-- The map that `sessionInfo` returns. -/
structure SessionInfoResult where
  session_id : List Char
  cwd : List Char
  workspace_roots : List (List Char)
  running_processes : Int
  default_timeout_ms : Int
  hard_timeout_ms : Int
  max_output_bytes : Int
deriving DecidableEq, Repr

structure ExecWaitParams where
  SessionID : List Char
  ProcessID : List Char
  TimeoutMS : Int
deriving DecidableEq, Repr

structure ExecWaitResult where
  Status : List Char
  ExitCode : Option Int
  Signal : Option (List Char)
  BytesStdout : Int
  BytesStderr : Int
deriving DecidableEq, Repr

structure ExecKillParams where
  SessionID : List Char
  ProcessID : List Char
  Signal : List Char
deriving DecidableEq, Repr

structure ExecInputParams where
  SessionID : List Char
  ProcessID : List Char
  Data : List Byte
  EOF : Bool
deriving DecidableEq, Repr

structure ExecInputResult where
  AcceptedBytes : Int
deriving DecidableEq, Repr

structure PTYInputParams where
  SessionID : List Char
  PTYID : List Char
  Data : List Byte
deriving DecidableEq, Repr

structure PTYResizeParams where
  SessionID : List Char
  PTYID : List Char
  Cols : Nat
  Rows : Nat
deriving DecidableEq, Repr

structure PTYCloseParams where
  SessionID : List Char
  PTYID : List Char
deriving DecidableEq, Repr

/-- The value of `resp.Result`, one shape per method; `ok` is the map
`{"ok": true}`. -/
inductive Result where
  | sessionOpen (r : SessionOpenResult)
  | sessionInfo (r : SessionInfoResult)
  | ok
  | execStart (r : ExecStartResult)
  | execWait (r : ExecWaitResult)
  | execInput (r : ExecInputResult)
  | fsRead (r : fssvc.ReadResult)
  | fsWrite (r : fssvc.WriteResult)
  | fsList (r : fssvc.ListResult)
  | fsGlob (found : List (List Char))
  | fsStat (r : fssvc.StatResult)
  | ptyOpen (r : PTYOpenResult)
  | acceptedBytes (n : Int)
deriving DecidableEq, Repr

/-- What `decode` returns on the raw params of a request, for each of the
types a method decodes them to. -/
structure Decoded where
  SessionOpen : Except Err SessionOpenParams
  SessionInfo : Except Err SessionInfoParams
  SessionClose : Except Err SessionCloseParams
  ExecStart : Except Err ExecStartParams
  ExecWait : Except Err ExecWaitParams
  ExecKill : Except Err ExecKillParams
  ExecInput : Except Err ExecInputParams
  FSRead : Except Err FSReadParams
  FSWrite : Except Err FSWriteParams
  FSList : Except Err FSListParams
  FSGlob : Except Err FSGlobParams
  FSStat : Except Err FSStatParams
  PTYOpen : Except Err PTYOpenParams
  PTYInput : Except Err PTYInputParams
  PTYResize : Except Err PTYResizeParams
  PTYClose : Except Err PTYCloseParams
deriving DecidableEq, Repr

def Version : List Char := "2.0".toList

/-- The struct `Request`; the id is the raw text, the params are given by what
they decode to. -/
structure Request where
  JSONRPC : List Char
  ID : Option (List Char)
  Method : List Char
  Params : Decoded
deriving DecidableEq, Repr

end protocol

namespace audit

/-- The struct `Entry`, with the fields the dispatcher and the logger set. -/
structure Entry where
  Timestamp : List Char
  Method : List Char
  Result : Option protocol.Result
deriving DecidableEq, Repr

/-- The flags `Write` opens the log with, besides `O_CREATE | O_WRONLY`. -/
def logFlags : OpenFlags := { O_APPEND := true, O_EXCL := false, O_TRUNC := false }

/-- The method `Logger.Write`: what it does to the file system. `stamp` is the
formatted clock reading and `marshal` stands for `json.Marshal`. -/
def Logger.Write (l : Logger) (stamp : List Char)
    (marshal : Entry → Except Err (List Byte)) (w : FileSystem) (entry : Entry) : FileSystem :=
  if !l.enabled ∨ l.path = [] then w
  else
    match marshal { entry with Timestamp := stamp } with
    | .error _ => w
    | .ok raw =>
      match OpenFile w l.path logFlags with
      | .error _ => w
      | .ok w1 => fileWrite (fileWrite w1 l.path logFlags raw) l.path logFlags [byte 10]

end audit

namespace server

/-- The case of the `select` of `execWait` that is taken: a state arrives on the
exit channel of the process, the timer fires, or the context of the request is
done. -/
inductive WaitSelect where
  | exit (st : execsvc.ProcessState)
  | timer
  | ctxDone (err : Err)
deriving DecidableEq, Repr

def Service.sessionInfo (s : Service) (p : protocol.SessionInfoParams) :
    Except Err protocol.SessionInfoResult :=
  match s.sessions.Get p.SessionID with
  | .error err => .error err
  | .ok sess =>
    .ok { session_id := sess.ID, cwd := sess.CWD, workspace_roots := sess.WorkspaceRoots
          running_processes := sess.ProcessCount
          default_timeout_ms := s.cfg.Limits.DefaultTimeoutMs
          hard_timeout_ms := s.cfg.Limits.HardTimeoutMs
          max_output_bytes := s.cfg.Limits.MaxOutputBytes }

/-- The method `execWait`: its result and what it does to the process. -/
def Service.execWait (s : Service) (sel : WaitSelect) (p : protocol.ExecWaitParams) :
    Except Err protocol.ExecWaitResult × List execsvc.Effect :=
  match s.exec.Get p.ProcessID with
  | .error err => (.error err, [])
  | .ok rp =>
    let timeout := p.TimeoutMS
    let timeout := if timeout ≤ 0 then s.cfg.Limits.DefaultTimeoutMs else timeout
    let timer := execsvc.Effect.waitTimer rp.ID (wrapInt64 (timeout * 1000000))
    match sel with
    | .exit st =>
      (.ok { Status := st.Status, ExitCode := st.ExitCode, Signal := st.Signal
             BytesStdout := st.BytesStdout, BytesStderr := st.BytesStderr },
        [timer, .exitReceived rp.ID])
    | .timer =>
      (.ok { Status := "running".toList, ExitCode := none, Signal := none
             BytesStdout := 0, BytesStderr := 0 }, [timer])
    | .ctxDone err => (.error err, [timer])

/-- The method `execKill`; `signal` is what `Process.Signal` returns. -/
def Service.execKill (s : Service) (signal : Except Err Unit) (p : protocol.ExecKillParams) :
    Except Err Unit × List execsvc.Effect :=
  let sig := p.Signal
  let sig := if sig = [] then "TERM".toList else sig
  s.exec.Kill signal p.ProcessID sig

/-- The method `execInput`; `write` is what `rp.Stdin.Write` returns. -/
def Service.execInput (s : Service) (write : Except Err Nat) (p : protocol.ExecInputParams) :
    Except Err protocol.ExecInputResult × List execsvc.Effect :=
  match s.exec.Get p.ProcessID with
  | .error err => (.error err, [])
  | .ok rp =>
    match write with
    | .error err => (.error err, [.stdinWrite rp.ID p.Data])
    | .ok n =>
      (.ok { AcceptedBytes := n },
        if p.EOF then [.stdinWrite rp.ID p.Data, .stdinClose rp.ID]
        else [.stdinWrite rp.ID p.Data])

/-- The method `ptyInput`; the result is the number under `accepted_bytes`. -/
def Service.ptyInput (s : Service) (write : Except Err Nat) (p : protocol.PTYInputParams) :
    Except Err Nat × List execsvc.Effect :=
  s.pty.Input write p.PTYID p.Data

def Service.ptyResize (s : Service) (setsize : Except Err Unit)
    (p : protocol.PTYResizeParams) : Except Err Unit × List execsvc.Effect :=
  s.pty.Resize setsize p.PTYID p.Cols p.Rows

def Service.ptyClose (s : Service) (close : Except Err Unit) (p : protocol.PTYCloseParams) :
    Except Err Unit × List execsvc.Effect :=
  s.pty.Close close p.PTYID

/-- What the surroundings answer while one request is handled. -/
structure Oracle where
  env : Env
  rnd : List Char
  spawn : Except Err Unit
  stamp : List Char
  stamp2 : List Char
  startedAt : List Char
  glob : List Char → Except Err (List (List Char))
  select : WaitSelect
  signal : Except Err Unit
  write : Except Err Nat
  setsize : Except Err Unit
  close : Except Err Unit
  auditStamp : List Char
  marshal : audit.Entry → Except Err (List Byte)

/-- What handling a request leaves behind: the response, the service, the file
system (with the audit log in it), what was done to processes and PTYs, and the
launch of `exec.start`. -/
structure Handled where
  response : Response protocol.Result
  svc : Service
  files : FileSystem
  effects : List execsvc.Effect
  launch : Option ExecLaunch

/-- The end of a case of `Handle`: an error returns `errResp` at once; a result
is put in the response, the audit entry is written and the response returned. -/
def Service.finish (s : Service) (o : Oracle) (id : Option (List Char)) (method : List Char)
    (out : Except Err protocol.Result) (svc : Service) (w : FileSystem)
    (effects : List execsvc.Effect) (launch : Option ExecLaunch) : Handled :=
  match out with
  | .error err =>
    { response := errResp id err, svc := svc, files := w, effects := effects, launch := launch }
  | .ok result =>
    { response := { ID := id, Result := some result, Error := none }
      svc := svc
      files := s.audit.Write o.auditStamp o.marshal w
        { Timestamp := [], Method := method, Result := some result }
      effects := effects, launch := launch }

/-- The method `Handle`. -/
def Service.Handle (s : Service) (o : Oracle) (w : FileSystem) (req : protocol.Request) :
    Handled :=
  let id := req.ID
  if req.JSONRPC ≠ protocol.Version then
    { response := ErrorResponse id ErrInvalidParams "jsonrpc must be 2.0".toList
      svc := s, files := w, effects := [], launch := none }
  else if req.Method = "session.open".toList then
    match req.Params.SessionOpen with
    | .error err => s.finish o id req.Method (.error err) s w [] none
    | .ok p =>
      s.finish o id req.Method ((s.sessionOpen o.rnd p).1.map .sessionOpen)
        (s.sessionOpen o.rnd p).2 w [] none
  else if req.Method = "session.info".toList then
    match req.Params.SessionInfo with
    | .error err => s.finish o id req.Method (.error err) s w [] none
    | .ok p => s.finish o id req.Method ((s.sessionInfo p).map .sessionInfo) s w [] none
  else if req.Method = "session.close".toList then
    match req.Params.SessionClose with
    | .error err => s.finish o id req.Method (.error err) s w [] none
    | .ok p =>
      s.finish o id req.Method ((s.sessionClose p).1.map (fun _ => .ok))
        (s.sessionClose p).2 w [] none
  else if req.Method = "exec.start".toList then
    match req.Params.ExecStart with
    | .error err => s.finish o id req.Method (.error err) s w [] none
    | .ok p =>
      s.finish o id req.Method
        ((s.execStart o.env o.spawn o.stamp o.startedAt p).1.map (fun r => .execStart r.1))
        (s.execStart o.env o.spawn o.stamp o.startedAt p).2 w []
        ((s.execStart o.env o.spawn o.stamp o.startedAt p).1.toOption.map (fun r => r.2))
  else if req.Method = "exec.wait".toList then
    match req.Params.ExecWait with
    | .error err => s.finish o id req.Method (.error err) s w [] none
    | .ok p =>
      s.finish o id req.Method ((s.execWait o.select p).1.map .execWait) s w
        (s.execWait o.select p).2 none
  else if req.Method = "exec.kill".toList then
    match req.Params.ExecKill with
    | .error err => s.finish o id req.Method (.error err) s w [] none
    | .ok p =>
      s.finish o id req.Method ((s.execKill o.signal p).1.map (fun _ => .ok)) s w
        (s.execKill o.signal p).2 none
  else if req.Method = "exec.input".toList then
    match req.Params.ExecInput with
    | .error err => s.finish o id req.Method (.error err) s w [] none
    | .ok p =>
      s.finish o id req.Method ((s.execInput o.write p).1.map .execInput) s w
        (s.execInput o.write p).2 none
  else if req.Method = "fs.read".toList then
    match req.Params.FSRead with
    | .error err => s.finish o id req.Method (.error err) s w [] none
    | .ok p =>
      s.finish o id req.Method ((s.fsRead o.env w p).result.map .fsRead) s
        (s.fsRead o.env w p).files [] none
  else if req.Method = "fs.write".toList then
    match req.Params.FSWrite with
    | .error err => s.finish o id req.Method (.error err) s w [] none
    | .ok p =>
      s.finish o id req.Method ((s.fsWrite o.env w p).result.map .fsWrite) s
        (s.fsWrite o.env w p).files [] none
  else if req.Method = "fs.list".toList then
    match req.Params.FSList with
    | .error err => s.finish o id req.Method (.error err) s w [] none
    | .ok p =>
      s.finish o id req.Method ((s.fsList o.env w p).result.map .fsList) s
        (s.fsList o.env w p).files [] none
  else if req.Method = "fs.glob".toList then
    match req.Params.FSGlob with
    | .error err => s.finish o id req.Method (.error err) s w [] none
    | .ok p =>
      s.finish o id req.Method ((s.fsGlob o.env w o.glob p).result.map .fsGlob) s
        (s.fsGlob o.env w o.glob p).files [] none
  else if req.Method = "fs.stat".toList then
    match req.Params.FSStat with
    | .error err => s.finish o id req.Method (.error err) s w [] none
    | .ok p =>
      s.finish o id req.Method ((s.fsStat o.env w p).result.map .fsStat) s
        (s.fsStat o.env w p).files [] none
  else if req.Method = "pty.open".toList then
    match req.Params.PTYOpen with
    | .error err => s.finish o id req.Method (.error err) s w [] none
    | .ok p =>
      s.finish o id req.Method
        ((s.ptyOpen o.env o.spawn o.stamp o.stamp2 p).1.map .ptyOpen)
        (s.ptyOpen o.env o.spawn o.stamp o.stamp2 p).2 w [] none
  else if req.Method = "pty.input".toList then
    match req.Params.PTYInput with
    | .error err => s.finish o id req.Method (.error err) s w [] none
    | .ok p =>
      s.finish o id req.Method
        ((s.ptyInput o.write p).1.map (fun n => .acceptedBytes n)) s w
        (s.ptyInput o.write p).2 none
  else if req.Method = "pty.resize".toList then
    match req.Params.PTYResize with
    | .error err => s.finish o id req.Method (.error err) s w [] none
    | .ok p =>
      s.finish o id req.Method ((s.ptyResize o.setsize p).1.map (fun _ => .ok)) s w
        (s.ptyResize o.setsize p).2 none
  else if req.Method = "pty.close".toList then
    match req.Params.PTYClose with
    | .error err => s.finish o id req.Method (.error err) s w [] none
    | .ok p =>
      s.finish o id req.Method ((s.ptyClose o.close p).1.map (fun _ => .ok)) s w
        (s.ptyClose o.close p).2 none
  else
    { response := ErrorResponse id ErrMethodNotFound "method not found".toList
      svc := s, files := w, effects := [], launch := none }

end server

namespace events

/-- Every queue in the subscriber table holds at most `queueCap` notifications. -/
def Bus.bounded (b : Bus) : Prop :=
  ∀ entry ∈ b.subscribers, ∀ ch ∈ entry.2, ch.2.length ≤ queueCap

end events

/-! ## Concrete requests used as instances -/

/-- Raw params that decode to no type. -/
def undecodable : protocol.Decoded :=
  { SessionOpen := .error (Err.other "unexpected end of JSON input".toList)
    SessionInfo := .error (Err.other "unexpected end of JSON input".toList)
    SessionClose := .error (Err.other "unexpected end of JSON input".toList)
    ExecStart := .error (Err.other "unexpected end of JSON input".toList)
    ExecWait := .error (Err.other "unexpected end of JSON input".toList)
    ExecKill := .error (Err.other "unexpected end of JSON input".toList)
    ExecInput := .error (Err.other "unexpected end of JSON input".toList)
    FSRead := .error (Err.other "unexpected end of JSON input".toList)
    FSWrite := .error (Err.other "unexpected end of JSON input".toList)
    FSList := .error (Err.other "unexpected end of JSON input".toList)
    FSGlob := .error (Err.other "unexpected end of JSON input".toList)
    FSStat := .error (Err.other "unexpected end of JSON input".toList)
    PTYOpen := .error (Err.other "unexpected end of JSON input".toList)
    PTYInput := .error (Err.other "unexpected end of JSON input".toList)
    PTYResize := .error (Err.other "unexpected end of JSON input".toList)
    PTYClose := .error (Err.other "unexpected end of JSON input".toList) }

/-- A request of version 2.0 with the id 1. -/
def request (method : List Char) (params : protocol.Decoded) : protocol.Request :=
  { JSONRPC := "2.0".toList, ID := some "1".toList, Method := method, Params := params }

/-- A stand-in for `json.Marshal` in the instances: the text of the method. -/
def marshalMethod : audit.Entry → Except Err (List Byte) := fun e => .ok (bytesOf e.Method)

/-- Surroundings in which the operating system refuses nothing. -/
def oracleW : server.Oracle :=
  { env := envW, rnd := "b2".toList, spawn := .ok (), stamp := "8".toList
    stamp2 := "9".toList, startedAt := "t1".toList, glob := globNothing, select := .timer
    signal := .ok (), write := .ok 0, setsize := .ok (), close := .ok ()
    auditStamp := "t2".toList, marshal := marshalMethod }

/-- The request `exec.wait` for the process `p_404` in the session `s_a1`. -/
def waitUnknown : protocol.Request :=
  request "exec.wait".toList { undecodable with
    ExecWait := .ok { SessionID := "s_a1".toList, ProcessID := "p_404".toList, TimeoutMS := 0 } }

/-- The request `exec.kill` for the process `p_404` in the session `s_a1`. -/
def killUnknown : protocol.Request :=
  request "exec.kill".toList { undecodable with
    ExecKill := .ok { SessionID := "s_a1".toList, ProcessID := "p_404".toList, Signal := [] } }

/-- The request `exec.input` for the process `p_404` in the session `s_a1`. -/
def inputUnknown : protocol.Request :=
  request "exec.input".toList { undecodable with
    ExecInput := .ok { SessionID := "s_a1".toList, ProcessID := "p_404".toList, Data := []
                       EOF := false } }

/-- The request `pty.input` for the PTY `pty_404` in the session `s_a1`. -/
def ptyInputUnknown : protocol.Request :=
  request "pty.input".toList { undecodable with
    PTYInput := .ok { SessionID := "s_a1".toList, PTYID := "pty_404".toList, Data := [] } }

/-- The request `pty.resize` for the PTY `pty_404` in the session `s_a1`. -/
def ptyResizeUnknown : protocol.Request :=
  request "pty.resize".toList { undecodable with
    PTYResize := .ok { SessionID := "s_a1".toList, PTYID := "pty_404".toList, Cols := 80
                       Rows := 24 } }

/-- The request `pty.close` for the PTY `pty_404` in the session `s_a1`. -/
def ptyCloseUnknown : protocol.Request :=
  request "pty.close".toList { undecodable with
    PTYClose := .ok { SessionID := "s_a1".toList, PTYID := "pty_404".toList } }

/-- The configuration `configW` with the audit log `/w/audit.log` enabled. -/
def configAudit : Config :=
  { configW with Audit := { Enabled := true, Path := "/w/audit.log".toList } }

/-- The fresh service of `configAudit`. -/
def freshAudit : server.Service :=
  { cfg := configAudit, sessions := session.NewManager 16, policy := engineW
    fs := fssvc.NewService 1048576, audit := audit.New true "/w/audit.log".toList }

/-- The service `freshAudit` after `session.open` has made the session `s_a1`. -/
def auditedSession : server.Service := (freshAudit.sessionOpen "a1".toList openW).2

/-- The request `fs.read` of `/etc/passwd` in the session `s_a1`. -/
def readPasswd : protocol.Request :=
  request "fs.read".toList { undecodable with
    FSRead := .ok { SessionID := "s_a1".toList, Path := "/etc/passwd".toList, Offset := 0
                    Length := 0, Encoding := [] } }

/-- The request `fs.read` of `a.txt` in the session `s_a1`. -/
def readA : protocol.Request :=
  request "fs.read".toList { undecodable with
    FSRead := .ok { SessionID := "s_a1".toList, Path := "a.txt".toList, Offset := 0
                    Length := 0, Encoding := [] } }

/-- The request `fs.read` of the relative path `process not found` in the
session `s_a1`. -/
def readOddName : protocol.Request :=
  request "fs.read".toList { undecodable with
    FSRead := .ok { SessionID := "s_a1".toList, Path := "process not found".toList
                    Offset := 0, Length := 0, Encoding := [] } }

/-- The request of the method `no.such`. -/
def unknownMethod : protocol.Request := request "no.such".toList undecodable

/-- The request `exec.kill` for the process `p_7`, named by a session id. -/
def killP7 (sessionID : List Char) : protocol.ExecKillParams :=
  { SessionID := sessionID, ProcessID := "p_7".toList, Signal := "KILL".toList }

/-- A notification used in the instances. -/
def noteExit : protocol.Notification :=
  { Method := "exec.exit".toList
    Params := .execExit "s".toList "p_1".toList (some 0) none false 5 0 0 }

/-- A bus with the session `s`, whose subscriber 1 has an empty queue and whose
subscriber 2 has a full one, and the session `t` with the subscriber 3. -/
def busFull : events.Bus :=
  { nextSubID := 3
    subscribers := [("s".toList, [(1, []), (2, List.replicate 128 noteExit)]),
                    ("t".toList, [(3, [])])]
    published := [] }

/-- A bus after three calls of `Subscribe`: the subscribers 1 and 2 of the
session `s` and the subscriber 3 of the session `t`. -/
def busThree : events.Bus :=
  ((((events.NewBus.Subscribe "s".toList).2.Subscribe "s".toList).2).Subscribe "t".toList).2

/-! ## Facts about `filepath.Clean` -/

theorem splitSep_ne_nil (p : List Char) : splitSep p ≠ [] := by
  cases p with
  | nil => simp [splitSep]
  | cons c cs =>
    simp only [splitSep]
    split
    · simp
    · split <;> simp

theorem splitSep_noSep (p : List Char) : ∀ s ∈ splitSep p, Separator ∉ s := by
  induction p with
  | nil => simp [splitSep]
  | cons c cs ih =>
    simp only [splitSep]
    split
    · intro s hs
      rcases List.mem_cons.1 hs with h | h
      · subst h; simp
      · exact ih s h
    · rename_i hc
      split
      · intro s hs
        simp only [List.mem_singleton] at hs
        subst hs
        simpa using fun h => hc h.symm
      · rename_i s0 ss heq
        intro s hs
        rw [heq] at ih
        rcases List.mem_cons.1 hs with h | h
        · subst h
          have h0 := ih s0 (List.mem_cons_self _ _)
          intro hmem
          rcases List.mem_cons.1 hmem with h1 | h1
          · exact hc h1.symm
          · exact h0 h1
        · exact ih s (List.mem_cons_of_mem _ h)

theorem splitSep_of_noSep (e : List Char) (h : Separator ∉ e) : splitSep e = [e] := by
  induction e with
  | nil => rfl
  | cons c cs ih =>
    have hc : c ≠ Separator := fun hc => h (by simp [hc])
    have hcs : Separator ∉ cs := fun hm => h (List.mem_cons_of_mem _ hm)
    simp [splitSep, hc, ih hcs]

theorem splitSep_append_sep (e r : List Char) (h : Separator ∉ e) :
    splitSep (e ++ Separator :: r) = e :: splitSep r := by
  induction e with
  | nil => simp [splitSep]
  | cons c cs ih =>
    have hc : c ≠ Separator := fun hc => h (by simp [hc])
    have hcs : Separator ∉ cs := fun hm => h (List.mem_cons_of_mem _ hm)
    simp [splitSep, hc, ih hcs]

theorem splitSep_joinSep (l : List (List Char)) (hne : l ≠ [])
    (h : ∀ e ∈ l, Separator ∉ e) : splitSep (joinSep l) = l := by
  induction l with
  | nil => exact absurd rfl hne
  | cons e es ih =>
    cases es with
    | nil => simpa [joinSep] using splitSep_of_noSep e (h e (List.mem_cons_self _ _))
    | cons e2 es2 =>
      have h1 := h e (List.mem_cons_self _ _)
      have h2 : ∀ x ∈ e2 :: es2, Separator ∉ x := fun x hx => h x (List.mem_cons_of_mem _ hx)
      simp only [joinSep]
      rw [splitSep_append_sep _ _ h1, ih (by simp) h2]

theorem cleanElem_stack (rooted : Bool) (out : List (List Char)) (e : List Char)
    (hout : CleanStack rooted out) (he : Separator ∉ e) :
    CleanStack rooted (cleanElem rooted out e) := by
  unfold cleanElem
  by_cases h1 : e = []
  · simpa [h1] using hout
  by_cases h2 : e = dot
  · simpa [h1, h2] using hout
  by_cases h3 : e = dotdot
  · subst h3
    simp only [h1, h2, if_false, if_true]
    cases out with
    | nil =>
      cases rooted with
      | true => simp [CleanStack]
      | false => simp [CleanStack, dotdot, dot, Separator]
    | cons top rest =>
      simp only
      by_cases ht : top = dotdot
      · subst ht
        simp only [if_true]
        obtain ⟨hr, hall⟩ := hout.2.2.2.1 rfl
        refine ⟨he, h1, h2, fun _ => ⟨hr, ?_⟩, hout⟩
        intro x hx
        rcases List.mem_cons.1 hx with hx | hx
        · exact hx
        · exact hall x hx
      · simp only [ht, if_false]
        exact hout.2.2.2.2
  · simp only [h1, h2, h3, if_false]
    exact ⟨he, h1, h2, fun h => absurd h h3, hout⟩

theorem foldl_cleanElem_stack (rooted : Bool) (l : List (List Char)) :
    ∀ out, CleanStack rooted out → (∀ e ∈ l, Separator ∉ e) →
      CleanStack rooted (l.foldl (cleanElem rooted) out) := by
  induction l with
  | nil => intro out h _; simpa using h
  | cons e es ih =>
    intro out h hl
    simp only [List.foldl_cons]
    exact ih _ (cleanElem_stack rooted out e h (hl e (List.mem_cons_self _ _)))
      (fun x hx => hl x (List.mem_cons_of_mem _ hx))

theorem cleanElems_stack (rooted : Bool) (p : List Char) :
    CleanStack rooted (cleanElems rooted p) :=
  foldl_cleanElem_stack rooted _ [] trivial (splitSep_noSep p)

theorem CleanStack.noSep {rooted : Bool} {out : List (List Char)}
    (h : CleanStack rooted out) : ∀ e ∈ out, Separator ∉ e := by
  induction out with
  | nil => simp
  | cons e rest ih =>
    intro x hx
    rcases List.mem_cons.1 hx with hx | hx
    · subst hx; exact h.1
    · exact ih h.2.2.2.2 x hx

/-- Pushing the top element of a well-shaped buffer onto the rest gives the
buffer back. -/
theorem cleanElem_top (rooted : Bool) (e : List Char) (rest : List (List Char))
    (h : CleanStack rooted (e :: rest)) : cleanElem rooted rest e = e :: rest := by
  obtain ⟨_, h1, h2, h4, _⟩ := h
  unfold cleanElem
  by_cases h3 : e = dotdot
  · subst h3
    obtain ⟨hr, hall⟩ := h4 rfl
    simp only [h1, h2, if_false, if_true]
    cases rest with
    | nil => simp [hr]
    | cons top rest2 => simp [hall top (List.mem_cons_self _ _)]
  · simp [h1, h2, h3]

/-- Cleaning the elements of a well-shaped buffer again changes nothing. -/
theorem foldl_cleanElem_reverse (rooted : Bool) (out : List (List Char))
    (h : CleanStack rooted out) : out.reverse.foldl (cleanElem rooted) [] = out := by
  induction out with
  | nil => rfl
  | cons e rest ih =>
    rw [List.reverse_cons, List.foldl_append, ih h.2.2.2.2]
    simpa using cleanElem_top rooted e rest h

theorem joinSep_head (e : List Char) (es : List (List Char)) :
    ∃ t, joinSep (e :: es) = e ++ t := by
  cases es with
  | nil => exact ⟨[], by simp [joinSep]⟩
  | cons e2 es2 => exact ⟨Separator :: joinSep (e2 :: es2), by simp [joinSep]⟩

theorem IsAbs_Clean (p : List Char) : IsAbs (Clean p) = IsAbs p := by
  unfold Clean
  by_cases hp : p = []
  · subst hp; rfl
  · simp only [hp, if_false]
    cases hr : IsAbs p with
    | true => simp [IsAbs]
    | false =>
      simp only [Bool.false_eq_true, if_false]
      split
      · rfl
      · rename_i hne
        have hst := cleanElems_stack false p
        cases hrev : (cleanElems false p).reverse with
        | nil => exact absurd hrev hne
        | cons e es =>
          have hmem : e ∈ cleanElems false p := by
            have : e ∈ (cleanElems false p).reverse := by rw [hrev]; simp
            simpa using this
          have hns := hst.noSep e hmem
          obtain ⟨t, ht⟩ := joinSep_head e es
          rw [ht]
          cases e with
          | nil =>
            exfalso
            have : ∀ out, CleanStack false out → [] ∉ out := by
              intro out
              induction out with
              | nil => simp
              | cons a r ih =>
                intro h hm
                rcases List.mem_cons.1 hm with hm | hm
                · exact h.2.1 hm.symm
                · exact ih h.2.2.2.2 hm
            exact this _ hst hmem
          | cons c cs =>
            have hc : c ≠ Separator := fun hc => hns (by simp [hc])
            simp [IsAbs, hc]

theorem Clean_ne_nil (p : List Char) : Clean p ≠ [] := by
  unfold Clean
  by_cases hp : p = []
  · simp [hp, dot]
  · simp only [hp, if_false]
    cases hr : IsAbs p with
    | true => simp
    | false =>
      have h := IsAbs_Clean p
      simp only [Bool.false_eq_true, if_false]
      split
      · simp [dot]
      · rename_i hne
        have hst := cleanElems_stack false p
        cases hrev : (cleanElems false p).reverse with
        | nil => exact absurd hrev hne
        | cons e es =>
          have hmem : e ∈ cleanElems false p := by
            have : e ∈ (cleanElems false p).reverse := by rw [hrev]; simp
            simpa using this
          obtain ⟨t, ht⟩ := joinSep_head e es
          rw [ht]
          have hene : e ≠ [] := by
            have : ∀ out, CleanStack false out → ∀ x ∈ out, x ≠ [] := by
              intro out
              induction out with
              | nil => simp
              | cons a r ih =>
                intro h x hm
                rcases List.mem_cons.1 hm with hm | hm
                · subst hm; exact h.2.1
                · exact ih h.2.2.2.2 x hm
            exact this _ hst e hmem
          simp [hene]

/-- Go `filepath.Clean` is idempotent. -/
theorem Clean_idem (p : List Char) : Clean (Clean p) = Clean p := by
  have habs := IsAbs_Clean p
  have hne := Clean_ne_nil p
  by_cases hp : p = []
  · subst hp; decide
  cases hr : IsAbs p with
  | true =>
    have hst := cleanElems_stack true p
    have hc : Clean p = Separator :: joinSep (cleanElems true p).reverse := by
      simp [Clean, hp, hr]
    have hsplit : cleanElems true (Separator :: joinSep (cleanElems true p).reverse)
        = cleanElems true p := by
      unfold cleanElems
      simp only [splitSep, if_true, List.foldl_cons]
      have h0 : cleanElem true [] [] = [] := by simp [cleanElem]
      rw [h0]
      by_cases hemp : (List.foldl (cleanElem true) [] (splitSep p)) = []
      · rw [hemp]; simp [joinSep, splitSep, cleanElem]
      · rw [splitSep_joinSep _ (by simpa using hemp)
          (fun e he => hst.noSep e (by simpa [cleanElems] using he))]
        exact foldl_cleanElem_reverse true _ hst
    rw [hc]
    simp only [Clean, List.cons_ne_nil, if_false]
    simp only [IsAbs, Separator, beq_self_eq_true, if_true]
    have := hsplit
    simp only [Separator] at this
    rw [this]
  | false =>
    have hst := cleanElems_stack false p
    by_cases hemp : (cleanElems false p).reverse = []
    · have hc : Clean p = dot := by simp [Clean, hp, hr, hemp]
      rw [hc]; decide
    · have hc : Clean p = joinSep (cleanElems false p).reverse := by
        simp [Clean, hp, hr, hemp]
      have hsplit : cleanElems false (joinSep (cleanElems false p).reverse)
          = cleanElems false p := by
        have key := splitSep_joinSep _ hemp
          (fun e he => hst.noSep e (by simpa using he))
        show List.foldl (cleanElem false) []
          (splitSep (joinSep (cleanElems false p).reverse)) = cleanElems false p
        rw [key]
        exact foldl_cleanElem_reverse false _ hst
      have hab : IsAbs (joinSep (cleanElems false p).reverse) = false := by
        rw [← hc, habs, hr]
      have hn : joinSep (cleanElems false p).reverse ≠ [] := by rw [← hc]; exact hne
      rw [hc]
      simp only [Clean, hn, hab, if_false, Bool.false_eq_true, hsplit, hemp]

/-! ## Facts about `Join`, `Abs` and the policy engine -/

theorem Join_pair_of_ne_nil (a b : List Char) (h : a ≠ []) :
    Join [a, b] = Clean (a ++ Separator :: b) := by
  cases a with
  | nil => exact absurd rfl h
  | cons c cs => simp [Join, List.dropWhile, joinSep]

theorem IsAbs_ne_nil {p : List Char} (h : IsAbs p = true) : p ≠ [] := by
  intro hp; subst hp; simp [IsAbs] at h

theorem IsAbs_append {a : List Char} (b : List Char) (h : IsAbs a = true) :
    IsAbs (a ++ b) = true := by
  cases a with
  | nil => simp [IsAbs] at h
  | cons c cs => simpa [IsAbs] using h

theorem IsAbs_Join_pair {a : List Char} (b : List Char) (h : IsAbs a = true) :
    IsAbs (Join [a, b]) = true := by
  rw [Join_pair_of_ne_nil a b (IsAbs_ne_nil h), IsAbs_Clean]
  exact IsAbs_append _ h

theorem Abs_of_IsAbs (env : Env) {p : List Char} (h : IsAbs p = true) :
    Abs env p = .ok (Clean p) := by
  simp [Abs, h]

theorem Abs_IsAbs (env : Env) (p a : List Char) (h : Abs env p = .ok a) :
    IsAbs a = true := by
  unfold Abs at h
  by_cases hp : IsAbs p = true
  · simp only [hp, if_true, Except.ok.injEq] at h
    rw [← h, IsAbs_Clean]; exact hp
  · simp only [hp] at h
    unfold Getwd at h
    cases hw : env.wd with
    | none => simp [hw] at h
    | some w =>
      simp only [hw, Except.ok.injEq, Bool.false_eq_true, if_false] at h
      rw [← h]
      exact IsAbs_Join_pair p w.property

theorem IsAllowed_iff (e : Engine) (path : List Char) :
    e.IsAllowed path = true ↔
      ∃ root ∈ e.allowedRoots, Clean path = root ∨ (root ++ [Separator]) <+: Clean path := by
  unfold Engine.IsAllowed
  by_cases h0 : e.allowedRoots.length = 0
  · have : e.allowedRoots = [] := List.length_eq_zero.1 h0
    simp [this]
  · simp only [h0, if_false, List.any_eq_true, Bool.or_eq_true, decide_eq_true_eq, HasPrefix,
      List.isPrefixOf_iff_prefix]

/-- The candidate path that `ResolvePath` builds from its two arguments. -/
theorem ResolvePath_eq (env : Env) (e : Engine) (cwd p : List Char) :
    e.ResolvePath env cwd p =
      match Abs env (if IsAbs p then p else Join [cwd, p]) with
      | .error err => .error err
      | .ok abs => if e.IsAllowed (Clean abs) then .ok (Clean abs) else .error Err.forbiddenPath := by
  unfold Engine.ResolvePath
  cases hp : IsAbs p <;> simp only [Bool.not_false, Bool.not_true, if_true, if_false,
      Bool.false_eq_true] <;>
    (split <;> [rfl; (rename_i abs _; cases e.IsAllowed (Clean abs) <;> simp)])

theorem candidate_IsAbs {cwd p : List Char} (h : IsAbs cwd = true ∨ IsAbs p = true) :
    IsAbs (if IsAbs p then p else Join [cwd, p]) = true := by
  by_cases hp : IsAbs p = true
  · simp [hp]
  · rcases h with h | h
    · simp only [hp, if_false]; exact IsAbs_Join_pair p h
    · exact absurd h hp

theorem ResolvePath_of_abs_candidate (env : Env) (e : Engine) (cwd p : List Char)
    (h : IsAbs cwd = true ∨ IsAbs p = true) :
    e.ResolvePath env cwd p =
      if e.IsAllowed (Clean (if IsAbs p then p else Join [cwd, p]))
      then .ok (Clean (if IsAbs p then p else Join [cwd, p]))
      else .error Err.forbiddenPath := by
  rw [ResolvePath_eq, Abs_of_IsAbs env (candidate_IsAbs h)]
  simp only [Clean_idem]

theorem ResolvePath_ok_props (env : Env) (e : Engine) (cwd p q : List Char)
    (h : e.ResolvePath env cwd p = .ok q) :
    IsAbs q = true ∧ Clean q = q ∧ e.IsAllowed q = true := by
  rw [ResolvePath_eq] at h
  split at h
  · exact absurd h (by simp)
  · rename_i abs habs
    by_cases ha : e.IsAllowed (Clean abs) = true
    · simp only [ha, if_true, Except.ok.injEq] at h
      subst h
      exact ⟨by rw [IsAbs_Clean]; exact Abs_IsAbs env _ _ habs, Clean_idem _, ha⟩
    · simp [ha] at h

theorem normRoots_IsAbs (env : Env) (l : List (List Char)) :
    ∀ norm, normRoots env l = .ok norm → ∀ r ∈ norm, IsAbs r = true ∧ Clean r = r := by
  induction l with
  | nil =>
    intro norm h r hr
    simp only [normRoots, Except.ok.injEq] at h
    subst h; simp at hr
  | cons root rest ih =>
    intro norm h r hr
    simp only [normRoots] at h
    split at h
    · exact absurd h (by simp)
    · rename_i abs habs
      split at h
      · exact absurd h (by simp)
      · rename_i norm2 hn
        simp only [Except.ok.injEq] at h
        subst h
        rcases List.mem_cons.1 hr with hr | hr
        · subst hr
          exact ⟨by rw [IsAbs_Clean]; exact Abs_IsAbs env _ _ habs, Clean_idem _⟩
        · exact ih norm2 hn r hr

/-- Every root of an engine built by `New` is rooted and clean. -/
theorem New_roots (env : Env) (l : List (List Char)) (sh : Bool) (e : Engine)
    (h : New env l sh = .ok e) : ∀ r ∈ e.allowedRoots, IsAbs r = true ∧ Clean r = r := by
  unfold New at h
  split at h
  · exact absurd h (by simp)
  · rename_i norm hn
    simp only [Except.ok.injEq] at h
    subst h
    exact normRoots_IsAbs env l norm hn

/-! ## Facts about base64 -/

theorem decodeChar_encodeChar (v : Nat) (h : v < 64) : decodeChar (encodeChar v) = some v := by
  have key : ∀ w : Fin 64, decodeChar (encodeChar w.val) = some w.val := by decide
  exact key ⟨v, h⟩

theorem encodeChar_plain (v : Nat) (h : v < 64) :
    encodeChar v ≠ StdPadding ∧ encodeChar v ≠ byte 10 ∧ encodeChar v ≠ byte 13 := by
  have key : ∀ w : Fin 64, encodeChar w.val ≠ StdPadding ∧ encodeChar w.val ≠ byte 10 ∧
      encodeChar w.val ≠ byte 13 := by decide
  exact key ⟨v, h⟩

theorem byte_val (a : Byte) (n : Nat) (h : n % 256 = a.val) : byte n = a :=
  Fin.ext h

theorem decodeQuanta_EncodeToString (bs : List Byte) :
    decodeQuanta (EncodeToString bs) = some bs := by
  induction bs using EncodeToString.induct with
  | case1 a b c rest ih =>
    have ha := a.isLt
    have hb := b.isLt
    have hc := c.isLt
    simp only [EncodeToString]
    generalize hval : a.val * 65536 + b.val * 256 + c.val = val
    have h0 : val / 262144 % 64 < 64 := Nat.mod_lt _ (by decide)
    have h1 : val / 4096 % 64 < 64 := Nat.mod_lt _ (by decide)
    have h2 : val / 64 % 64 < 64 := Nat.mod_lt _ (by decide)
    have h3 : val % 64 < 64 := Nat.mod_lt _ (by decide)
    simp only [decodeQuanta]
    rw [decodeChar_encodeChar _ h0, decodeChar_encodeChar _ h1, decodeChar_encodeChar _ h2,
      decodeChar_encodeChar _ h3]
    simp only [(encodeChar_plain _ h2).1, (encodeChar_plain _ h3).1, if_false, ih]
    have e0 : byte ((val / 262144 % 64 * 262144 + val / 4096 % 64 * 4096 + val / 64 % 64 * 64
        + val % 64) / 65536) = a := byte_val _ _ (by omega)
    have e1 : byte ((val / 262144 % 64 * 262144 + val / 4096 % 64 * 4096 + val / 64 % 64 * 64
        + val % 64) / 256) = b := byte_val _ _ (by omega)
    have e2 : byte (val / 262144 % 64 * 262144 + val / 4096 % 64 * 4096 + val / 64 % 64 * 64
        + val % 64) = c := byte_val _ _ (by omega)
    rw [e0, e1, e2]
  | case2 a b =>
    have ha := a.isLt
    have hb := b.isLt
    simp only [EncodeToString]
    generalize hval : a.val * 65536 + b.val * 256 = val
    have h0 : val / 262144 % 64 < 64 := Nat.mod_lt _ (by decide)
    have h1 : val / 4096 % 64 < 64 := Nat.mod_lt _ (by decide)
    have h2 : val / 64 % 64 < 64 := Nat.mod_lt _ (by decide)
    simp only [decodeQuanta]
    rw [decodeChar_encodeChar _ h0, decodeChar_encodeChar _ h1, decodeChar_encodeChar _ h2]
    simp only [(encodeChar_plain _ h2).1, if_false, if_true]
    have e0 : byte ((val / 262144 % 64 * 262144 + val / 4096 % 64 * 4096 + val / 64 % 64 * 64)
        / 65536) = a := byte_val _ _ (by omega)
    have e1 : byte ((val / 262144 % 64 * 262144 + val / 4096 % 64 * 4096 + val / 64 % 64 * 64)
        / 256) = b := byte_val _ _ (by omega)
    rw [e0, e1]
  | case3 a =>
    have ha := a.isLt
    simp only [EncodeToString]
    generalize hval : a.val * 65536 = val
    have h0 : val / 262144 % 64 < 64 := Nat.mod_lt _ (by decide)
    have h1 : val / 4096 % 64 < 64 := Nat.mod_lt _ (by decide)
    simp only [decodeQuanta]
    rw [decodeChar_encodeChar _ h0, decodeChar_encodeChar _ h1]
    simp only [and_self, if_true]
    have e0 : byte ((val / 262144 % 64 * 262144 + val / 4096 % 64 * 4096) / 65536) = a :=
      byte_val _ _ (by omega)
    rw [e0]
  | case4 => rfl

theorem EncodeToString_plain (bs : List Byte) :
    ∀ x ∈ EncodeToString bs, x ≠ byte 10 ∧ x ≠ byte 13 := by
  have hp : StdPadding ≠ byte 10 ∧ StdPadding ≠ byte 13 := by decide
  have he : ∀ v, encodeChar (v % 64) ≠ byte 10 ∧ encodeChar (v % 64) ≠ byte 13 :=
    fun v => (encodeChar_plain _ (Nat.mod_lt _ (by decide))).2
  induction bs using EncodeToString.induct with
  | case1 a b c rest ih =>
    intro x hx
    simp only [EncodeToString, List.mem_cons] at hx
    rcases hx with hx | hx | hx | hx | hx
    · subst hx; exact he _
    · subst hx; exact he _
    · subst hx; exact he _
    · subst hx; exact he _
    · exact ih x hx
  | case2 a b =>
    intro x hx
    simp only [EncodeToString, List.mem_cons, List.mem_singleton, List.not_mem_nil,
      or_false] at hx
    rcases hx with hx | hx | hx | hx
    · subst hx; exact he _
    · subst hx; exact he _
    · subst hx; exact he _
    · subst hx; exact hp
  | case3 a =>
    intro x hx
    simp only [EncodeToString, List.mem_cons, List.mem_singleton, List.not_mem_nil,
      or_false] at hx
    rcases hx with hx | hx | hx | hx
    · subst hx; exact he _
    · subst hx; exact he _
    · subst hx; exact hp
    · subst hx; exact hp
  | case4 => intro x hx; simp [EncodeToString] at hx

/-- Decoding the standard base64 text of a byte sequence gives the sequence back. -/
theorem DecodeString_EncodeToString (bs : List Byte) :
    DecodeString (EncodeToString bs) = .ok bs := by
  unfold DecodeString
  have hf : (EncodeToString bs).filter (fun c => decide (c ≠ byte 10 ∧ c ≠ byte 13))
      = EncodeToString bs := by
    rw [List.filter_eq_self]
    intro x hx
    simpa using EncodeToString_plain bs x hx
  rw [hf, decodeQuanta_EncodeToString]

/-! ## Facts about the file system model -/

theorem lookupNode_filter (nodes : List (List Char × Node)) (p q : List Char) :
    lookupNode (nodes.filter (fun kn => decide (kn.1 ≠ p))) q
      = if q = p then none else lookupNode nodes q := by
  induction nodes with
  | nil => simp [lookupNode]
  | cons kn rest ih =>
    obtain ⟨k, n⟩ := kn
    by_cases hk : k = p
    · subst hk
      simp only [List.filter, ne_eq, not_true_eq_false, decide_False, ih, lookupNode]
      by_cases hq : q = k
      · simp [hq]
      · have : ¬ k = q := fun h => hq h.symm
        simp [hq, this]
    · simp only [List.filter, ne_eq, hk, not_false_eq_true, decide_True, lookupNode, ih]
      by_cases hq : q = p
      · subst hq; simp [hk]
      · simp [hq]

theorem lookup_set (w : FileSystem) (p q : List Char) (n : Node) :
    (w.set p n).lookup q = if q = p then some n else w.lookup q := by
  simp only [FileSystem.lookup, FileSystem.set, lookupNode, lookupNode_filter]
  by_cases hq : q = p
  · subst hq; simp
  · have : ¬ p = q := fun h => hq h.symm
    simp [hq, this]

theorem lookup_remove (w : FileSystem) (p q : List Char) :
    (w.remove p).lookup q = if q = p then none else w.lookup q := by
  simp only [FileSystem.lookup, FileSystem.remove, lookupNode_filter]

theorem ancestorChain_head (path : List Char) : ∃ rest, ancestorChain path = path :: rest := by
  unfold ancestorChain
  by_cases h : IsAbs path = true
  · simp only [h, if_true]; exact ⟨_, rfl⟩
  · simp only [h]; exact ⟨_, rfl⟩

/-- On an existing directory `MkdirAll` succeeds and changes nothing. -/
theorem MkdirAll_of_dir (w : FileSystem) (path : List Char) (size mtime : Int)
    (h : w.lookup path = some (.dir size mtime)) : MkdirAll w path = .ok w := by
  obtain ⟨rest, hrest⟩ := ancestorChain_head path
  simp [MkdirAll, hrest, mkdirAllChain, h]

theorem Stat_ne_conflict (w : FileSystem) (p : List Char) : Stat w p ≠ .error Err.conflict := by
  unfold Stat
  split <;> simp [errNotExist]

theorem OpenFile_ne_conflict (w : FileSystem) (p : List Char) (flags : OpenFlags) :
    OpenFile w p flags ≠ .error Err.conflict := by
  unfold OpenFile
  split
  · simp [errIsDir]
  · split
    · simp [errExist]
    · split <;> simp
  · split <;> simp [errNotDir, errNotExist]

theorem WriteFile_ne_conflict (w : FileSystem) (p : List Char) (data : List Byte) :
    WriteFile w p data ≠ .error Err.conflict := by
  unfold WriteFile
  split
  · rename_i err herr
    intro h
    simp only [Except.error.injEq] at h
    subst h
    exact OpenFile_ne_conflict _ _ _ herr
  · simp

theorem Rename_ne_conflict (w : FileSystem) (p q : List Char) :
    Rename w p q ≠ .error Err.conflict := by
  unfold Rename
  split
  · simp [errNotExist]
  · split
    · simp [errIsDir]
    · split <;> simp

/-- The writing part of `Write` never reports an mtime conflict. -/
theorem writeData_ne_conflict (w : FileSystem) (path : List Char) (data : List Byte)
    (mode : List Char) (atomic existed : Bool) :
    (fssvc.writeData w path data mode atomic existed).1 ≠ .error Err.conflict := by
  unfold fssvc.writeData
  simp only
  split
  · rename_i err w1 heq
    intro h
    simp only [Except.error.injEq] at h
    subst h
    split at heq
    · split at heq
      · rename_i e he
        simp only [Prod.mk.injEq, Except.error.injEq] at heq
        rw [heq.1] at he
        exact WriteFile_ne_conflict _ _ _ he
      · split at heq
        · rename_i e he
          simp only [Prod.mk.injEq, Except.error.injEq] at heq
          rw [heq.1] at he
          exact Rename_ne_conflict _ _ _ he
        · simp at heq
    · split at heq
      · rename_i e he
        simp only [Prod.mk.injEq, Except.error.injEq] at heq
        rw [heq.1] at he
        exact OpenFile_ne_conflict _ _ _ he
      · simp at heq
  · split
    · rename_i err herr
      intro h
      simp only [Except.error.injEq] at h
      subst h
      exact Stat_ne_conflict _ _ herr
    · simp

theorem Mkdir_lookup (w w1 : FileSystem) (p : List Char) (h : Mkdir w p = .ok w1) (q : List Char) :
    w1.lookup q = w.lookup q ∨ (w.lookup q = none ∧ ∃ size mtime, w1.lookup q = some (.dir size mtime)) := by
  unfold Mkdir at h
  split at h
  · exact absurd h (by simp)
  · rename_i hp
    split at h
    · simp only [Except.ok.injEq] at h
      subst h
      rw [lookup_set]
      by_cases hq : q = p
      · subst hq
        exact Or.inr ⟨hp, 0, w.now, by simp⟩
      · exact Or.inl (by simp [hq])
    · exact absurd h (by simp)
    · exact absurd h (by simp)

/-- Every node survives `MkdirAll`, which adds nothing but directories. -/
theorem mkdirAllChain_lookup (w : FileSystem) (chain : List (List Char)) :
    ∀ w0, mkdirAllChain w chain = .ok w0 → ∀ q,
      w0.lookup q = w.lookup q ∨
        (w.lookup q = none ∧ ∃ size mtime, w0.lookup q = some (.dir size mtime)) := by
  induction chain with
  | nil =>
    intro w0 h q
    simp only [mkdirAllChain, Except.ok.injEq] at h
    subst h; exact Or.inl rfl
  | cons p parents ih =>
    intro w0 h q
    simp only [mkdirAllChain] at h
    split at h
    · simp only [Except.ok.injEq] at h
      subst h; exact Or.inl rfl
    · exact absurd h (by simp)
    · split at h
      · exact absurd h (by simp)
      · rename_i w1 hw1
        rcases Mkdir_lookup w1 w0 p h q with h1 | ⟨h1, h2⟩
        · rcases ih w1 hw1 q with h3 | ⟨h3, h4⟩
          · exact Or.inl (h1.trans h3)
          · exact Or.inr ⟨h3, by rw [h1]; exact h4⟩
        · rcases ih w1 hw1 q with h3 | ⟨h3, h4⟩
          · exact Or.inr ⟨by rw [← h3]; exact h1, h2⟩
          · exact Or.inr ⟨h3, h2⟩

theorem OpenFile_trunc (w w1 : FileSystem) (p : List Char)
    (h : OpenFile w p { O_APPEND := false, O_EXCL := false, O_TRUNC := true } = .ok w1) :
    w1 = w.set p (.file [] w.now) := by
  unfold OpenFile at h
  split at h
  · exact absurd h (by simp)
  · simp only [Bool.false_eq_true, if_false, if_true, Except.ok.injEq] at h
    exact h.symm
  · split at h
    · simp only [Except.ok.injEq] at h
      exact h.symm
    · exact absurd h (by simp)
    · exact absurd h (by simp)

/-- After `os.WriteFile` the path holds the data; every other path is untouched. -/
theorem WriteFile_lookup (w w1 : FileSystem) (p : List Char) (data : List Byte)
    (h : WriteFile w p data = .ok w1) :
    (∃ mtime, w1.lookup p = some (.file data mtime)) ∧
      ∀ q, q ≠ p → w1.lookup q = w.lookup q := by
  unfold WriteFile at h
  split at h
  · exact absurd h (by simp)
  · rename_i w0 hopen
    have hw0 := OpenFile_trunc w w0 p hopen
    simp only [Except.ok.injEq] at h
    subst h
    subst hw0
    unfold fileWrite
    by_cases hd : data = []
    · subst hd
      simp only [if_true]
      exact ⟨⟨w.now, by simp [lookup_set]⟩, fun q hq => by simp [lookup_set, hq]⟩
    · simp only [hd, if_false, lookup_set, if_true, Bool.false_eq_true, List.drop_nil,
        List.append_nil]
      exact ⟨⟨(w.set p (.file [] w.now)).now, by simp [lookup_set]⟩,
        fun q hq => by simp [lookup_set, hq]⟩

/-- After a successful `os.Rename` the new path holds the node of the old one,
and the new path was not a directory. -/
theorem Rename_lookup (w w2 : FileSystem) (old new : List Char) (n : Node)
    (hold : w.lookup old = some n) (hne : old ≠ new) (h : Rename w old new = .ok w2) :
    w2.lookup new = some n ∧ ∀ size mtime, w.lookup new ≠ some (.dir size mtime) := by
  unfold Rename at h
  simp only [hold] at h
  split at h
  · exact absurd h (by simp)
  · rename_i hnd
    simp only [hne, if_false, Except.ok.injEq] at h
    subst h
    refine ⟨?_, fun size mtime hc => hnd size mtime hc⟩
    rw [lookup_remove, lookup_set]
    have : ¬ new = old := fun h => hne h.symm
    simp [this]

theorem append_ne_self (p ext : List Char) (h : ext ≠ []) : p ++ ext ≠ p := by
  intro hc
  have := congrArg List.length hc
  simp only [List.length_append] at this
  have : ext.length = 0 := by omega
  exact h (List.length_eq_zero.1 this)

/-! ## Facts about `Write` and `Read` -/

/-- With the parent directory in place, `Write` starts with the existence check
on the unchanged file system. -/
theorem Write_of_existing (s : fssvc.Service) (w : FileSystem) (path : List Char)
    (data : List Byte) (mode : List Char) (mkdirParents atomic : Bool) (expectedMTime : Int)
    (st : FileInfo) (hst : Stat w path = .ok st)
    (hparent : mkdirParents = true → ∃ size mtime, w.lookup (Dir path) = some (.dir size mtime)) :
    s.Write w path data mode mkdirParents atomic expectedMTime =
      if expectedMTime > 0 ∧ st.ModTime ≠ expectedMTime then (.error Err.conflict, w)
      else fssvc.writeData w path data mode atomic true := by
  have hmk : (if mkdirParents then MkdirAll w (Dir path) else .ok w) = .ok w := by
    cases hm : mkdirParents with
    | false => simp
    | true =>
      obtain ⟨size, mtime, hd⟩ := hparent hm
      simp [MkdirAll_of_dir w (Dir path) size mtime hd]
  unfold fssvc.Service.Write
  rw [hmk]
  simp only [hst]

theorem take_eq_take_length (l : List Byte) (n : Nat) :
    l.take n = l.take (l.take n).length := by
  rw [List.length_take]
  by_cases h : n ≤ l.length
  · rw [Nat.min_eq_left h]
  · have h2 : l.length ≤ n := by omega
    rw [Nat.min_eq_right h2, List.take_of_length_le h2, List.take_of_length_le (le_refl _)]

theorem readLimit_nonneg (s : fssvc.Service) (length size : Int) (h : 0 ≤ size) :
    0 ≤ fssvc.readLimit s length size := by
  unfold fssvc.readLimit
  simp only
  split_ifs <;> omega

theorem readFull_length (data : List Byte) (pos limit : Int) (hp : 0 ≤ pos) (hl : 0 ≤ limit) :
    ((fssvc.readFull data pos limit).length : Int) = min limit (max 0 (data.length - pos)) := by
  unfold fssvc.readFull
  simp only [List.length_take, List.length_drop]
  omega

theorem writeData_atomic (w0 : FileSystem) (path : List Char) (data : List Byte)
    (mode : List Char) (existed : Bool) (r : fssvc.WriteResult)
    (hmode : mode ≠ "append".toList)
    (h : (fssvc.writeData w0 path data mode true existed).1 = .ok r) :
    (∃ mtime, (fssvc.writeData w0 path data mode true existed).2.lookup path
        = some (.file data mtime)) ∧
      r.bytes_written = data.length ∧ r.created = !existed ∧
      ∀ size mtime, w0.lookup path ≠ some (.dir size mtime) := by
  have hne : path ++ ".rexd.tmp".toList ≠ path := append_ne_self _ _ (by decide)
  unfold fssvc.writeData at h ⊢
  generalize path ++ ".rexd.tmp".toList = tmp at h hne ⊢
  simp only [hmode, ne_eq, not_false_eq_true, and_self, if_true] at h ⊢
  cases hwf : WriteFile w0 tmp data with
  | error err => simp [hwf] at h
  | ok w1 =>
    obtain ⟨⟨m, htmp⟩, hother⟩ := WriteFile_lookup w0 w1 _ data hwf
    cases hrn : Rename w1 tmp path with
    | error err => simp [hwf, hrn] at h
    | ok w2 =>
      obtain ⟨hnew, hnd⟩ := Rename_lookup w1 w2 _ path _ htmp hne hrn
      have hst : Stat w2 path = .ok (Node.file data m).info := by simp [Stat, hnew]
      simp only [hwf, hrn, hst, Except.ok.injEq] at h ⊢
      subst h
      refine ⟨⟨m, hnew⟩, rfl, rfl, ?_⟩
      intro size mtime hc
      rw [← hother path (fun h => hne h.symm)] at hc
      exact hnd size mtime hc

/-- A successful atomic `Write` in a mode other than `append` leaves the data at
the path, reports its length, and reports `created` exactly when the path did
not exist before. -/
theorem Write_atomic_ok (s : fssvc.Service) (w : FileSystem) (path : List Char)
    (data : List Byte) (mode : List Char) (mkdirParents : Bool) (expectedMTime : Int)
    (r : fssvc.WriteResult) (hmode : mode ≠ "append".toList)
    (h : (s.Write w path data mode mkdirParents true expectedMTime).1 = .ok r) :
    (∃ mtime, (s.Write w path data mode mkdirParents true expectedMTime).2.lookup path
        = some (.file data mtime)) ∧
      r.bytes_written = data.length ∧ (r.created = true ↔ w.lookup path = none) := by
  unfold fssvc.Service.Write at h ⊢
  cases hmk : (if mkdirParents then MkdirAll w (Dir path) else .ok w) with
  | error err => simp [hmk] at h
  | ok w0 =>
    have hkeep : w0.lookup path = w.lookup path ∨
        (w.lookup path = none ∧ ∃ size mtime, w0.lookup path = some (.dir size mtime)) := by
      cases hm : mkdirParents with
      | false =>
        simp only [hm, Bool.false_eq_true, if_false, Except.ok.injEq] at hmk
        subst hmk; exact Or.inl rfl
      | true =>
        simp only [hm, if_true] at hmk
        exact mkdirAllChain_lookup w _ w0 hmk path
    simp only [hmk] at h ⊢
    cases hl : w0.lookup path with
    | none =>
      have hst : Stat w0 path = .error errNotExist := by simp [Stat, hl]
      simp only [hst] at h ⊢
      obtain ⟨h1, h2, h3, _⟩ := writeData_atomic w0 path data mode false r hmode h
      refine ⟨h1, h2, ?_⟩
      rw [h3]
      rcases hkeep with hk | ⟨hk, _⟩
      · rw [← hk, hl]; simp
      · simp [hk]
    | some n =>
      have hst : Stat w0 path = .ok n.info := by simp [Stat, hl]
      simp only [hst] at h ⊢
      by_cases hg : expectedMTime > 0 ∧ n.info.ModTime ≠ expectedMTime
      · simp [hg] at h
      · simp only [hg, if_false] at h ⊢
        obtain ⟨h1, h2, h3, h4⟩ := writeData_atomic w0 path data mode true r hmode h
        refine ⟨h1, h2, ?_⟩
        rw [h3]
        rcases hkeep with hk | ⟨_, size, mtime, hk⟩
        · rw [← hk, hl]; simp
        · exact absurd hk (h4 size mtime)

/-- A plain read (offset 0, no length) of a file that fits the read limit
returns the whole file. -/
theorem Read_whole (s : fssvc.Service) (w : FileSystem) (path encoding : List Char)
    (data : List Byte) (mtime : Int) (h : w.lookup path = some (.file data mtime))
    (hlen : s.maxReadBytes ≤ 0 ∨ (data.length : Int) ≤ s.maxReadBytes) :
    s.Read w path encoding 0 0 = .ok
      { path := path, size := data.length, mtime := mtime
        encoding := if encoding = "base64".toList then encoding else "utf8".toList
        content := if encoding = "base64".toList then EncodeToString data else data
        truncated := false } := by
  have hlim : (data.length : Int) ≤ fssvc.readLimit s 0 data.length := by
    unfold fssvc.readLimit
    simp only
    split_ifs <;> omega
  have hbuf : fssvc.readFull data 0 (fssvc.readLimit s 0 data.length) = data := by
    unfold fssvc.readFull
    simp only [Int.toNat_zero, List.drop_zero]
    exact List.take_of_length_le (by omega)
  simp [fssvc.Service.Read, h, Node.info, hbuf]

theorem DecodeContent_encoded (b : List Byte) (enc : List Char) :
    fssvc.DecodeContent (if enc = "base64".toList then EncodeToString b else b) enc = .ok b := by
  unfold fssvc.DecodeContent
  by_cases he : enc = "base64".toList
  · simp only [he, if_true]; exact DecodeString_EncodeToString b
  · simp only [he, if_false]

/-! ## Facts about listed paths -/

theorem splitSep_append (a b : List Char) :
    splitSep (a ++ Separator :: b) = splitSep a ++ splitSep b := by
  induction a with
  | nil => simp [splitSep]
  | cons c cs ih =>
    by_cases hc : c = Separator
    · simp [splitSep, hc, ih]
    · have e1 : ∀ t : List Char, splitSep (c :: t) =
          match splitSep t with
          | [] => [[c]]
          | s :: ss => (c :: s) :: ss := by
        intro t; simp [splitSep, hc]
      rw [List.cons_append, e1, e1, ih]
      cases hs : splitSep cs with
      | nil => exact absurd hs (splitSep_ne_nil cs)
      | cons s0 ss0 => simp

theorem joinSep_append_singleton (l : List (List Char)) (name : List Char) :
    joinSep (l ++ [name]) = if l = [] then name else joinSep l ++ Separator :: name := by
  induction l with
  | nil => simp [joinSep]
  | cons e es ih =>
    cases es with
    | nil => simp [joinSep]
    | cons e2 es2 =>
      have ih2 : joinSep (e2 :: (es2 ++ [name])) = joinSep (e2 :: es2) ++ Separator :: name := by
        simpa using ih
      show e ++ Separator :: joinSep (e2 :: (es2 ++ [name])) = _
      rw [ih2]
      simp [joinSep]

theorem cleanElem_good (rooted : Bool) (out : List (List Char)) (name : List Char)
    (h : GoodName name) : cleanElem rooted out name = name :: out := by
  obtain ⟨h1, _, h3, h4⟩ := h
  simp [cleanElem, h1, h3, h4]

/-- Joining a file name onto a clean rooted directory appends it after one separator. -/
theorem Join_child (abs name : List Char) (habs : IsAbs abs = true) (hclean : Clean abs = abs)
    (hname : GoodName name) :
    Join [abs, name] = if abs = [Separator] then Separator :: name else abs ++ Separator :: name := by
  have hne := IsAbs_ne_nil habs
  rw [Join_pair_of_ne_nil abs name hne]
  have hform : abs = Separator :: joinSep (cleanElems true abs).reverse := by
    have h := hclean
    unfold Clean at h
    simp only [hne, if_false, habs, if_true] at h
    exact h.symm
  have helems : cleanElems true (abs ++ Separator :: name) = name :: cleanElems true abs := by
    unfold cleanElems
    rw [splitSep_append, List.foldl_append, splitSep_of_noSep name hname.2.1]
    simp only [List.foldl_cons, List.foldl_nil]
    exact cleanElem_good true _ name hname
  have hrooted : IsAbs (abs ++ Separator :: name) = true := IsAbs_append _ habs
  have hne2 : abs ++ Separator :: name ≠ [] := IsAbs_ne_nil hrooted
  unfold Clean
  simp only [hne2, if_false, hrooted, if_true, helems, List.reverse_cons,
    joinSep_append_singleton]
  by_cases hemp : (cleanElems true abs).reverse = []
  · have habs1 : abs = [Separator] := by rw [hform, hemp]; rfl
    rw [if_pos hemp, if_pos habs1]
  · have hst := cleanElems_stack true abs
    have hjn : joinSep (cleanElems true abs).reverse ≠ [] := by
      cases hrev : (cleanElems true abs).reverse with
      | nil => exact absurd hrev hemp
      | cons e es =>
        obtain ⟨t, ht⟩ := joinSep_head e es
        rw [ht]
        have hmem : e ∈ cleanElems true abs := by
          have : e ∈ (cleanElems true abs).reverse := by rw [hrev]; simp
          simpa using this
        have hene : e ≠ [] := by
          have : ∀ out, CleanStack true out → ∀ x ∈ out, x ≠ [] := by
            intro out
            induction out with
            | nil => simp
            | cons a r ih =>
              intro h x hm
              rcases List.mem_cons.1 hm with hm | hm
              · subst hm; exact h.2.1
              · exact ih h.2.2.2.2 x hm
          exact this _ hst e hmem
        simp [hene]
    have habs1 : abs ≠ [Separator] := by
      intro hc
      rw [hform] at hc
      simp only [List.cons.injEq, true_and] at hc
      exact hjn hc
    rw [if_neg hemp, if_neg habs1]
    conv => rhs; rw [hform]
    rfl

/-- Below an allowed clean directory other than `/`, every entry is allowed. -/
theorem IsAllowed_child (e : Engine) (abs name : List Char) (habs : IsAbs abs = true)
    (hclean : Clean abs = abs) (hroot : abs ≠ [Separator]) (hal : e.IsAllowed abs = true)
    (hname : GoodName name) :
    IsAbs (Join [abs, name]) = true ∧ Clean (Join [abs, name]) = Join [abs, name] ∧
      Join [abs, name] ≠ [Separator] ∧ e.IsAllowed (Join [abs, name]) = true := by
  have hj := Join_child abs name habs hclean hname
  simp only [hroot, if_false] at hj
  have hcl : Clean (Join [abs, name]) = Join [abs, name] := by
    rw [Join_pair_of_ne_nil abs name (IsAbs_ne_nil habs), Clean_idem]
  refine ⟨IsAbs_Join_pair name habs, hcl, ?_, ?_⟩
  · rw [hj]
    intro hc
    have := congrArg List.length hc
    simp at this
    have hl : abs.length = 0 := by omega
    exact IsAbs_ne_nil habs (List.length_eq_zero.1 hl)
  · rw [IsAllowed_iff] at hal ⊢
    obtain ⟨root, hmem, hr⟩ := hal
    rw [hclean] at hr
    rw [hcl, hj]
    refine ⟨root, hmem, Or.inr ?_⟩
    rcases hr with hr | hr
    · subst hr
      exact ⟨name, by simp⟩
    · obtain ⟨t, ht⟩ := hr
      exact ⟨t ++ Separator :: name, by rw [← ht]; simp⟩

theorem mem_insertEntry (d x : DirEntry) (l : List DirEntry) :
    x ∈ insertEntry d l ↔ x = d ∨ x ∈ l := by
  induction l with
  | nil => simp [insertEntry]
  | cons e es ih =>
    simp only [insertEntry]
    split
    · simp
    · simp only [List.mem_cons, ih]
      tauto

theorem mem_sortEntries (x : DirEntry) (l : List DirEntry) : x ∈ sortEntries l ↔ x ∈ l := by
  induction l with
  | nil => simp [sortEntries]
  | cons e es ih => simp [sortEntries, mem_insertEntry, ih]

theorem childName_good (dir key name : List Char) (h : childName dir key = some name) :
    GoodName name := by
  simp only [childName] at h
  split_ifs at h with h1 h2 h3 h4 h5 <;>
    (simp only [Option.some.injEq] at h; subst h; assumption)

/-- The names `os.ReadDir` returns are file names. -/
theorem ReadDir_good (w : FileSystem) (path : List Char) (ds : List DirEntry)
    (h : ReadDir w path = .ok ds) : ∀ d ∈ ds, GoodName d.Name := by
  unfold ReadDir at h
  split at h
  · exact absurd h (by simp)
  · exact absurd h (by simp)
  · simp only [Except.ok.injEq] at h
    subst h
    intro d hd
    rw [mem_sortEntries, List.mem_filterMap] at hd
    obtain ⟨kn, _, hkn⟩ := hd
    split at hkn
    · exact absurd hkn (by simp)
    · rename_i name hname
      simp only [Option.some.injEq] at hkn
      subst hkn
      exact childName_good path kn.1 name hname

theorem listFlat_paths (P : List Char → Prop) (path : List Char) (maxEntries : Int)
    (ds : List DirEntry) (hds : ∀ d ∈ ds, P (Join [path, d.Name])) :
    ∀ entries : List fssvc.Entry, (∀ x ∈ entries, P x.path) →
      ∀ x ∈ fssvc.listFlat path maxEntries ds entries, P x.path := by
  induction ds with
  | nil => intro entries h x hx; exact h x (by simpa [fssvc.listFlat] using hx)
  | cons d rest ih =>
    intro entries h x hx
    have hnew : ∀ y ∈ entries ++ [fssvc.appendEntry (Join [path, d.Name]) d], P y.path := by
      intro y hy
      rcases List.mem_append.1 hy with hy | hy
      · exact h y hy
      · simp only [List.mem_singleton] at hy
        subst hy
        exact hds d (List.mem_cons_self _ _)
    simp only [fssvc.listFlat] at hx
    split at hx
    · exact hnew x hx
    · exact ih (fun d hd => hds d (List.mem_cons_of_mem _ hd)) _ hnew x hx

theorem foldl_invariant {α β : Type} (Inv : β → Prop) (f : β → α → β) (l : List α) :
    ∀ init, Inv init → (∀ acc a, a ∈ l → Inv acc → Inv (f acc a)) → Inv (l.foldl f init) := by
  induction l with
  | nil => intro init h _; exact h
  | cons a rest ih =>
    intro init h hstep
    simp only [List.foldl_cons]
    exact ih _ (hstep init a (List.mem_cons_self _ _) h)
      (fun acc b hb hacc => hstep acc b (List.mem_cons_of_mem _ hb) hacc)

/-- Every path the recursive walk below an allowed clean directory other than
`/` reports is allowed. -/
theorem walkDir_paths (e : Engine) (w : FileSystem) (maxEntries : Int) (fuel : Nat) :
    ∀ (path : List Char) (entries : List fssvc.Entry),
      IsAbs path = true → Clean path = path → path ≠ [Separator] → e.IsAllowed path = true →
      (∀ x ∈ entries, e.IsAllowed x.path = true) →
      ∀ x ∈ (fssvc.walkDir w maxEntries fuel path entries).1, e.IsAllowed x.path = true := by
  induction fuel with
  | zero => intro path entries _ _ _ _ h x hx; exact h x (by simpa [fssvc.walkDir] using hx)
  | succ fuel ih =>
    intro path entries habs hclean hroot hal h
    simp only [fssvc.walkDir]
    split
    · exact h
    · rename_i ds hds
      have hgood := ReadDir_good w path ds hds
      refine foldl_invariant
        (fun (acc : List fssvc.Entry × Bool) => ∀ x ∈ acc.1, e.IsAllowed x.path = true)
        _ ds (entries, false) h ?_
      intro acc d hd hacc
      obtain ⟨c1, c2, c3, c4⟩ := IsAllowed_child e path d.Name habs hclean hroot hal (hgood d hd)
      have hnew : ∀ y ∈ acc.1 ++ [fssvc.appendEntry (Join [path, d.Name]) d],
          e.IsAllowed y.path = true := by
        intro y hy
        rcases List.mem_append.1 hy with hy | hy
        · exact hacc y hy
        · simp only [List.mem_singleton] at hy
          subst hy
          exact c4
      show ∀ x ∈ (if acc.2 = true then acc
          else if maxEntries > 0 ∧
              ((acc.1 ++ [fssvc.appendEntry (Join [path, d.Name]) d]).length : Int) ≥ maxEntries
            then (acc.1 ++ [fssvc.appendEntry (Join [path, d.Name]) d], true)
          else if d.IsDir = true then
            fssvc.walkDir w maxEntries fuel (Join [path, d.Name])
              (acc.1 ++ [fssvc.appendEntry (Join [path, d.Name]) d])
          else (acc.1 ++ [fssvc.appendEntry (Join [path, d.Name]) d], false)).1,
        e.IsAllowed x.path = true
      split
      · exact hacc
      · split
        · exact hnew
        · split
          · exact ih _ _ c1 c2 c3 c4 hnew
          · exact hnew

/-! ## Claims about the policy engine -/

/-- C1 (as stated, refuted): with the relative cwd `a` and the relative path `b`
the joined and cleaned path is `a/b`, which neither equals the root `/w` nor has
`/w/` as a prefix, yet `ResolvePath` succeeds: `filepath.Abs` completes the
candidate with the process working directory `/w` and `/w/a/b` is returned. -/
theorem ResolvePath_relative_cwd_counterexample :
    New envW ["/w".toList] true = .ok engineW ∧
    Clean (Join ["a".toList, "b".toList]) = "a/b".toList ∧
    "a/b".toList ≠ "/w".toList ∧
    HasPrefix "a/b".toList ("/w".toList ++ [Separator]) = false ∧
    engineW.ResolvePath envW "a".toList "b".toList = .ok "/w/a/b".toList := by
  decide

/-- C1 (amended): when cwd or p is rooted, `ResolvePath cwd p` joins p onto cwd
if p is relative, cleans the result to `c`, returns `c` exactly when `c` equals
an allowed root or has an allowed root followed by the separator as a prefix,
and returns `ErrForbiddenPath` in every other case. -/
theorem ResolvePath_spec (env : Env) (e : Engine) (cwd p : List Char)
    (h : IsAbs cwd = true ∨ IsAbs p = true) :
    ((∃ root ∈ e.allowedRoots,
        Clean (if IsAbs p then p else Join [cwd, p]) = root ∨
        (root ++ [Separator]) <+: Clean (if IsAbs p then p else Join [cwd, p])) →
      e.ResolvePath env cwd p = .ok (Clean (if IsAbs p then p else Join [cwd, p]))) ∧
    ((¬ ∃ root ∈ e.allowedRoots,
        Clean (if IsAbs p then p else Join [cwd, p]) = root ∨
        (root ++ [Separator]) <+: Clean (if IsAbs p then p else Join [cwd, p])) →
      e.ResolvePath env cwd p = .error Err.forbiddenPath) := by
  have hiff := IsAllowed_iff e (Clean (if IsAbs p then p else Join [cwd, p]))
  rw [Clean_idem] at hiff
  rw [ResolvePath_of_abs_candidate env e cwd p h]
  constructor
  · intro hin
    rw [hiff.2 hin]; rfl
  · intro hout
    have : e.IsAllowed (Clean (if IsAbs p then p else Join [cwd, p])) = false := by
      cases hal : e.IsAllowed (Clean (if IsAbs p then p else Join [cwd, p])) with
      | false => rfl
      | true => exact absurd (hiff.1 hal) hout
    rw [this]; rfl

/-- Instance of C1: under the root `/tmp/w` with cwd `/tmp/w`, the sibling
`/tmp/wx` is rejected. -/
theorem ResolvePath_spec_witness :
    (IsAbs "/tmp/w".toList = true ∨ IsAbs "/tmp/wx".toList = true) ∧
    engineTmpW.ResolvePath envW "/tmp/w".toList "/tmp/wx".toList = .error Err.forbiddenPath :=
  ⟨by decide,
   (ResolvePath_spec envW engineTmpW "/tmp/w".toList "/tmp/wx".toList (by decide)).2 (by decide)⟩

/-- C2 (as stated, refuted): for the engine whose only root is `/etc`, the path
`roots[0] + "/../etc/passwd"` cleans to `/etc/passwd`, which lies under the
root, so both forms of the request succeed. -/
theorem ResolvePath_escape_counterexample :
    New envW ["/etc".toList] true = .ok engineEtc ∧
    engineEtc.ResolvePath envW "/".toList ("/etc".toList ++ "/../etc/passwd".toList)
      = .ok "/etc/passwd".toList ∧
    engineEtc.ResolvePath envW "/etc".toList "../etc/passwd".toList
      = .ok "/etc/passwd".toList := by
  decide

/-- C2 (amended): for an engine built by `New` with first root `r`, and every cwd,
the absolute request `r + "/../etc/passwd"` and the relative request
`../etc/passwd` with cwd `r` resolve alike; they fail with `ErrForbiddenPath`
when no allowed root equals or contains the cleaned path, succeed with the
cleaned path otherwise, and the dispatcher reports `ErrForbiddenPath` as
code -32002. -/
theorem ResolvePath_escape (env : Env) (roots : List (List Char)) (sh : Bool) (e : Engine)
    (r : List Char) (rs : List (List Char)) (cwd : List Char) (id : Option (List Char))
    (hnew : New env roots sh = .ok e) (hroots : e.allowedRoots = r :: rs) :
    e.ResolvePath env r "../etc/passwd".toList
      = e.ResolvePath env cwd (r ++ "/../etc/passwd".toList) ∧
    (e.IsAllowed (Clean (r ++ "/../etc/passwd".toList)) = false →
      e.ResolvePath env cwd (r ++ "/../etc/passwd".toList) = .error Err.forbiddenPath) ∧
    (e.IsAllowed (Clean (r ++ "/../etc/passwd".toList)) = true →
      e.ResolvePath env cwd (r ++ "/../etc/passwd".toList)
        = .ok (Clean (r ++ "/../etc/passwd".toList))) ∧
    (errResp id Err.forbiddenPath : Response Unit).code = some (-32002) := by
  have hr : IsAbs r = true := (New_roots env roots sh e hnew r (by rw [hroots]; simp)).1
  have hp : IsAbs (r ++ "/../etc/passwd".toList) = true := IsAbs_append _ hr
  have h1 := ResolvePath_of_abs_candidate env e cwd (r ++ "/../etc/passwd".toList) (Or.inr hp)
  have h2 := ResolvePath_of_abs_candidate env e r "../etc/passwd".toList (Or.inl hr)
  have hrel : IsAbs "../etc/passwd".toList = false := by decide
  simp only [hp, if_true] at h1
  simp only [hrel, Bool.false_eq_true, if_false] at h2
  rw [Join_pair_of_ne_nil r _ (IsAbs_ne_nil hr), Clean_idem] at h2
  have hsame : r ++ Separator :: "../etc/passwd".toList = r ++ "/../etc/passwd".toList := rfl
  rw [hsame] at h2
  refine ⟨by rw [h1, h2], ?_, ?_, rfl⟩
  · intro hf; rw [h1, hf]; rfl
  · intro ht; rw [h1, ht]; rfl

/-- Instance of C2: the root `/tmp/w`, where the request is rejected with -32002. -/
theorem ResolvePath_escape_witness :
    New envW ["/tmp/w".toList] true = .ok engineTmpW ∧
    engineTmpW.allowedRoots = "/tmp/w".toList :: [] ∧
    engineTmpW.ResolvePath envW "/tmp/w".toList ("/tmp/w".toList ++ "/../etc/passwd".toList)
      = .error Err.forbiddenPath ∧
    engineTmpW.ResolvePath envW "/tmp/w".toList "../etc/passwd".toList
      = .error Err.forbiddenPath :=
  ⟨by decide, rfl,
   (ResolvePath_escape envW ["/tmp/w".toList] true engineTmpW "/tmp/w".toList [] "/tmp/w".toList
      none (by decide) rfl).2.1 (by decide),
   by decide⟩

/-- C3: `ResolvePath` is idempotent: a path it returns resolves to itself. -/
theorem ResolvePath_idempotent (env : Env) (e : Engine) (cwd p q : List Char)
    (h : e.ResolvePath env cwd p = .ok q) : e.ResolvePath env cwd q = .ok q := by
  obtain ⟨habs, hclean, hallowed⟩ := ResolvePath_ok_props env e cwd p q h
  rw [ResolvePath_of_abs_candidate env e cwd q (Or.inr habs)]
  simp only [habs, if_true, hclean, hallowed]

/-- Instance of C3: `sub/../a.txt` under the root and cwd `/tmp/w`. -/
theorem ResolvePath_idempotent_witness :
    engineTmpW.ResolvePath envW "/tmp/w".toList "sub/../a.txt".toList = .ok "/tmp/w/a.txt".toList ∧
    engineTmpW.ResolvePath envW "/tmp/w".toList "/tmp/w/a.txt".toList = .ok "/tmp/w/a.txt".toList :=
  ⟨by decide,
   ResolvePath_idempotent envW engineTmpW "/tmp/w".toList "sub/../a.txt".toList
     "/tmp/w/a.txt".toList (by decide)⟩

/-- C4 (as stated, refuted): with no allowed root, a relative path against a
relative cwd in a process whose working directory cannot be read makes
`ResolvePath` return the error of `os.Getwd`, which is not `ErrForbiddenPath`. -/
theorem fail_closed_counterexample :
    New envNoWd [] true = .ok engineNone ∧
    engineNone.ResolvePath envNoWd [] "x".toList = .error getwdFailed ∧
    getwdFailed ≠ Err.forbiddenPath := by
  decide

/-- C4 (amended): for a configuration whose list of allowed roots is empty, the
engine is built, `IsAllowed` is false for every path, `ResolvePath` never
succeeds, and it returns `ErrForbiddenPath` whenever cwd or p is rooted or the
process working directory can be read. -/
theorem fail_closed (env : Env) (cfg : Config) (h : AllowedRoots cfg = []) :
    ∃ e, New env (AllowedRoots cfg) cfg.Security.AllowShell = .ok e ∧
      (∀ path, e.IsAllowed path = false) ∧
      (∀ cwd p q, e.ResolvePath env cwd p ≠ .ok q) ∧
      (∀ cwd p, (IsAbs cwd = true ∨ IsAbs p = true ∨ env.wd.isSome = true) →
        e.ResolvePath env cwd p = .error Err.forbiddenPath) := by
  refine ⟨{ allowedRoots := [], allowShell := cfg.Security.AllowShell }, ?_, ?_, ?_, ?_⟩
  · rw [h]; rfl
  · intro path; rfl
  · intro cwd p q hq
    have := (ResolvePath_ok_props env _ cwd p q hq).2.2
    simp [Engine.IsAllowed] at this
  · intro cwd p hc
    by_cases hcand : IsAbs cwd = true ∨ IsAbs p = true
    · rw [ResolvePath_of_abs_candidate env _ cwd p hcand]; rfl
    · have hw : env.wd.isSome = true := by
        rcases hc with hc | hc | hc
        · exact absurd (Or.inl hc) hcand
        · exact absurd (Or.inr hc) hcand
        · exact hc
      rw [ResolvePath_eq]
      cases hwd : env.wd with
      | none => simp [hwd] at hw
      | some w =>
        have hp : IsAbs p = false := by
          cases hpp : IsAbs p with
          | false => rfl
          | true => exact absurd (Or.inr hpp) hcand
        simp only [hp, Bool.false_eq_true, if_false, Abs, Getwd, hwd]
        split
        · rename_i heq
          split at heq <;> exact absurd heq (by simp)
        · rfl

/-- Instance of C4: the default configuration, which declares no root. -/
theorem fail_closed_witness :
    AllowedRoots Default = [] ∧
    ∃ e, New envW (AllowedRoots Default) Default.Security.AllowShell = .ok e ∧
      (∀ path, e.IsAllowed path = false) ∧
      (∀ cwd p q, e.ResolvePath envW cwd p ≠ .ok q) ∧
      (∀ cwd p, (IsAbs cwd = true ∨ IsAbs p = true ∨ envW.wd.isSome = true) →
        e.ResolvePath envW cwd p = .error Err.forbiddenPath) :=
  ⟨rfl, fail_closed envW Default rfl⟩

/-! ## Claims about the filesystem methods -/

/-- C5 (code defect, evaluated): with the allowed root `/`, `fs.list` of `/`
returns the entry path `/etc`, for which `IsAllowed` of the same engine is
false, because the prefix tested is `//`. -/
theorem fsList_root_slash_not_allowed :
    New envW ["/".toList] true = .ok engineSlash ∧
    (serviceSlash.fsList envW filesW
        { SessionID := "s1".toList, Path := "/".toList, Recursive := false, MaxEntries := 0 }).result
      = .ok { path := "/".toList
              entries := [
                { name := "etc".toList, path := "/etc".toList, type := "dir".toList,
                  size := none, mtime := some 500 },
                { name := "w".toList, path := "/w".toList, type := "dir".toList,
                  size := none, mtime := some 500 }] } ∧
    serviceSlash.policy.IsAllowed "/etc".toList = false ∧
    serviceSlash.policy.IsAllowed "/".toList = true := by
  decide

theorem resolveSessionPath_ok (s : server.Service) (env : Env) (sid path abs : List Char)
    (h : s.resolveSessionPath env sid path = .ok abs) :
    ∃ sess, s.sessions.Get sid = .ok sess ∧ s.policy.ResolvePath env sess.CWD path = .ok abs := by
  unfold server.Service.resolveSessionPath at h
  split at h
  · exact absurd h (by simp)
  · rename_i sess hs
    exact ⟨sess, hs, h⟩

theorem resolveSessionPath_rejected (s : server.Service) (env : Env) (sid path : List Char)
    (sess : session.Session) (err : Err) (hs : s.sessions.Get sid = .ok sess)
    (h : s.policy.ResolvePath env sess.CWD path = .error err) :
    s.resolveSessionPath env sid path = .error err := by
  simp [server.Service.resolveSessionPath, hs, h]

theorem fsGlob_calls (s : server.Service) (env : Env) (w : FileSystem)
    (glob : List Char → Except Err (List (List Char))) (pg : protocol.FSGlobParams)
    (sess : session.Session) (cwd : List Char)
    (hs : s.sessions.Get pg.SessionID = .ok sess)
    (hcwd : (if pg.Cwd ≠ [] then s.policy.ResolvePath env sess.CWD pg.Cwd else .ok sess.CWD)
      = .ok cwd) :
    (s.fsGlob env w glob pg).calls
      = [server.FsCall.Glob (if IsAbs pg.Pattern then pg.Pattern else Join [cwd, pg.Pattern])
          pg.MaxMatches] := by
  have hpat : (if (!IsAbs pg.Pattern) = true then Join [cwd, pg.Pattern] else pg.Pattern)
      = (if IsAbs pg.Pattern then pg.Pattern else Join [cwd, pg.Pattern]) := by
    cases IsAbs pg.Pattern <;> simp
  unfold server.Service.fsGlob
  simp only [hs, hcwd, hpat]
  split <;> rfl

/-- The matches `fs.glob` returns have passed the `IsAllowed` filter. -/
theorem fsGlob_matches_allowed (s : server.Service) (env : Env) (w : FileSystem)
    (glob : List Char → Except Err (List (List Char))) (pg : protocol.FSGlobParams)
    (found : List (List Char)) (hfound : (s.fsGlob env w glob pg).result = .ok found) :
    ∀ m ∈ found, s.policy.IsAllowed m = true := by
  intro m hm
  cases hs : s.sessions.Get pg.SessionID with
  | error err => simp [server.Service.fsGlob, hs] at hfound
  | ok sess =>
    cases hcwd : (if pg.Cwd ≠ [] then s.policy.ResolvePath env sess.CWD pg.Cwd
        else .ok sess.CWD) with
    | error err => simp [server.Service.fsGlob, hs, hcwd] at hfound
    | ok cwd =>
      cases hg : s.fs.Glob glob
          (if !IsAbs pg.Pattern then Join [cwd, pg.Pattern] else pg.Pattern) pg.MaxMatches with
      | error err =>
        simp only [server.Service.fsGlob, hs, hcwd, hg] at hfound
        exact absurd hfound (by simp)
      | ok raw =>
        simp only [server.Service.fsGlob, hs, hcwd, hg, Except.ok.injEq] at hfound
        subst hfound
        exact (List.mem_filter.1 hm).2

/-- C6 (as stated, refuted): for the root `/w` and a session with cwd `/w`,
the pattern `/etc/*` lies outside the allowed roots (policy resolution rejects
it), yet `fs.glob` calls the filesystem service with it. -/
theorem fsGlob_pattern_outside_roots_counterexample :
    serviceW.policy.ResolvePath envW "/w".toList "/etc/*".toList = .error Err.forbiddenPath ∧
    (serviceW.fsGlob envW filesW globNothing
        { SessionID := "s1".toList, Pattern := "/etc/*".toList, Cwd := [], MaxMatches := 0 }).calls
      = [server.FsCall.Glob "/etc/*".toList 0] := by
  decide

/-- C6 (amended): `fs.read`, `fs.write`, `fs.list` and `fs.stat` call the
filesystem service at most once, only with the path that policy resolution
against the session cwd returned, and not at all when the session is unknown or
the path is rejected. `fs.glob` resolves only its optional `cwd` parameter: it
makes no call when the session is unknown or that cwd is rejected, otherwise it
calls the service with the pattern itself (joined onto the cwd when relative),
and every match it returns satisfies `IsAllowed`. -/
theorem fs_calls_use_resolved_path (s : server.Service) (env : Env) (w : FileSystem)
    (glob : List Char → Except Err (List (List Char)))
    (pr : protocol.FSReadParams) (pw : protocol.FSWriteParams) (pl : protocol.FSListParams)
    (ps : protocol.FSStatParams) (pg : protocol.FSGlobParams) :
    (∀ c ∈ (s.fsRead env w pr).calls, ∃ sess abs,
        s.sessions.Get pr.SessionID = .ok sess ∧
        s.policy.ResolvePath env sess.CWD pr.Path = .ok abs ∧
        (s.fsRead env w pr).calls = [c] ∧
        c = server.FsCall.Read abs pr.Encoding pr.Offset pr.Length) ∧
    (∀ c ∈ (s.fsWrite env w pw).calls, ∃ sess abs content,
        s.sessions.Get pw.SessionID = .ok sess ∧
        s.policy.ResolvePath env sess.CWD pw.Path = .ok abs ∧
        (s.fsWrite env w pw).calls = [c] ∧
        c = server.FsCall.Write abs content (if pw.Mode = [] then "replace".toList else pw.Mode)
              pw.MkdirParents true pw.ExpectedMTime) ∧
    (∀ c ∈ (s.fsList env w pl).calls, ∃ sess abs,
        s.sessions.Get pl.SessionID = .ok sess ∧
        s.policy.ResolvePath env sess.CWD pl.Path = .ok abs ∧
        (s.fsList env w pl).calls = [c] ∧
        c = server.FsCall.List abs pl.Recursive pl.MaxEntries) ∧
    (∀ c ∈ (s.fsStat env w ps).calls, ∃ sess abs,
        s.sessions.Get ps.SessionID = .ok sess ∧
        s.policy.ResolvePath env sess.CWD ps.Path = .ok abs ∧
        (s.fsStat env w ps).calls = [c] ∧
        c = server.FsCall.Stat abs) ∧
    (∀ err, s.resolveSessionPath env pr.SessionID pr.Path = .error err →
        (s.fsRead env w pr).calls = [] ∧ (s.fsRead env w pr).result = .error err) ∧
    (∀ err, s.resolveSessionPath env pw.SessionID pw.Path = .error err →
        (s.fsWrite env w pw).calls = [] ∧ (s.fsWrite env w pw).result = .error err) ∧
    (∀ err, s.resolveSessionPath env pl.SessionID pl.Path = .error err →
        (s.fsList env w pl).calls = [] ∧ (s.fsList env w pl).result = .error err) ∧
    (∀ err, s.resolveSessionPath env ps.SessionID ps.Path = .error err →
        (s.fsStat env w ps).calls = [] ∧ (s.fsStat env w ps).result = .error err) ∧
    (∀ c ∈ (s.fsGlob env w glob pg).calls, ∃ sess cwd,
        s.sessions.Get pg.SessionID = .ok sess ∧
        (if pg.Cwd ≠ [] then s.policy.ResolvePath env sess.CWD pg.Cwd else .ok sess.CWD)
          = .ok cwd ∧
        (s.fsGlob env w glob pg).calls = [c] ∧
        c = server.FsCall.Glob (if IsAbs pg.Pattern then pg.Pattern else Join [cwd, pg.Pattern])
              pg.MaxMatches) ∧
    (∀ found, (s.fsGlob env w glob pg).result = .ok found →
        ∀ m ∈ found, s.policy.IsAllowed m = true) := by
  refine ⟨?_, ?_, ?_, ?_, ?_, ?_, ?_, ?_, ?_, ?_⟩
  · intro c hc
    unfold server.Service.fsRead at hc ⊢
    split at hc
    · simp at hc
    · rename_i abs habs
      obtain ⟨sess, hs, hr⟩ := resolveSessionPath_ok s env _ _ _ habs
      simp only [List.mem_singleton] at hc
      subst hc
      refine ⟨sess, abs, hs, hr, ?_, rfl⟩
      simp [habs]
  · intro c hc
    unfold server.Service.fsWrite at hc ⊢
    split at hc
    · simp at hc
    · rename_i abs habs
      obtain ⟨sess, hs, hr⟩ := resolveSessionPath_ok s env _ _ _ habs
      split at hc
      · simp at hc
      · rename_i content hcontent
        simp only [List.mem_singleton] at hc
        subst hc
        refine ⟨sess, abs, content, hs, hr, ?_, rfl⟩
        simp [habs, hcontent]
  · intro c hc
    unfold server.Service.fsList at hc ⊢
    split at hc
    · simp at hc
    · rename_i abs habs
      obtain ⟨sess, hs, hr⟩ := resolveSessionPath_ok s env _ _ _ habs
      simp only [List.mem_singleton] at hc
      subst hc
      refine ⟨sess, abs, hs, hr, ?_, rfl⟩
      simp [habs]
  · intro c hc
    unfold server.Service.fsStat at hc ⊢
    split at hc
    · simp at hc
    · rename_i abs habs
      obtain ⟨sess, hs, hr⟩ := resolveSessionPath_ok s env _ _ _ habs
      simp only [List.mem_singleton] at hc
      subst hc
      refine ⟨sess, abs, hs, hr, ?_, rfl⟩
      simp [habs]
  · intro err h; simp [server.Service.fsRead, h]
  · intro err h; simp [server.Service.fsWrite, h]
  · intro err h; simp [server.Service.fsList, h]
  · intro err h; simp [server.Service.fsStat, h]
  · intro c hc
    cases hs : s.sessions.Get pg.SessionID with
    | error err => simp [server.Service.fsGlob, hs] at hc
    | ok sess =>
      cases hcwd : (if pg.Cwd ≠ [] then s.policy.ResolvePath env sess.CWD pg.Cwd
          else .ok sess.CWD) with
      | error err => simp [server.Service.fsGlob, hs, hcwd] at hc
      | ok cwd =>
        have hcalls := fsGlob_calls s env w glob pg sess cwd hs hcwd
        rw [hcalls] at hc ⊢
        simp only [List.mem_singleton] at hc
        subst hc
        exact ⟨sess, cwd, rfl, hcwd, rfl, rfl⟩
  · exact fun found hfound => fsGlob_matches_allowed s env w glob pg found hfound

/-- C7 (code defect, evaluated): through the dispatcher, `fs.write` with mode
`create` on the existing file `/w/a.txt` succeeds and replaces its content,
because the dispatcher always asks for an atomic write and the atomic branch
does not use the open flags; the same call with `atomic = false` fails and
leaves the file system as it was. -/
theorem fsWrite_create_overwrites :
    filesW.lookup "/w/a.txt".toList = some (.file (bytesOf "old".toList) 1000) ∧
    (serviceW.fsWrite envW filesW
        { SessionID := "s1".toList, Path := "a.txt".toList, Content := bytesOf "new".toList,
          Encoding := "utf8".toList, Mode := "create".toList, MkdirParents := false,
          Atomic := false, ExpectedMTime := 0 }).result
      = .ok { path := "/w/a.txt".toList, bytes_written := 3, mtime := 2000, created := false } ∧
    (serviceW.fsWrite envW filesW
        { SessionID := "s1".toList, Path := "a.txt".toList, Content := bytesOf "new".toList,
          Encoding := "utf8".toList, Mode := "create".toList, MkdirParents := false,
          Atomic := false, ExpectedMTime := 0 }).files.lookup "/w/a.txt".toList
      = some (.file (bytesOf "new".toList) 2000) ∧
    serviceW.fs.Write filesW "/w/a.txt".toList (bytesOf "new".toList) "create".toList
        false false 0
      = (.error errExist, filesW) := by
  decide

/-- C8: for an existing file (whose parent directory is in place) and every
`expected_mtime > 0` that differs from the file's modification time, `Write`
returns `ErrConflict`, which `errResp` reports as -32006, and leaves the file
system unchanged; when `expected_mtime` equals the modification time or is not
positive, `Write` does not return `ErrConflict`. -/
theorem Write_mtime_guard (s : fssvc.Service) (w : FileSystem) (path : List Char)
    (data : List Byte) (mode : List Char) (mkdirParents atomic : Bool) (expectedMTime : Int)
    (st : FileInfo) (id : Option (List Char)) (hst : Stat w path = .ok st)
    (hparent : mkdirParents = true → ∃ size mtime, w.lookup (Dir path) = some (.dir size mtime)) :
    ((expectedMTime > 0 ∧ st.ModTime ≠ expectedMTime) →
      s.Write w path data mode mkdirParents atomic expectedMTime = (.error Err.conflict, w) ∧
      (errResp id Err.conflict : Response fssvc.WriteResult).code = some (-32006)) ∧
    ((expectedMTime = st.ModTime ∨ expectedMTime ≤ 0) →
      (s.Write w path data mode mkdirParents atomic expectedMTime).1 ≠ .error Err.conflict) := by
  rw [Write_of_existing s w path data mode mkdirParents atomic expectedMTime st hst hparent]
  constructor
  · intro h
    exact ⟨by simp [h], rfl⟩
  · intro h
    have hn : ¬ (expectedMTime > 0 ∧ st.ModTime ≠ expectedMTime) := by
      rcases h with h | h
      · intro hc; exact hc.2 h.symm
      · intro hc; omega
    simp only [hn, if_false]
    exact writeData_ne_conflict w path data mode atomic true

/-- Instance of C8: `/w/a.txt` was written at time 1000; a write that expects
999 is refused, through the dispatcher as well, and the file keeps its content. -/
theorem Write_mtime_guard_witness :
    Stat filesW "/w/a.txt".toList
      = .ok { Size := 3, ModTime := 1000, IsDir := false } ∧
    (true = true → ∃ size mtime, filesW.lookup (Dir "/w/a.txt".toList) = some (.dir size mtime)) ∧
    serviceW.fs.Write filesW "/w/a.txt".toList (bytesOf "new".toList) "replace".toList
        true true 999 = (.error Err.conflict, filesW) ∧
    (serviceW.fsWrite envW filesW
        { SessionID := "s1".toList, Path := "a.txt".toList, Content := bytesOf "new".toList,
          Encoding := "utf8".toList, Mode := "replace".toList, MkdirParents := true,
          Atomic := false, ExpectedMTime := 999 }).result = .error Err.conflict :=
  ⟨by decide, fun _ => ⟨4096, 500, by decide⟩,
   ((Write_mtime_guard serviceW.fs filesW "/w/a.txt".toList (bytesOf "new".toList)
      "replace".toList true true 999 { Size := 3, ModTime := 1000, IsDir := false } none
      (by decide) (fun _ => ⟨4096, 500, by decide⟩)).1 (by decide)).1,
   by decide⟩

/-- C10 (as stated, refuted): with `max_file_read_bytes = 0` a plain read of the
three-byte file `/w/a.txt` returns three bytes, more than
`min(unbounded, max_file_read) = 0`. -/
theorem Read_unbounded_counterexample :
    serviceW0.fs.maxReadBytes = 0 ∧
    (serviceW0.fs.Read filesW "/w/a.txt".toList "utf8".toList 0 0).map (fun r => r.content)
      = .ok (bytesOf "old".toList) ∧
    (bytesOf "old".toList).length = 3 := by
  decide

/-- C10 (amended): for a file of `size` bytes, `Read` returns the bytes from
position `max(offset, 0)` on, as many as the limit allows or all that remain,
whichever is smaller. The limit is `min(length, max_file_read)` when both are
positive, `max_file_read` when only it is positive, `length` when only it is
positive, and the file size when neither is. -/
theorem Read_length (s : fssvc.Service) (w : FileSystem) (path encoding : List Char)
    (offset length : Int) (data : List Byte) (mtime : Int)
    (h : w.lookup path = some (.file data mtime)) :
    ∃ r buf, s.Read w path encoding offset length = .ok r ∧
      r.content = (if encoding = "base64".toList then EncodeToString buf else buf) ∧
      buf = (data.drop (max offset 0).toNat).take buf.length ∧
      (0 < s.maxReadBytes → 0 < length →
        (buf.length : Int)
          = min (min length s.maxReadBytes) (max 0 (data.length - max offset 0))) ∧
      (0 < s.maxReadBytes → length ≤ 0 →
        (buf.length : Int) = min s.maxReadBytes (max 0 (data.length - max offset 0))) ∧
      (s.maxReadBytes ≤ 0 → 0 < length →
        (buf.length : Int) = min length (max 0 (data.length - max offset 0))) ∧
      (s.maxReadBytes ≤ 0 → length ≤ 0 →
        (buf.length : Int) = max 0 (data.length - max offset 0)) := by
  have hpos : (if offset > 0 then offset else 0) = max offset 0 := by
    split <;> omega
  have hsize : (0 : Int) ≤ (data.length : Int) := Int.ofNat_nonneg _
  have hlim := readLimit_nonneg s length data.length hsize
  have hlen := readFull_length data (max offset 0) (fssvc.readLimit s length data.length)
    (by omega) hlim
  refine ⟨{ path := path, size := data.length, mtime := mtime
            encoding := if encoding = "base64".toList then encoding else "utf8".toList
            content := if encoding = "base64".toList then
                EncodeToString
                  (fssvc.readFull data (max offset 0) (fssvc.readLimit s length data.length))
              else fssvc.readFull data (max offset 0) (fssvc.readLimit s length data.length)
            truncated := decide
              (((fssvc.readFull data (max offset 0)
                  (fssvc.readLimit s length data.length)).length : Int) < data.length - offset) },
    fssvc.readFull data (max offset 0) (fssvc.readLimit s length data.length), ?_, rfl,
    ?_, ?_, ?_, ?_, ?_⟩
  · simp only [fssvc.Service.Read, h, Node.info, hpos]
  · exact take_eq_take_length _ _
  · intro hm hl
    rw [hlen]
    have : fssvc.readLimit s length data.length = min length s.maxReadBytes := by
      unfold fssvc.readLimit
      simp only
      split_ifs <;> omega
    rw [this]
  · intro hm hl
    rw [hlen]
    have : fssvc.readLimit s length data.length = s.maxReadBytes := by
      unfold fssvc.readLimit
      simp only
      split_ifs <;> omega
    rw [this]
  · intro hm hl
    rw [hlen]
    have : fssvc.readLimit s length data.length = length := by
      unfold fssvc.readLimit
      simp only
      split_ifs <;> omega
    rw [this]
  · intro hm hl
    rw [hlen]
    have : fssvc.readLimit s length data.length = data.length := by
      unfold fssvc.readLimit
      simp only
      split_ifs <;> omega
    rw [this]
    omega

/-- Instance of C10: reading two bytes from offset 1 of `/w/a.txt`. -/
theorem Read_length_witness :
    filesW.lookup "/w/a.txt".toList = some (.file (bytesOf "old".toList) 1000) ∧
    ∃ r buf, serviceW.fs.Read filesW "/w/a.txt".toList "utf8".toList 1 5 = .ok r ∧
      r.content = (if "utf8".toList = "base64".toList then EncodeToString buf else buf) ∧
      buf = ((bytesOf "old".toList).drop (max (1 : Int) 0).toNat).take buf.length ∧
      (0 < serviceW.fs.maxReadBytes → (0 : Int) < 5 →
        (buf.length : Int)
          = min (min 5 serviceW.fs.maxReadBytes)
              (max 0 ((bytesOf "old".toList).length - max (1 : Int) 0))) ∧
      (0 < serviceW.fs.maxReadBytes → (5 : Int) ≤ 0 →
        (buf.length : Int)
          = min serviceW.fs.maxReadBytes
              (max 0 ((bytesOf "old".toList).length - max (1 : Int) 0))) ∧
      (serviceW.fs.maxReadBytes ≤ 0 → (0 : Int) < 5 →
        (buf.length : Int) = min 5 (max 0 ((bytesOf "old".toList).length - max (1 : Int) 0))) ∧
      (serviceW.fs.maxReadBytes ≤ 0 → (5 : Int) ≤ 0 →
        (buf.length : Int) = max 0 ((bytesOf "old".toList).length - max (1 : Int) 0)) :=
  ⟨by decide,
   Read_length serviceW.fs filesW "/w/a.txt".toList "utf8".toList 1 5 (bytesOf "old".toList) 1000
     (by decide)⟩

/-- C9 (as stated, refuted): with `max_file_read_bytes = 2`, writing the three
bytes `abc` to `/w/b.txt` with mode `replace` succeeds, and reading the path
back returns `ab` only, marked as truncated. -/
theorem write_read_truncated_counterexample :
    (serviceW2.fsWrite envW filesW
        { SessionID := "s1".toList, Path := "b.txt".toList, Content := bytesOf "abc".toList,
          Encoding := "utf8".toList, Mode := "replace".toList, MkdirParents := true,
          Atomic := false, ExpectedMTime := 0 }).result
      = .ok { path := "/w/b.txt".toList, bytes_written := 3, mtime := 2000, created := true } ∧
    ((serviceW2.fsRead envW
        (serviceW2.fsWrite envW filesW
          { SessionID := "s1".toList, Path := "b.txt".toList, Content := bytesOf "abc".toList,
            Encoding := "utf8".toList, Mode := "replace".toList, MkdirParents := true,
            Atomic := false, ExpectedMTime := 0 }).files
        { SessionID := "s1".toList, Path := "b.txt".toList, Offset := 0, Length := 0,
          Encoding := "utf8".toList }).result.map (fun r => (r.content, r.truncated)))
      = .ok (bytesOf "ab".toList, true) := by
  decide

/-- C9 (amended): for every byte sequence `b` that fits the read limit
(`max_file_read` not positive, or at least the length of `b`), a successful
`fs.write` of `b` with mode `replace` (content given raw, or as standard base64
of `b` with encoding `base64`) reports `bytes_written = len b` and `created`
exactly when the resolved path did not exist before, and a following `fs.read`
of the same path with the same encoding succeeds, is not truncated, and returns
content that decodes to exactly `b`. -/
theorem write_read_roundtrip (s : server.Service) (env : Env) (w : FileSystem)
    (sid path enc mode : List Char) (b : List Byte) (mkdirParents atomic : Bool)
    (expectedMTime : Int) (r : fssvc.WriteResult)
    (hmode : mode = [] ∨ mode = "replace".toList)
    (hlen : s.fs.maxReadBytes ≤ 0 ∨ (b.length : Int) ≤ s.fs.maxReadBytes)
    (hw : (s.fsWrite env w
        { SessionID := sid, Path := path
          Content := if enc = "base64".toList then EncodeToString b else b
          Encoding := enc, Mode := mode, MkdirParents := mkdirParents, Atomic := atomic
          ExpectedMTime := expectedMTime }).result = .ok r) :
    r.bytes_written = b.length ∧
    (∃ abs, s.resolveSessionPath env sid path = .ok abs ∧
      (r.created = true ↔ w.lookup abs = none)) ∧
    ∃ rr, (s.fsRead env
        (s.fsWrite env w
          { SessionID := sid, Path := path
            Content := if enc = "base64".toList then EncodeToString b else b
            Encoding := enc, Mode := mode, MkdirParents := mkdirParents, Atomic := atomic
            ExpectedMTime := expectedMTime }).files
        { SessionID := sid, Path := path, Offset := 0, Length := 0, Encoding := enc }).result
          = .ok rr ∧
      fssvc.DecodeContent rr.content rr.encoding = .ok b ∧ rr.truncated = false := by
  have hm : (if mode = [] then "replace".toList else mode) = "replace".toList := by
    rcases hmode with h | h <;> simp [h]
  have hna : "replace".toList ≠ "append".toList := by decide
  cases hres : s.resolveSessionPath env sid path with
  | error err => simp [server.Service.fsWrite, hres] at hw
  | ok abs =>
    simp only [server.Service.fsWrite, hres, DecodeContent_encoded, hm] at hw ⊢
    obtain ⟨⟨mtime, hfile⟩, hbytes, hcreated⟩ :=
      Write_atomic_ok s.fs w abs b "replace".toList mkdirParents expectedMTime r hna hw
    refine ⟨hbytes, ⟨abs, rfl, hcreated⟩, ?_⟩
    simp only [server.Service.fsRead, hres]
    rw [Read_whole s.fs _ abs enc b mtime hfile hlen]
    refine ⟨_, rfl, ?_, rfl⟩
    by_cases he : enc = "base64".toList
    · simp only [he, if_true, fssvc.DecodeContent]
      exact DecodeString_EncodeToString b
    · simp only [he, if_false, fssvc.DecodeContent]
      have : "utf8".toList ≠ "base64".toList := by decide
      simp only [this, if_false]

/-- Instance of C9: `hello\n` written as base64 to the new file `/w/hello.txt`
and read back. -/
theorem write_read_roundtrip_witness :
    (("replace".toList = ([] : List Char)) ∨ "replace".toList = "replace".toList) ∧
    (serviceW.fs.maxReadBytes ≤ 0 ∨
      ((bytesOf "hello\n".toList).length : Int) ≤ serviceW.fs.maxReadBytes) ∧
    (serviceW.fsWrite envW filesW
        { SessionID := "s1".toList, Path := "hello.txt".toList
          Content := if "base64".toList = "base64".toList
            then EncodeToString (bytesOf "hello\n".toList) else bytesOf "hello\n".toList
          Encoding := "base64".toList, Mode := "replace".toList, MkdirParents := true
          Atomic := false, ExpectedMTime := 0 }).result
      = .ok { path := "/w/hello.txt".toList, bytes_written := 6, mtime := 2000,
              created := true } ∧
    ∃ rr, (serviceW.fsRead envW
        (serviceW.fsWrite envW filesW
          { SessionID := "s1".toList, Path := "hello.txt".toList
            Content := if "base64".toList = "base64".toList
              then EncodeToString (bytesOf "hello\n".toList) else bytesOf "hello\n".toList
            Encoding := "base64".toList, Mode := "replace".toList, MkdirParents := true
            Atomic := false, ExpectedMTime := 0 }).files
        { SessionID := "s1".toList, Path := "hello.txt".toList, Offset := 0, Length := 0,
          Encoding := "base64".toList }).result = .ok rr ∧
      fssvc.DecodeContent rr.content rr.encoding = .ok (bytesOf "hello\n".toList) ∧
      rr.truncated = false :=
  ⟨by decide, by decide, by decide,
   (write_read_roundtrip serviceW envW filesW "s1".toList "hello.txt".toList "base64".toList
      "replace".toList (bytesOf "hello\n".toList) true false 0
      { path := "/w/hello.txt".toList, bytes_written := 6, mtime := 2000, created := true }
      (by decide) (by decide) (by decide)).2.2⟩

/-! ## What holds of listed paths below a root other than `/` -/

/-- The path `fs.stat` returns and the matches `fs.glob` returns satisfy
`IsAllowed`; so does every entry path of `fs.list`, flat or recursive, unless
the listed directory is `/` itself. -/
theorem fs_paths_allowed_below_root (s : server.Service) (env : Env) (w : FileSystem)
    (glob : List Char → Except Err (List (List Char)))
    (pl : protocol.FSListParams) (ps : protocol.FSStatParams) (pg : protocol.FSGlobParams) :
    (∀ r, (s.fsStat env w ps).result = .ok r → s.policy.IsAllowed r.path = true) ∧
    (∀ found, (s.fsGlob env w glob pg).result = .ok found →
      ∀ m ∈ found, s.policy.IsAllowed m = true) ∧
    (∀ r, (s.fsList env w pl).result = .ok r →
      s.policy.IsAllowed r.path = true ∧
      (r.path ≠ [Separator] → ∀ x ∈ r.entries, s.policy.IsAllowed x.path = true)) := by
  refine ⟨?_, fun found hfound => fsGlob_matches_allowed s env w glob pg found hfound, ?_⟩
  · intro r hr
    cases hres : s.resolveSessionPath env ps.SessionID ps.Path with
    | error err => simp [server.Service.fsStat, hres] at hr
    | ok abs =>
      obtain ⟨sess, _, hrp⟩ := resolveSessionPath_ok s env _ _ _ hres
      have hal := (ResolvePath_ok_props env s.policy _ _ _ hrp).2.2
      simp only [server.Service.fsStat, hres, fssvc.Service.Stat] at hr
      split at hr <;> (simp only [Except.ok.injEq] at hr; subst hr; exact hal)
  · intro r hr
    cases hres : s.resolveSessionPath env pl.SessionID pl.Path with
    | error err => simp [server.Service.fsList, hres] at hr
    | ok abs =>
      obtain ⟨sess, _, hrp⟩ := resolveSessionPath_ok s env _ _ _ hres
      obtain ⟨habs, hclean, hal⟩ := ResolvePath_ok_props env s.policy _ _ _ hrp
      simp only [server.Service.fsList, hres, fssvc.Service.List] at hr
      split at hr
      · split at hr
        · exact absurd hr (by simp)
        · simp only [Except.ok.injEq] at hr
          subst hr
          refine ⟨hal, fun hroot => ?_⟩
          exact walkDir_paths s.policy w pl.MaxEntries _ abs [] habs hclean hroot hal
            (fun x hx => absurd hx (by simp))
      · split at hr
        · exact absurd hr (by simp)
        · rename_i ds hds
          simp only [Except.ok.injEq] at hr
          subst hr
          refine ⟨hal, fun hroot => ?_⟩
          exact listFlat_paths (fun p => s.policy.IsAllowed p = true) abs pl.MaxEntries ds
            (fun d hd => (IsAllowed_child s.policy abs d.Name habs hclean hroot hal
              (ReadDir_good w abs ds hds d hd)).2.2.2)
            [] (fun x hx => absurd hx (by simp))

/-! ## Facts about the session registry -/

theorem lookupSession_filter (l : List (List Char × session.Session)) (p q : List Char) :
    session.lookupSession (l.filter (fun ks => decide (ks.1 ≠ p))) q
      = if q = p then none else session.lookupSession l q := by
  induction l with
  | nil => simp [session.lookupSession]
  | cons ks rest ih =>
    obtain ⟨k, s⟩ := ks
    by_cases hk : k = p
    · subst hk
      simp only [List.filter, ne_eq, not_true_eq_false, decide_False, ih, session.lookupSession]
      by_cases hq : q = k
      · simp [hq]
      · have : ¬ k = q := fun h => hq h.symm
        simp [hq, this]
    · simp only [List.filter, ne_eq, hk, not_false_eq_true, decide_True, session.lookupSession, ih]
      by_cases hq : q = p
      · subst hq; simp [hk]
      · simp [hq]

theorem lookupSession_put (l : List (List Char × session.Session)) (id q : List Char)
    (s : session.Session) :
    session.lookupSession (session.putSession l id s) q
      = if q = id then some s else session.lookupSession l q := by
  simp only [session.putSession, session.lookupSession, lookupSession_filter]
  by_cases hq : q = id
  · subst hq; simp
  · have : ¬ id = q := fun h => hq h.symm
    simp [hq, this]

theorem lookupSession_none_iff (l : List (List Char × session.Session)) (id : List Char) :
    session.lookupSession l id = none ↔ ∀ ks ∈ l, ks.1 ≠ id := by
  induction l with
  | nil => simp [session.lookupSession]
  | cons ks rest ih =>
    obtain ⟨k, s⟩ := ks
    simp only [session.lookupSession, List.mem_cons, forall_eq_or_imp]
    by_cases hk : k = id
    · simp [hk]
    · simp [hk, ih]

theorem length_filter_of_absent (l : List (List Char × session.Session)) (id : List Char)
    (h : session.lookupSession l id = none) :
    (l.filter (fun ks => decide (ks.1 ≠ id))).length = l.length := by
  rw [List.filter_eq_self.2]
  intro ks hks
  simpa using (lookupSession_none_iff l id).1 h ks hks

theorem length_filter_of_present (l : List (List Char × session.Session)) (id : List Char)
    (s : session.Session) (h : session.lookupSession l id = some s) :
    (l.filter (fun ks => decide (ks.1 ≠ id))).length + 1 ≤ l.length := by
  induction l with
  | nil => simp [session.lookupSession] at h
  | cons ks rest ih =>
    obtain ⟨k, s0⟩ := ks
    by_cases hk : k = id
    · have hf : ((k, s0) :: rest).filter (fun ks => decide (ks.1 ≠ id))
          = rest.filter (fun ks => decide (ks.1 ≠ id)) := by
        simp [List.filter, hk]
      rw [hf, List.length_cons]
      have := List.length_filter_le (fun ks : List Char × session.Session => decide (ks.1 ≠ id)) rest
      omega
    · have hf : ((k, s0) :: rest).filter (fun ks => decide (ks.1 ≠ id))
          = (k, s0) :: rest.filter (fun ks => decide (ks.1 ≠ id)) := by
        simp [List.filter, hk]
      simp only [session.lookupSession, hk, if_false] at h
      rw [hf, List.length_cons, List.length_cons]
      have := ih h
      omega

theorem length_updateSession (l : List (List Char × session.Session)) (id : List Char)
    (f : session.Session → session.Session) :
    (session.updateSession l id f).length = l.length := by
  simp [session.updateSession]

/-- What `Open` does on a registry that has room. -/
theorem Open_ok (m : session.Manager) (rnd clientName clientVersion : List Char)
    (roots : List (List Char)) (h : ¬ (m.maxActive > 0 ∧ (m.sessions.length : Int) ≥ m.maxActive)) :
    m.Open rnd clientName clientVersion roots =
      (.ok (session.newSession rnd clientName clientVersion roots),
       session.Manager.mk
         (session.putSession m.sessions
           (session.newSession rnd clientName clientVersion roots).ID
           (session.newSession rnd clientName clientVersion roots))
         m.maxActive) := by
  unfold session.Manager.Open
  rw [if_neg h]

/-- No operation of the registry changes the cap or lets the number of sessions
pass a positive cap. -/
theorem Reachable_cap (cap : Int) (m : session.Manager) (h : session.Reachable cap m) :
    m.maxActive = cap ∧ (0 < cap → (m.sessions.length : Int) ≤ cap) := by
  induction h with
  | init => exact ⟨rfl, fun h => by simp [session.NewManager]; omega⟩
  | open_ m rnd clientName clientVersion roots _ ih =>
    obtain ⟨hcap, hlen⟩ := ih
    by_cases hfull : m.maxActive > 0 ∧ (m.sessions.length : Int) ≥ m.maxActive
    · simp only [session.Manager.Open, hfull, and_self, if_true]
      exact ⟨hcap, hlen⟩
    · rw [Open_ok m rnd clientName clientVersion roots hfull]
      refine ⟨hcap, fun hpos => ?_⟩
      have h1 := hlen hpos
      have h2 := List.length_filter_le
        (fun ks : List Char × session.Session =>
          decide (ks.1 ≠ (session.newSession rnd clientName clientVersion roots).ID)) m.sessions
      have h3 : ¬ ((m.sessions.length : Int) ≥ cap) := by
        intro hc; exact hfull ⟨by omega, by omega⟩
      show ((session.putSession m.sessions
        (session.newSession rnd clientName clientVersion roots).ID
        (session.newSession rnd clientName clientVersion roots)).length : Int) ≤ cap
      rw [session.putSession, List.length_cons]
      push_cast
      omega
  | close m id _ ih =>
    obtain ⟨hcap, hlen⟩ := ih
    unfold session.Manager.Close
    split
    · exact ⟨hcap, hlen⟩
    · refine ⟨hcap, fun hpos => ?_⟩
      have h1 := hlen hpos
      have h2 := List.length_filter_le
        (fun ks : List Char × session.Session => decide (ks.1 ≠ id)) m.sessions
      show ((m.sessions.filter (fun ks => decide (ks.1 ≠ id))).length : Int) ≤ cap
      omega
  | setCWD m id cwd _ ih =>
    obtain ⟨hcap, hlen⟩ := ih
    unfold session.Manager.SetCWD
    split
    · exact ⟨hcap, hlen⟩
    · exact ⟨hcap, fun hpos => by simpa [length_updateSession] using hlen hpos⟩
  | incProcess m id _ ih =>
    obtain ⟨hcap, hlen⟩ := ih
    unfold session.Manager.IncProcess
    split
    · exact ⟨hcap, hlen⟩
    · exact ⟨hcap, fun hpos => by simpa [length_updateSession] using hlen hpos⟩
  | decProcess m id _ ih =>
    obtain ⟨hcap, hlen⟩ := ih
    unfold session.Manager.DecProcess
    split
    · exact ⟨hcap, hlen⟩
    · exact ⟨hcap, fun hpos => by simpa [length_updateSession] using hlen hpos⟩

/-! ## Claims about sessions -/

/-- C11 (as stated, refuted): one session is live under the cap 16, so `Open`
succeeds; when `randHex` returns the text of the live session's id again, the new
session replaces the old one and the number of live sessions stays 1. -/
theorem Open_collision_counterexample :
    registryOne.maxActive = 16 ∧ registryOne.sessions.length = 1 ∧
    (registryOne.Open "a1".toList "other".toList [] ["/w".toList]).1
      = .ok (session.newSession "a1".toList "other".toList [] ["/w".toList]) ∧
    (registryOne.Open "a1".toList "other".toList [] ["/w".toList]).2.sessions.length = 1 := by
  decide

/-- C11 (amended): when the cap is positive and the number of live sessions has
reached it, `Open` fails with `max concurrent sessions reached` and the registry
is unchanged; otherwise `Open` succeeds and stores the new session under its id
`s_` + random text, leaving every other id as it was: the number of live sessions
grows by exactly one when that id was free and does not grow when it was taken.
In every registry reached from `NewManager cap` with a positive cap the number of
live sessions is at most the cap. -/
theorem Open_spec (m : session.Manager) (rnd clientName clientVersion : List Char)
    (roots : List (List Char)) :
    ((m.maxActive > 0 ∧ (m.sessions.length : Int) ≥ m.maxActive) →
      m.Open rnd clientName clientVersion roots = (.error session.limitReached, m) ∧
      session.limitReached.Error = "max concurrent sessions reached".toList) ∧
    (¬ (m.maxActive > 0 ∧ (m.sessions.length : Int) ≥ m.maxActive) →
      ∃ s, (m.Open rnd clientName clientVersion roots).1 = .ok s ∧
        s.ID = "s_".toList ++ rnd ∧
        (m.Open rnd clientName clientVersion roots).2.Get s.ID = .ok s ∧
        (∀ id, id ≠ s.ID → (m.Open rnd clientName clientVersion roots).2.Get id = m.Get id) ∧
        (m.Get s.ID = .error Err.sessionNotFound →
          (m.Open rnd clientName clientVersion roots).2.sessions.length
            = m.sessions.length + 1) ∧
        (∀ old, m.Get s.ID = .ok old →
          (m.Open rnd clientName clientVersion roots).2.sessions.length ≤ m.sessions.length)) ∧
    (∀ cap, session.Reachable cap m → 0 < cap → (m.sessions.length : Int) ≤ cap) := by
  refine ⟨?_, ?_, fun cap hr hpos => (Reachable_cap cap m hr).2 hpos⟩
  · intro h
    exact ⟨by unfold session.Manager.Open; rw [if_pos h], rfl⟩
  · intro h
    rw [Open_ok m rnd clientName clientVersion roots h]
    refine ⟨session.newSession rnd clientName clientVersion roots, rfl, rfl, ?_, ?_, ?_, ?_⟩
    · simp [session.Manager.Get, lookupSession_put]
    · intro id hid
      simp [session.Manager.Get, lookupSession_put, hid]
    · intro hfree
      have hnone : session.lookupSession m.sessions
          (session.newSession rnd clientName clientVersion roots).ID = none := by
        unfold session.Manager.Get at hfree
        split at hfree
        · assumption
        · exact absurd hfree (by simp)
      show (session.putSession m.sessions _ _).length = _
      rw [session.putSession, List.length_cons, length_filter_of_absent _ _ hnone]
    · intro old hold
      have hsome : session.lookupSession m.sessions
          (session.newSession rnd clientName clientVersion roots).ID = some old := by
        unfold session.Manager.Get at hold
        split at hold
        · exact absurd hold (by simp)
        · rename_i s hs
          simp only [Except.ok.injEq] at hold
          rw [hs, hold]
      show (session.putSession m.sessions _ _).length ≤ _
      rw [session.putSession, List.length_cons]
      exact length_filter_of_present _ _ old hsome

/-! ## Claims about limits -/

theorem errResp_other {ρ : Type} (id : Option (List Char)) (msg : List Char)
    (h : Contains msg "process not found".toList = false) :
    (errResp id (Err.other msg) : Response ρ) = ErrorResponse id ErrInvalidParams msg := by
  unfold errResp
  rw [if_neg (by simp), if_neg (by simp), if_neg (by simp)]
  simp only [Err.Error, h, Bool.false_eq_true, if_false]

/-- C12 (as stated, refuted): with `max_concurrent_sessions = 1` and one session
live, `session.open` fails and the error is answered with code -32602; with
`max_processes_per_session = 1` and one process counted, `exec.start` fails and is
answered with code -32602 as well. Neither is the ResourceLimit code -32008. -/
theorem limit_code_counterexample :
    server.NewService envW configOne = .ok freshOne ∧
    oneSessionFull.sessions.sessions.length = 1 ∧
    (oneSessionFull.sessionOpen "b2".toList openW).1 = .error session.limitReached ∧
    (errResp none session.limitReached : Response protocol.SessionOpenResult).code
      = some (-32602) ∧
    (oneProcessFull.sessions.Get "s_a1".toList).map (fun s => s.ProcessCount) = .ok 1 ∧
    (oneProcessFull.execStart envW (.ok ()) "8".toList "t1".toList startPrintf).1
      = .error server.processLimitReached ∧
    (errResp none server.processLimitReached :
        Response (protocol.ExecStartResult × server.ExecLaunch)).code = some (-32602) ∧
    ErrResourceLimit = -32008 := by
  decide

/-- C12 (amended): a `session.open` request made when the number of live
sessions has reached a positive `max_concurrent_sessions`, and an `exec.start`
request made when the session's `process_count` has reached
`max_processes_per_session`, leave the service unchanged and are answered with
an error response whose code is InvalidParams, -32602, and whose message is
`max concurrent sessions reached` and `max processes per session reached`. -/
theorem limits_answered_invalid_params (s : server.Service) (env : Env) (rnd : List Char)
    (po : protocol.SessionOpenParams) (spawn : Except Err Unit) (stamp startedAt : List Char)
    (pe : protocol.ExecStartParams) (id : Option (List Char)) :
    ((s.sessions.maxActive > 0 ∧ (s.sessions.sessions.length : Int) ≥ s.sessions.maxActive) →
      s.sessionOpen rnd po = (.error session.limitReached, s) ∧
      (errResp id session.limitReached : Response protocol.SessionOpenResult).Error
        = some { Code := -32602, Message := "max concurrent sessions reached".toList }) ∧
    (∀ sess, s.sessions.Get pe.SessionID = .ok sess →
      sess.ProcessCount ≥ s.cfg.Limits.MaxProcessesPerSess →
      s.execStart env spawn stamp startedAt pe = (.error server.processLimitReached, s) ∧
      (errResp id server.processLimitReached :
          Response (protocol.ExecStartResult × server.ExecLaunch)).Error
        = some { Code := -32602, Message := "max processes per session reached".toList }) := by
  constructor
  · intro h
    refine ⟨?_, ?_⟩
    · simp only [server.Service.sessionOpen, session.Manager.Open, h, and_self, if_true]
    · rw [session.limitReached, errResp_other id _ (by decide)]; rfl
  · intro sess hs hcount
    refine ⟨?_, ?_⟩
    · simp only [server.Service.execStart, hs, hcount, if_true]
    · rw [server.processLimitReached, errResp_other id _ (by decide)]; rfl

/-! ## Claims about the process count of a session -/

/-- C13 (the code departs from the claim): in the service made from `configW`,
after `session.open` the session `s_a1` has `process_count` 0 and nothing is
registered for it. A successful `pty.open` registers a PTY with that session id
and leaves `process_count` at 0, so the count is one short of the live number;
the end of the PTY removes the entry and leaves the count alone. A successful
`exec.start` in the same state does raise the count to 1. -/
theorem ptyOpen_leaves_process_count :
    server.NewService envW configW = .ok freshW ∧
    (withSession.sessions.Get "s_a1".toList).map (fun s => s.ProcessCount) = .ok 0 ∧
    withSession.liveCount "s_a1".toList = 0 ∧
    (withSession.ptyOpen envW (.ok ()) "8".toList "9".toList ptySh).1
      = .ok { PTYID := "pty_8".toList, ProcessID := "p_9".toList } ∧
    ((withSession.ptyOpen envW (.ok ()) "8".toList "9".toList ptySh).2.sessions.Get
        "s_a1".toList).map (fun s => s.ProcessCount) = .ok 0 ∧
    (withSession.ptyOpen envW (.ok ()) "8".toList "9".toList ptySh).2.liveCount
        "s_a1".toList = 1 ∧
    (withSession.execStart envW (.ok ()) "7".toList "t0".toList startPrintf).1.toOption.map
        (fun r => r.1) = some { ProcessID := "p_7".toList, StartedAt := "t0".toList } ∧
    ((withSession.execStart envW (.ok ()) "7".toList "t0".toList startPrintf).2.sessions.Get
        "s_a1".toList).map (fun s => s.ProcessCount) = .ok 1 ∧
    (withSession.execStart envW (.ok ()) "7".toList "t0".toList startPrintf).2.liveCount
        "s_a1".toList = 1 := by
  decide
/-! ## Claims about the workspace roots of a session -/

theorem any_eq_iff_mem (policyRoots : List (List Char)) (r : List Char) :
    policyRoots.any (fun allowed => decide (r = allowed)) = decide (r ∈ policyRoots) := by
  induction policyRoots with
  | nil => simp
  | cons a rest ih => simp [List.any_cons, ih]

theorem effectiveRoots_eq (policyRoots requested : List (List Char)) :
    server.effectiveRoots policyRoots requested =
      if requested.filter (fun r => decide (r ∈ policyRoots)) = [] then policyRoots
      else requested.filter (fun r => decide (r ∈ policyRoots)) := by
  have hf : requested.filter (fun r => policyRoots.any (fun allowed => decide (r = allowed)))
      = requested.filter (fun r => decide (r ∈ policyRoots)) := by
    congr 1
    funext r
    exact any_eq_iff_mem policyRoots r
  unfold server.effectiveRoots
  simp only [hf]
  cases requested with
  | nil => simp
  | cons a rest =>
    simp only [List.length_cons, gt_iff_lt, Nat.zero_lt_succ, if_true]
    by_cases he : List.filter (fun r => decide (r ∈ policyRoots)) (a :: rest) = []
    · rw [he]; simp
    · rw [if_pos (List.length_pos.2 he), if_neg he]

theorem effectiveRoots_mem (policyRoots requested : List (List Char)) (r : List Char)
    (h : r ∈ server.effectiveRoots policyRoots requested) : r ∈ policyRoots := by
  rw [effectiveRoots_eq] at h
  split at h
  · exact h
  · simpa using (List.mem_filter.1 h).2

theorem effectiveRoots_ne_nil (policyRoots requested : List (List Char))
    (h : policyRoots ≠ []) : server.effectiveRoots policyRoots requested ≠ [] := by
  rw [effectiveRoots_eq]
  split
  · exact h
  · assumption

theorem effectiveRoots_nil (requested : List (List Char)) :
    server.effectiveRoots [] requested = [] := by
  rw [effectiveRoots_eq]
  split
  · rfl
  · rename_i h
    exact absurd (by simp) h

theorem sessionOpen_ok (s : server.Service) (rnd : List Char) (p : protocol.SessionOpenParams)
    (res : protocol.SessionOpenResult) (h : (s.sessionOpen rnd p).1 = .ok res) :
    ¬ (s.sessions.maxActive > 0 ∧ (s.sessions.sessions.length : Int) ≥ s.sessions.maxActive) ∧
    res.SessionID = "s_".toList ++ rnd ∧
    res.WorkspaceRoots = server.effectiveRoots s.policy.AllowedRoots p.WorkspaceRoots ∧
    (s.sessionOpen rnd p).2 = server.Service.mk s.cfg
      (session.Manager.mk
        (session.putSession s.sessions.sessions ("s_".toList ++ rnd)
          (session.newSession rnd p.ClientName p.ClientVersion
            (server.effectiveRoots s.policy.AllowedRoots p.WorkspaceRoots)))
        s.sessions.maxActive)
      s.policy s.fs s.exec s.pty s.bus s.audit := by
  by_cases hfull :
      (s.sessions.maxActive > 0 ∧ (s.sessions.sessions.length : Int) ≥ s.sessions.maxActive)
  · exfalso
    have hO : s.sessions.Open rnd p.ClientName p.ClientVersion
        (server.effectiveRoots s.policy.AllowedRoots p.WorkspaceRoots)
        = (.error session.limitReached, s.sessions) := by
      unfold session.Manager.Open
      rw [if_pos hfull]
    simp only [server.Service.sessionOpen, hO] at h
    exact absurd h (by simp)
  · refine ⟨hfull, ?_⟩
    have hO := Open_ok s.sessions rnd p.ClientName p.ClientVersion
      (server.effectiveRoots s.policy.AllowedRoots p.WorkspaceRoots) hfull
    simp only [server.Service.sessionOpen, hO] at h ⊢
    simp only [Except.ok.injEq] at h
    subst h
    exact ⟨rfl, rfl, rfl⟩

/-- C15: the effective workspace roots of `session.open` are the requested
roots that are policy roots, in request order, and all policy roots when that
list is empty (no requested root is a policy root, or none was requested). Every
effective root is a policy root, the list is not empty when the policy has a
root, and a successful `session.open` returns this list and stores it in the
session it registers. -/
theorem sessionOpen_effective_roots (s : server.Service) (rnd : List Char)
    (p : protocol.SessionOpenParams) :
    (server.effectiveRoots s.policy.AllowedRoots p.WorkspaceRoots =
      if p.WorkspaceRoots.filter (fun r => decide (r ∈ s.policy.AllowedRoots)) = []
      then s.policy.AllowedRoots
      else p.WorkspaceRoots.filter (fun r => decide (r ∈ s.policy.AllowedRoots))) ∧
    (p.WorkspaceRoots = [] →
      server.effectiveRoots s.policy.AllowedRoots p.WorkspaceRoots = s.policy.AllowedRoots) ∧
    (∀ r ∈ server.effectiveRoots s.policy.AllowedRoots p.WorkspaceRoots,
      r ∈ s.policy.AllowedRoots) ∧
    (s.policy.AllowedRoots ≠ [] →
      server.effectiveRoots s.policy.AllowedRoots p.WorkspaceRoots ≠ []) ∧
    (∀ res, (s.sessionOpen rnd p).1 = .ok res →
      res.WorkspaceRoots = server.effectiveRoots s.policy.AllowedRoots p.WorkspaceRoots ∧
      ∃ sess, (s.sessionOpen rnd p).2.sessions.Get res.SessionID = .ok sess ∧
        sess.WorkspaceRoots
          = server.effectiveRoots s.policy.AllowedRoots p.WorkspaceRoots) := by
  refine ⟨effectiveRoots_eq _ _, ?_, fun r hr => effectiveRoots_mem _ _ r hr,
    effectiveRoots_ne_nil _ _, ?_⟩
  · intro h
    rw [effectiveRoots_eq, h]
    simp
  · intro res h
    obtain ⟨_, hid, hroots, hsvc⟩ := sessionOpen_ok s rnd p res h
    refine ⟨hroots, session.newSession rnd p.ClientName p.ClientVersion
      (server.effectiveRoots s.policy.AllowedRoots p.WorkspaceRoots), ?_, rfl⟩
    rw [hsvc, hid]
    simp [session.Manager.Get, lookupSession_put]
/-! ## Claims about `exec.start` -/

/-- What a successful `execStart` has computed. -/
theorem execStart_launch (s : server.Service) (env : Env) (spawn : Except Err Unit)
    (stamp startedAt : List Char) (p : protocol.ExecStartParams)
    (res : protocol.ExecStartResult) (launch : server.ExecLaunch)
    (h : (s.execStart env spawn stamp startedAt p).1 = .ok (res, launch)) :
    ∃ sess, s.sessions.Get p.SessionID = .ok sess ∧
      res.ProcessID = "p_".toList ++ stamp ∧
      launch.timeoutMS =
        (if (if p.TimeoutMS ≤ 0 then s.cfg.Limits.DefaultTimeoutMs else p.TimeoutMS)
            > s.cfg.Limits.HardTimeoutMs then s.cfg.Limits.HardTimeoutMs
         else (if p.TimeoutMS ≤ 0 then s.cfg.Limits.DefaultTimeoutMs else p.TimeoutMS)) ∧
      launch.timeout = server.wrapInt64 (launch.timeoutMS * 1000000) ∧
      launch.rp.ID = "p_".toList ++ stamp ∧ launch.rp.SessionID = sess.ID ∧
      launch.rp.MaxOutput =
        (if p.MaxOutputBytes ≤ 0 then s.cfg.Limits.MaxOutputBytes else p.MaxOutputBytes) ∧
      launch.rp.BytesStdout = 0 ∧ launch.rp.BytesStderr = 0 ∧
      launch.rp.StdoutSeq = 0 ∧ launch.rp.StderrSeq = 0 ∧
      launch.rp.TimedOut = false ∧ launch.rp.killed = false ∧ launch.rp.cancelled = false := by
  unfold server.Service.execStart at h
  cases hg : s.sessions.Get p.SessionID with
  | error e => rw [hg] at h; simp at h
  | ok sess =>
    refine ⟨sess, rfl, ?_⟩
    rw [hg] at h
    simp only [] at h
    by_cases hlim : sess.ProcessCount ≥ s.cfg.Limits.MaxProcessesPerSess
    · rw [if_pos hlim] at h; simp at h
    · rw [if_neg hlim] at h
      split at h
      · simp at h
      · split at h
        · simp at h
        · split at h
          · simp at h
          · split at h
            · simp at h
            · simp only [Except.ok.injEq, Prod.mk.injEq] at h
              obtain ⟨h1, h2⟩ := h
              subst h1 h2
              exact ⟨rfl, rfl, rfl, rfl, rfl, rfl, rfl, rfl, rfl, rfl, rfl, rfl, rfl⟩

/-- C16 (as stated, refuted): with `hard_timeout_ms = -5` and
`default_timeout_ms = -10`, a request of `hard_timeout_ms + 1 = -4` is not
positive, so the default is taken and the effective timeout is -10, not the hard
timeout. -/
theorem timeout_hard_plus_one_counterexample :
    server.NewService envW configBackward = .ok freshBackward ∧
    startMinus4.TimeoutMS = configBackward.Limits.HardTimeoutMs + 1 ∧
    (((freshBackward.sessionOpen "a1".toList openW).2.execStart envW (.ok ()) "7".toList
        "t0".toList startMinus4).1.toOption.map (fun r => (r.1.ProcessID, r.2.timeoutMS)))
      = some ("p_7".toList, -10) ∧
    (-10 : Int) ≠ configBackward.Limits.HardTimeoutMs := by
  decide

/-- C16 (amended): for every requested `timeout_ms`, `default_timeout_ms` and
`hard_timeout_ms`, the effective timeout of a successful `exec.start` equals
min(r, `hard_timeout_ms`), where r is the requested value when it is positive
and `default_timeout_ms` otherwise; it never exceeds `hard_timeout_ms`, and when
`hard_timeout_ms` is not negative a request of `hard_timeout_ms + 1` yields
`hard_timeout_ms`. The duration handed to the context is that many milliseconds
whenever the number of nanoseconds fits in 64 bits. -/
theorem execStart_timeout_clamp (s : server.Service) (env : Env) (spawn : Except Err Unit)
    (stamp startedAt : List Char) (p : protocol.ExecStartParams)
    (res : protocol.ExecStartResult) (launch : server.ExecLaunch)
    (h : (s.execStart env spawn stamp startedAt p).1 = .ok (res, launch)) :
    launch.timeoutMS =
      min (if p.TimeoutMS > 0 then p.TimeoutMS else s.cfg.Limits.DefaultTimeoutMs)
        s.cfg.Limits.HardTimeoutMs ∧
    launch.timeoutMS ≤ s.cfg.Limits.HardTimeoutMs ∧
    (0 ≤ s.cfg.Limits.HardTimeoutMs → p.TimeoutMS = s.cfg.Limits.HardTimeoutMs + 1 →
      launch.timeoutMS = s.cfg.Limits.HardTimeoutMs) ∧
    (-(2 ^ 63 : Int) ≤ launch.timeoutMS * 1000000 → launch.timeoutMS * 1000000 < 2 ^ 63 →
      launch.timeout = launch.timeoutMS * 1000000) := by
  obtain ⟨sess, _, _, hms, hdur, _⟩ := execStart_launch s env spawn stamp startedAt p res launch h
  refine ⟨?_, ?_, ?_, ?_⟩
  · rw [hms]
    split_ifs <;> omega
  · rw [hms]
    split_ifs <;> omega
  · intro hpos hreq
    rw [hms]
    split_ifs <;> omega
  · intro hlo hhi
    rw [hdur]
    unfold server.wrapInt64
    omega

/-- An instance of the clamp: under `configW` (hard timeout 300000) the request
`startOver` of 300001 ms gets 300000 ms. -/
theorem execStart_timeout_clamp_witness :
    (withSession.execStart envW (.ok ()) "7".toList "t0".toList startOver).1
      = .ok ({ ProcessID := "p_7".toList, StartedAt := "t0".toList },
          { dir := "/w".toList, command := startOver.Argv, env := []
            timeoutMS := 300000, timeout := 300000000000
            rp := processP7 }) ∧
    (300000 : Int) = min (if startOver.TimeoutMS > 0 then startOver.TimeoutMS
        else withSession.cfg.Limits.DefaultTimeoutMs) withSession.cfg.Limits.HardTimeoutMs :=
  ⟨by decide,
   (execStart_timeout_clamp withSession envW (.ok ()) "7".toList "t0".toList startOver
      { ProcessID := "p_7".toList, StartedAt := "t0".toList }
      { dir := "/w".toList, command := startOver.Argv, env := []
        timeoutMS := 300000, timeout := 300000000000
        rp := processP7 } (by decide)).1⟩
/-! ## Claims about the cwd of a session -/

theorem lookupSession_update (l : List (List Char × session.Session)) (id q : List Char)
    (f : session.Session → session.Session) :
    session.lookupSession (session.updateSession l id f) q
      = (session.lookupSession l q).map (fun s => if q = id then f s else s) := by
  induction l with
  | nil => simp [session.updateSession, session.lookupSession]
  | cons ks rest ih =>
    obtain ⟨k, s0⟩ := ks
    have hcons : session.updateSession ((k, s0) :: rest) id f
        = (if k = id then (k, f s0) else (k, s0)) :: session.updateSession rest id f := rfl
    rw [hcons]
    by_cases hk : k = id
    · rw [if_pos hk]
      by_cases hq : k = q
      · have hqi : q = id := hq ▸ hk
        simp only [session.lookupSession, hq, if_true, Option.map_some', hqi]
      · simp only [session.lookupSession, hq, if_false]
        exact ih
    · rw [if_neg hk]
      by_cases hq : k = q
      · have hqi : ¬ q = id := hq ▸ hk
        simp only [session.lookupSession, hq, if_true, Option.map_some', hqi, if_false]
      · simp only [session.lookupSession, hq, if_false]
        exact ih

theorem keepsSessions_refl (s : server.Service) : server.keepsSessions s s :=
  ⟨rfl, fun _ sess h => ⟨sess, h, rfl, rfl⟩⟩

theorem keepsSessions_of_eq (s t : server.Service) (hp : t.policy = s.policy)
    (hs : t.sessions = s.sessions) : server.keepsSessions s t :=
  ⟨hp, fun _ sess h => ⟨sess, by rw [← hs]; exact h, rfl, rfl⟩⟩

theorem keepsSessions_update (s t : server.Service) (id : List Char)
    (f : session.Session → session.Session)
    (hf : ∀ x, (f x).WorkspaceRoots = x.WorkspaceRoots ∧ (f x).CWD = x.CWD)
    (hp : t.policy = s.policy)
    (hs : t.sessions.sessions = session.updateSession s.sessions.sessions id f) :
    server.keepsSessions s t := by
  refine ⟨hp, fun q sess h => ?_⟩
  rw [hs, lookupSession_update] at h
  cases hl : session.lookupSession s.sessions.sessions q with
  | none => rw [hl] at h; simp at h
  | some old =>
    rw [hl] at h
    simp only [Option.map_some', Option.some.injEq] at h
    refine ⟨old, rfl, ?_⟩
    subst h
    split_ifs
    · exact hf old
    · exact ⟨rfl, rfl⟩

theorem keepsSessions_filter (s t : server.Service) (id : List Char)
    (hp : t.policy = s.policy)
    (hs : t.sessions.sessions = s.sessions.sessions.filter (fun ks => decide (ks.1 ≠ id))) :
    server.keepsSessions s t := by
  refine ⟨hp, fun q sess h => ?_⟩
  rw [hs, lookupSession_filter] at h
  split_ifs at h
  exact ⟨sess, h, rfl, rfl⟩

theorem IncProcess_sessions (m : session.Manager) (id : List Char) :
    (m.IncProcess id).2.sessions = m.sessions ∨
    (m.IncProcess id).2.sessions = session.updateSession m.sessions id
      (fun s => { s with ProcessCount := s.ProcessCount + 1 }) := by
  unfold session.Manager.IncProcess
  split
  · exact Or.inl rfl
  · exact Or.inr rfl

theorem DecProcess_sessions (m : session.Manager) (id : List Char) :
    (m.DecProcess id).2.sessions = m.sessions ∨
    (m.DecProcess id).2.sessions = session.updateSession m.sessions id
      (fun s => if s.ProcessCount > 0 then { s with ProcessCount := s.ProcessCount - 1 }
        else s) := by
  unfold session.Manager.DecProcess
  split
  · exact Or.inl rfl
  · exact Or.inr rfl

theorem sessionClose_keeps (s : server.Service) (p : protocol.SessionCloseParams) :
    server.keepsSessions s (s.sessionClose p).2 := by
  unfold server.Service.sessionClose session.Manager.Close
  cases session.lookupSession s.sessions.sessions p.SessionID with
  | none => exact keepsSessions_refl s
  | some _ => exact keepsSessions_filter s _ p.SessionID rfl rfl

theorem execStart_state (s : server.Service) (env : Env) (spawn : Except Err Unit)
    (stamp startedAt : List Char) (p : protocol.ExecStartParams) :
    (s.execStart env spawn stamp startedAt p).2 = s ∨
    ∃ id rp, (s.execStart env spawn stamp startedAt p).2
      = server.Service.mk s.cfg (s.sessions.IncProcess id).2 s.policy s.fs (s.exec.Add rp)
          s.pty s.bus s.audit := by
  unfold server.Service.execStart
  cases hg : s.sessions.Get p.SessionID with
  | error e => exact Or.inl rfl
  | ok sess =>
    simp only []
    by_cases hlim : sess.ProcessCount ≥ s.cfg.Limits.MaxProcessesPerSess
    · rw [if_pos hlim]; exact Or.inl rfl
    · rw [if_neg hlim]
      split
      · exact Or.inl rfl
      · split
        · exact Or.inl rfl
        · split
          · exact Or.inl rfl
          · split
            · exact Or.inl rfl
            · rename_i sessions hinc
              have h2 : sessions = (s.sessions.IncProcess sess.ID).2 := by rw [hinc]
              rw [h2]
              exact Or.inr ⟨sess.ID, _, rfl⟩

theorem execStart_keeps (s : server.Service) (env : Env) (spawn : Except Err Unit)
    (stamp startedAt : List Char) (p : protocol.ExecStartParams) :
    server.keepsSessions s (s.execStart env spawn stamp startedAt p).2 := by
  rcases execStart_state s env spawn stamp startedAt p with h | ⟨id, rp, h⟩
  · rw [h]; exact keepsSessions_refl s
  · rw [h]
    rcases IncProcess_sessions s.sessions id with h1 | h1
    · exact ⟨rfl, fun q x hx => ⟨x, by rw [← h1]; exact hx, rfl, rfl⟩⟩
    · exact keepsSessions_update s _ id
        (fun s => { s with ProcessCount := s.ProcessCount + 1 }) (fun _ => ⟨rfl, rfl⟩) rfl h1

theorem ptyOpen_keeps (s : server.Service) (env : Env) (spawn : Except Err Unit)
    (stamp1 stamp2 : List Char) (p : protocol.PTYOpenParams) :
    server.keepsSessions s (s.ptyOpen env spawn stamp1 stamp2 p).2 := by
  unfold server.Service.ptyOpen
  split
  · exact keepsSessions_refl s
  · split
    · exact keepsSessions_refl s
    · split_ifs
      · exact keepsSessions_refl s
      · split
        · exact keepsSessions_refl s
        · exact keepsSessions_of_eq s _ rfl rfl

theorem setPump_svc (t : server.Tasks) (st : server.Stream) (q : server.Pump) :
    (t.setPump st q).svc = t.svc ∧ (t.setPump st q).p = t.p := by
  cases st <;> exact ⟨rfl, rfl⟩

theorem setPipe_svc (t : server.Tasks) (st : server.Stream) (rest : List (List Byte)) :
    (t.setPipe st rest).svc = t.svc ∧ (t.setPipe st rest).p = t.p := by
  cases st <;> exact ⟨rfl, rfl⟩

theorem step_scan_svc (t : server.Tasks) (st : server.Stream) :
    (t.step (.scan st)).svc = t.svc ∧ (t.step (.scan st)).p = t.p := by
  simp only [server.Tasks.step]
  cases t.pump st with
  | scanning =>
    cases t.pipe st with
    | nil => exact setPump_svc t st _
    | cons token rest =>
      simp only []
      rw [(setPump_svc _ st _).1, (setPump_svc _ st _).2]
      exact setPipe_svc t st rest
  | holding _ => exact ⟨rfl, rfl⟩
  | counted _ => exact ⟨rfl, rfl⟩
  | killing => exact ⟨rfl, rfl⟩
  | returned => exact ⟨rfl, rfl⟩

theorem step_count_svc (t : server.Tasks) (st : server.Stream) :
    (t.step (.count st)).svc = t.svc := by
  simp only [server.Tasks.step]
  cases t.pump st with
  | holding _ => exact (setPump_svc _ st _).1
  | scanning => rfl
  | counted _ => rfl
  | killing => rfl
  | returned => rfl

theorem step_mark_svc (t : server.Tasks) (st : server.Stream) :
    (t.step (.mark st)).svc = t.svc := by
  simp only [server.Tasks.step]
  cases t.pump st with
  | killing => exact (setPump_svc _ st _).1
  | scanning => rfl
  | counted _ => rfl
  | holding _ => rfl
  | returned => rfl

theorem step_emit_idle (t : server.Tasks) (st : server.Stream)
    (h : ∀ c, t.pump st ≠ .counted c) : t.step (.emit st) = t := by
  cases hp : t.pump st with
  | counted c => exact absurd hp (h c)
  | scanning => simp only [server.Tasks.step, hp]
  | holding _ => simp only [server.Tasks.step, hp]
  | killing => simp only [server.Tasks.step, hp]
  | returned => simp only [server.Tasks.step, hp]

theorem step_emit_over (t : server.Tasks) (st : server.Stream) (c : execsvc.Counted)
    (h : t.pump st = .counted c) (ho : c.over = true) :
    t.step (.emit st) =
      (server.Tasks.mk t.svc { t.p with killed := true }
        t.pipeOut t.pipeErr t.pumpOut t.pumpErr t.ctxDone t.timeoutRan t.waited).setPump st
        .killing := by
  simp only [server.Tasks.step, h, ho, if_true]

theorem step_emit_publish (t : server.Tasks) (st : server.Stream) (c : execsvc.Counted)
    (h : t.pump st = .counted c) (ho : c.over = false) :
    t.step (.emit st) =
      (server.Tasks.mk
        (server.Service.mk t.svc.cfg t.svc.sessions t.svc.policy t.svc.fs t.svc.exec t.svc.pty
          (t.svc.bus.Publish t.p.SessionID st.method (execsvc.streamParams t.p c)) t.svc.audit)
        t.p t.pipeOut t.pipeErr t.pumpOut t.pumpErr t.ctxDone t.timeoutRan t.waited).setPump st
        .scanning := by
  simp only [server.Tasks.step, h, ho, Bool.false_eq_true, if_false]

theorem step_keeps (t : server.Tasks) (a : server.Action) :
    server.keepsSessions t.svc (t.step a).svc := by
  cases a with
  | scan st => rw [(step_scan_svc t st).1]; exact keepsSessions_refl _
  | count st => rw [step_count_svc t st]; exact keepsSessions_refl _
  | mark st => rw [step_mark_svc t st]; exact keepsSessions_refl _
  | emit st =>
    by_cases hc : ∃ c, t.pump st = .counted c
    · obtain ⟨c, hc⟩ := hc
      cases ho : c.over with
      | true =>
        rw [step_emit_over t st c hc ho, (setPump_svc _ st _).1]
        exact keepsSessions_refl _
      | false =>
        rw [step_emit_publish t st c hc ho, (setPump_svc _ st _).1]
        exact keepsSessions_of_eq _ _ rfl rfl
    · rw [step_emit_idle t st (fun c h => hc ⟨c, h⟩)]; exact keepsSessions_refl _
  | deadline => exact keepsSessions_refl _
  | timeoutTask =>
    simp only [server.Tasks.step]
    split_ifs
    · exact keepsSessions_refl _
    · exact keepsSessions_refl _
  | wait err durationMs =>
    simp only [server.Tasks.step]
    split_ifs
    · exact keepsSessions_refl _
    · rcases DecProcess_sessions t.svc.sessions t.p.SessionID with h | h
      · exact ⟨rfl, fun q x hx => ⟨x, by rw [← h]; exact hx, rfl, rfl⟩⟩
      · refine keepsSessions_update t.svc _ t.p.SessionID
          (fun s => if s.ProcessCount > 0 then { s with ProcessCount := s.ProcessCount - 1 }
            else s) (fun x => ?_) rfl h
        by_cases hx : x.ProcessCount > 0
        · simp only [hx, if_true, and_self]
        · simp only [hx, if_false, and_self]

theorem sessionInRoots_new (pol : Engine) (rnd clientName clientVersion : List Char)
    (requested : List (List Char)) :
    server.sessionInRoots pol
      (session.newSession rnd clientName clientVersion
        (server.effectiveRoots pol.AllowedRoots requested)) := by
  unfold server.sessionInRoots
  refine ⟨fun h => ?_, fun h => ?_⟩
  · have h0 : pol.AllowedRoots = [] := h
    rw [h0, effectiveRoots_nil]
    exact ⟨rfl, rfl⟩
  · have hne := effectiveRoots_ne_nil pol.AllowedRoots requested h
    have hmem := effectiveRoots_mem pol.AllowedRoots requested
    cases hr : server.effectiveRoots pol.AllowedRoots requested with
    | nil => exact absurd hr hne
    | cons r rest =>
      rw [hr] at hmem
      exact ⟨r, rest, rfl, rfl, List.mem_cons_self _ _, fun x hx => hmem x hx⟩

theorem sessionOpen_error (s : server.Service) (rnd : List Char)
    (p : protocol.SessionOpenParams) (e : Err) (h : (s.sessionOpen rnd p).1 = .error e) :
    (s.sessionOpen rnd p).2 = s := by
  by_cases hfull :
      (s.sessions.maxActive > 0 ∧ (s.sessions.sessions.length : Int) ≥ s.sessions.maxActive)
  · have hO : s.sessions.Open rnd p.ClientName p.ClientVersion
        (server.effectiveRoots s.policy.AllowedRoots p.WorkspaceRoots)
        = (.error session.limitReached, s.sessions) := by
      unfold session.Manager.Open
      rw [if_pos hfull]
    simp only [server.Service.sessionOpen, hO]
  · have hO := Open_ok s.sessions rnd p.ClientName p.ClientVersion
      (server.effectiveRoots s.policy.AllowedRoots p.WorkspaceRoots) hfull
    simp only [server.Service.sessionOpen, hO] at h
    exact absurd h (by simp)

/-- Every session of a reachable service stands in `sessionInRoots` to the policy. -/
theorem Reachable_sessionInRoots (env : Env) (cfg : Config) (s : server.Service)
    (hr : server.Reachable env cfg s) :
    ∀ id sess, session.lookupSession s.sessions.sessions id = some sess →
      server.sessionInRoots s.policy sess := by
  have keep : ∀ s t : server.Service, server.keepsSessions s t →
      (∀ id sess, session.lookupSession s.sessions.sessions id = some sess →
        server.sessionInRoots s.policy sess) →
      ∀ id sess, session.lookupSession t.sessions.sessions id = some sess →
        server.sessionInRoots t.policy sess := by
    intro s t hk ih id sess h
    obtain ⟨old, hold, hroots, hcwd⟩ := hk.2 id sess h
    have := ih id old hold
    unfold server.sessionInRoots at this ⊢
    rw [hk.1, hroots, hcwd]
    exact this
  induction hr with
  | init s h =>
    intro id sess hl
    unfold server.NewService at h
    split at h
    · simp at h
    · simp only [Except.ok.injEq] at h
      subst h
      simp [session.NewManager, session.lookupSession] at hl
  | sessionOpen s rnd p _ ih =>
    cases hres : (s.sessionOpen rnd p).1 with
    | error e =>
      rw [sessionOpen_error s rnd p e hres]; exact ih
    | ok res =>
      obtain ⟨_, _, _, hst⟩ := sessionOpen_ok s rnd p res hres
      rw [hst]
      intro id sess hl
      simp only [lookupSession_put] at hl
      split_ifs at hl
      · simp only [Option.some.injEq] at hl
        subst hl
        exact sessionInRoots_new s.policy rnd _ _ _
      · exact ih id sess hl
  | sessionClose s p _ ih => exact keep _ _ (sessionClose_keeps s p) ih
  | execStart s spawn stamp startedAt p _ ih =>
    exact keep _ _ (execStart_keeps s env spawn stamp startedAt p) ih
  | ptyOpen s spawn stamp1 stamp2 p _ ih =>
    exact keep _ _ (ptyOpen_keeps s env spawn stamp1 stamp2 p) ih
  | ptyWait s ps exitCode sig durationMs _ ih =>
    exact keep _ _ (keepsSessions_of_eq s _ rfl rfl) ih
  | task t a _ ih => exact keep _ _ (step_keeps t a) ih
  | events s bus _ ih => exact keep _ _ (keepsSessions_of_eq s _ rfl rfl) ih

/-- C14 (as stated, refuted): the default configuration has no allowed root;
`session.open` succeeds in its service and the session it makes has no workspace
root and the cwd `/`, so the cwd is not a first workspace root and lies inside
no workspace root of the session. -/
theorem cwd_without_root_counterexample :
    server.NewService envW Default = .ok freshNone ∧
    freshNone.policy.AllowedRoots = [] ∧
    (freshNone.sessionOpen "a1".toList openW).1.toOption.map (fun r => r.SessionID)
      = some "s_a1".toList ∧
    ((freshNone.sessionOpen "a1".toList openW).2.sessions.Get "s_a1".toList).map
        (fun s => (s.WorkspaceRoots, s.CWD)) = .ok ([], "/".toList) := by
  decide

/-- C14 (amended): in every reachable state of the service, under a policy with
at least one allowed root every session has a first workspace root, its cwd is
that root (so the cwd is one of the session's workspace roots), and each of its
workspace roots is a policy root; under a policy with an empty list of allowed
roots every session has no workspace root and the cwd `/`. -/
theorem session_cwd_first_root (env : Env) (cfg : Config) (s : server.Service)
    (hr : server.Reachable env cfg s) (id : List Char) (sess : session.Session)
    (hg : s.sessions.Get id = .ok sess) :
    (s.policy.AllowedRoots ≠ [] →
      sess.WorkspaceRoots.head? = some sess.CWD ∧ sess.CWD ∈ sess.WorkspaceRoots ∧
      ∀ x ∈ sess.WorkspaceRoots, x ∈ s.policy.AllowedRoots) ∧
    (s.policy.AllowedRoots = [] → sess.WorkspaceRoots = [] ∧ sess.CWD = "/".toList) := by
  have hl : session.lookupSession s.sessions.sessions id = some sess := by
    unfold session.Manager.Get at hg
    split at hg
    · exact absurd hg (by simp)
    · rename_i x hx
      simp only [Except.ok.injEq] at hg
      rw [hx, hg]
  obtain ⟨h0, h1⟩ := Reachable_sessionInRoots env cfg s hr id sess hl
  refine ⟨fun hne => ?_, fun he => h0 he⟩
  obtain ⟨r, rest, hroots, hcwd, hmem, hall⟩ := h1 hne
  refine ⟨?_, hmem, hall⟩
  rw [hroots, hcwd]
  rfl

/-- An instance: the session `s_a1` that `session.open` makes under `configW`
has the cwd `/w`, its first workspace root. -/
theorem session_cwd_first_root_witness :
    server.Reachable envW configW withSession ∧
    withSession.sessions.Get "s_a1".toList
      = .ok (session.newSession "a1".toList "test".toList [] ["/w".toList]) ∧
    (session.newSession "a1".toList "test".toList [] ["/w".toList]).WorkspaceRoots.head?
      = some (session.newSession "a1".toList "test".toList [] ["/w".toList]).CWD :=
  ⟨server.Reachable.sessionOpen freshW "a1".toList openW
      (server.Reachable.init freshW (by decide)),
   by decide,
   ((session_cwd_first_root envW configW withSession
      (server.Reachable.sessionOpen freshW "a1".toList openW
        (server.Reachable.init freshW (by decide)))
      "s_a1".toList (session.newSession "a1".toList "test".toList [] ["/w".toList])
      (by decide)).1 (by decide)).1⟩
/-! ## Claims about the counters and the order of the notifications -/

/-- C18 (the code departs from the claim): the child of `sh -lc "printf
test-output"` writes 11 bytes to stdout and no newline. The scanner delivers the
one token `test-output`, the pump appends a newline to it and counts the 12
bytes of the result, and when the pump has finished before the wait task runs,
`exec.exit` reports `bytes_stdout = 12`. For the 3 bytes `a`, CR, LF the scanner
drops the carriage return and `exec.exit` reports `bytes_stdout = 2`. -/
theorem bytes_stdout_counts_appended_newline :
    (withSession.execStart envW (.ok ()) "7".toList "t0".toList startPrintf).1.toOption.map
        (fun r => r.2.rp) = some processP7 ∧
    (bytesOf "test-output".toList).length = 11 ∧
    execsvc.scanTokens (bytesOf "test-output".toList) = [bytesOf "test-output".toList] ∧
    (tasksPrintf.run [.scan .stdout, .count .stdout, .emit .stdout, .scan .stdout,
        .scan .stderr, .wait .none 5]).svc.bus.published
      = [("s_a1".toList, protocol.Notification.mk "exec.stdout".toList
            (.stream "s_a1".toList "p_7".toList 1 (bytesOf "test-output\n".toList)
              "utf8".toList)),
         ("s_a1".toList, protocol.Notification.mk "exec.exit".toList
            (.execExit "s_a1".toList "p_7".toList (some 0) none false 5 12 0))] ∧
    (bytesOf "a\r\n".toList).length = 3 ∧
    (tasksCRLF.run [.scan .stdout, .count .stdout, .emit .stdout, .scan .stdout,
        .scan .stderr, .wait .none 5]).svc.bus.published
      = [("s_a1".toList, protocol.Notification.mk "exec.stdout".toList
            (.stream "s_a1".toList "p_7".toList 1 (bytesOf "a\n".toList)
              "utf8".toList)),
         ("s_a1".toList, protocol.Notification.mk "exec.exit".toList
            (.execExit "s_a1".toList "p_7".toList (some 0) none false 5 2 0))] := by
  decide

/-- C20 (the code departs from the claim): the wait task does not wait for the
pumps. The child writes the line `x` and exits. When the wait task runs after the
stdout pump has counted the line and before it publishes, `exec.exit` is
published first and `exec.stdout` with seq 1 after it; when the wait task runs
after `Scan` has returned and before the pump counts the line, `exec.exit`
reports `bytes_stdout = 0` while the final value of the counter is 2. In both
runs the stdout pump has not returned when `exec.exit` is published. -/
theorem exit_published_before_pumps_return :
    (tasksLine.run [.scan .stdout, .count .stdout, .wait .none 5, .emit .stdout]
        ).svc.bus.published
      = [("s_a1".toList, protocol.Notification.mk "exec.exit".toList
            (.execExit "s_a1".toList "p_7".toList (some 0) none false 5 2 0)),
         ("s_a1".toList, protocol.Notification.mk "exec.stdout".toList
            (.stream "s_a1".toList "p_7".toList 1 (bytesOf "x\n".toList)
              "utf8".toList))] ∧
    (tasksLine.run [.scan .stdout, .count .stdout, .wait .none 5]).pumpOut ≠ .returned ∧
    (tasksLine.run [.scan .stdout, .wait .none 5, .count .stdout, .emit .stdout]
        ).svc.bus.published
      = [("s_a1".toList, protocol.Notification.mk "exec.exit".toList
            (.execExit "s_a1".toList "p_7".toList (some 0) none false 5 0 0)),
         ("s_a1".toList, protocol.Notification.mk "exec.stdout".toList
            (.stream "s_a1".toList "p_7".toList 1 (bytesOf "x\n".toList)
              "utf8".toList))] ∧
    (tasksLine.run [.scan .stdout, .wait .none 5]).pumpOut ≠ .returned ∧
    (tasksLine.run [.scan .stdout, .wait .none 5, .count .stdout, .emit .stdout]
        ).p.BytesStdout = 2 := by
  decide
/-! ## Facts about the steps of the tasks -/

theorem setPump_pump (t : server.Tasks) (s st : server.Stream) (q : server.Pump) :
    (t.setPump s q).pump st = if st = s then q else t.pump st := by
  cases s <;> cases st <;> simp [server.Tasks.setPump, server.Tasks.pump]

theorem setPipe_pump (t : server.Tasks) (s st : server.Stream) (rest : List (List Byte)) :
    (t.setPipe s rest).pump st = t.pump st := by
  cases s <;> cases st <;> rfl

theorem method_ne (s st : server.Stream) (h : s ≠ st) : s.method ≠ st.method := by
  cases s <;> cases st <;> first | exact absurd rfl h | decide

theorem step_published (t : server.Tasks) (a : server.Action) :
    (t.step a).svc.bus.published = t.svc.bus.published ++ t.output a := by
  cases a with
  | scan st => rw [(step_scan_svc t st).1]; simp [server.Tasks.output]
  | count st => rw [step_count_svc t st]; simp [server.Tasks.output]
  | mark st => rw [step_mark_svc t st]; simp [server.Tasks.output]
  | deadline => simp [server.Tasks.step, server.Tasks.output]
  | timeoutTask =>
    simp only [server.Tasks.step, server.Tasks.output]
    split_ifs <;> simp
  | emit st =>
    by_cases hc : ∃ c, t.pump st = .counted c
    · obtain ⟨c, hc⟩ := hc
      cases ho : c.over with
      | true =>
        rw [step_emit_over t st c hc ho, (setPump_svc _ st _).1]
        simp [server.Tasks.output, hc, ho]
      | false =>
        rw [step_emit_publish t st c hc ho, (setPump_svc _ st _).1]
        simp [server.Tasks.output, hc, ho, events.Bus.Publish]
    · rw [step_emit_idle t st (fun c h => hc ⟨c, h⟩)]
      have : t.output (.emit st) = [] := by
        simp only [server.Tasks.output]
        cases hp : t.pump st with
        | counted c => exact absurd ⟨c, hp⟩ hc
        | scanning => rfl
        | holding _ => rfl
        | killing => rfl
        | returned => rfl
      rw [this]; simp
  | wait err durationMs =>
    simp only [server.Tasks.step, server.Tasks.output]
    split_ifs
    · simp
    · simp [events.Bus.Publish]

theorem step_pump_other (t : server.Tasks) (a : server.Action) (st : server.Stream)
    (h : a.stream ≠ some st) : (t.step a).pump st = t.pump st := by
  cases a with
  | scan s =>
    have hs : ¬ st = s := fun e => h (by rw [e]; rfl)
    simp only [server.Tasks.step]
    cases t.pump s with
    | scanning =>
      cases t.pipe s with
      | nil => simp only []; rw [setPump_pump, if_neg hs]
      | cons token rest => simp only []; rw [setPump_pump, if_neg hs, setPipe_pump]
    | holding _ => rfl
    | counted _ => rfl
    | killing => rfl
    | returned => rfl
  | count s =>
    have hs : ¬ st = s := fun e => h (by rw [e]; rfl)
    simp only [server.Tasks.step]
    cases t.pump s with
    | holding _ => simp only []; rw [setPump_pump, if_neg hs]; cases st <;> rfl
    | scanning => rfl
    | counted _ => rfl
    | killing => rfl
    | returned => rfl
  | emit s =>
    have hs : ¬ st = s := fun e => h (by rw [e]; rfl)
    simp only [server.Tasks.step]
    cases t.pump s with
    | counted c =>
      simp only []
      split_ifs
      · rw [setPump_pump, if_neg hs]; cases st <;> rfl
      · rw [setPump_pump, if_neg hs]; cases st <;> rfl
    | scanning => rfl
    | holding _ => rfl
    | killing => rfl
    | returned => rfl
  | mark s =>
    have hs : ¬ st = s := fun e => h (by rw [e]; rfl)
    simp only [server.Tasks.step]
    cases t.pump s with
    | killing => simp only []; rw [setPump_pump, if_neg hs]; cases st <;> rfl
    | scanning => rfl
    | holding _ => rfl
    | counted _ => rfl
    | returned => rfl
  | deadline => cases st <;> rfl
  | timeoutTask =>
    simp only [server.Tasks.step]
    split_ifs
    · cases st <;> rfl
    · rfl
  | wait err durationMs =>
    simp only [server.Tasks.step]
    split_ifs
    · rfl
    · cases st <;> rfl

theorem pipeCount_self (st : server.Stream) (p : execsvc.RunningProcess) (token : List Byte) :
    server.seqOf st (execsvc.pipeCount p st.method token).1 = server.seqOf st p + 1 ∧
    (execsvc.pipeCount p st.method token).2.seq = server.seqOf st p + 1 ∧
    (execsvc.pipeCount p st.method token).2.line = token ++ [byte 10] ∧
    (execsvc.pipeCount p st.method token).2.maxOutput = p.MaxOutput ∧
    (execsvc.pipeCount p st.method token).2.total
      = (execsvc.pipeCount p st.method token).1.BytesStdout
        + (execsvc.pipeCount p st.method token).1.BytesStderr ∧
    (execsvc.pipeCount p st.method token).2.total
      = p.BytesStdout + p.BytesStderr + (token.length + 1 : Nat) := by
  cases st
  · refine ⟨rfl, rfl, rfl, rfl, rfl, ?_⟩
    show p.BytesStdout + ((token ++ [byte 10]).length : Nat) + p.BytesStderr = _
    rw [List.length_append]
    simp only [List.length_singleton]
    omega
  · refine ⟨rfl, rfl, rfl, rfl, rfl, ?_⟩
    show p.BytesStdout + (p.BytesStderr + ((token ++ [byte 10]).length : Nat)) = _
    rw [List.length_append]
    simp only [List.length_singleton]
    omega

theorem pipeCount_other (s st : server.Stream) (h : s ≠ st) (p : execsvc.RunningProcess)
    (token : List Byte) :
    server.seqOf st (execsvc.pipeCount p s.method token).1 = server.seqOf st p := by
  cases s <;> cases st <;> first | exact absurd rfl h | rfl

theorem pipeCount_keeps (method : List Char) (p : execsvc.RunningProcess) (token : List Byte) :
    (execsvc.pipeCount p method token).1.ID = p.ID ∧
    (execsvc.pipeCount p method token).1.SessionID = p.SessionID ∧
    (execsvc.pipeCount p method token).1.MaxOutput = p.MaxOutput ∧
    (execsvc.pipeCount p method token).1.TimedOut = p.TimedOut ∧
    (execsvc.pipeCount p method token).1.killed = p.killed := by
  unfold execsvc.pipeCount
  simp only []
  split_ifs <;> exact ⟨rfl, rfl, rfl, rfl, rfl⟩

theorem step_seqOf_other (t : server.Tasks) (a : server.Action) (st : server.Stream)
    (h : a.stream ≠ some st) : server.seqOf st (t.step a).p = server.seqOf st t.p := by
  cases a with
  | scan s => rw [(step_scan_svc t s).2]
  | count s =>
    have hs : s ≠ st := fun e => h (by rw [e]; rfl)
    simp only [server.Tasks.step]
    cases t.pump s with
    | holding token =>
      simp only []
      rw [(setPump_svc _ s _).2]
      exact pipeCount_other s st hs t.p token
    | scanning => rfl
    | counted _ => rfl
    | killing => rfl
    | returned => rfl
  | emit s =>
    simp only [server.Tasks.step]
    cases t.pump s with
    | counted c =>
      simp only []
      split_ifs
      · rw [(setPump_svc _ s _).2]; cases st <;> rfl
      · rw [(setPump_svc _ s _).2]
    | scanning => rfl
    | holding _ => rfl
    | killing => rfl
    | returned => rfl
  | mark s =>
    simp only [server.Tasks.step]
    cases t.pump s with
    | killing => simp only []; rw [(setPump_svc _ s _).2]; cases st <;> rfl
    | scanning => rfl
    | holding _ => rfl
    | counted _ => rfl
    | returned => rfl
  | deadline => rfl
  | timeoutTask =>
    simp only [server.Tasks.step]
    split_ifs
    · cases st <;> rfl
    · rfl
  | wait err durationMs =>
    simp only [server.Tasks.step]
    split_ifs
    · rfl
    · cases err <;> cases st <;> rfl

theorem step_scan_pump (t : server.Tasks) (st : server.Stream) :
    (t.step (.scan st)).pump st =
      match t.pump st with
      | .scanning =>
        (match t.pipe st with
          | [] => .returned
          | token :: _ => .holding token)
      | q => q := by
  simp only [server.Tasks.step]
  cases hp : t.pump st with
  | scanning =>
    cases t.pipe st with
    | nil => simp only []; rw [setPump_pump, if_pos rfl]
    | cons token rest => simp only []; rw [setPump_pump, if_pos rfl]
  | holding _ => simp only [hp]
  | counted _ => simp only [hp]
  | killing => simp only [hp]
  | returned => simp only [hp]

theorem step_count_holding (t : server.Tasks) (st : server.Stream) (token : List Byte)
    (h : t.pump st = .holding token) :
    (t.step (.count st)).pump st = .counted (execsvc.pipeCount t.p st.method token).2 ∧
    (t.step (.count st)).p = (execsvc.pipeCount t.p st.method token).1 := by
  simp only [server.Tasks.step, h]
  exact ⟨by rw [setPump_pump, if_pos rfl], (setPump_svc _ st _).2⟩

theorem step_count_idle (t : server.Tasks) (st : server.Stream)
    (h : ∀ token, t.pump st ≠ .holding token) : t.step (.count st) = t := by
  cases hp : t.pump st with
  | holding token => exact absurd hp (h token)
  | scanning => simp only [server.Tasks.step, hp]
  | counted _ => simp only [server.Tasks.step, hp]
  | killing => simp only [server.Tasks.step, hp]
  | returned => simp only [server.Tasks.step, hp]

theorem step_mark_killing (t : server.Tasks) (st : server.Stream)
    (h : t.pump st = .killing) :
    (t.step (.mark st)).pump st = .returned ∧
    (t.step (.mark st)).p = { t.p with TimedOut := true } := by
  simp only [server.Tasks.step, h]
  exact ⟨by rw [setPump_pump, if_pos rfl], (setPump_svc _ st _).2⟩

theorem step_mark_idle (t : server.Tasks) (st : server.Stream)
    (h : t.pump st ≠ .killing) : t.step (.mark st) = t := by
  cases hp : t.pump st with
  | killing => exact absurd hp h
  | scanning => simp only [server.Tasks.step, hp]
  | counted _ => simp only [server.Tasks.step, hp]
  | holding _ => simp only [server.Tasks.step, hp]
  | returned => simp only [server.Tasks.step, hp]

theorem streamSeqs_append (m : List Char) (a b : List (List Char × protocol.Notification)) :
    server.streamSeqs m (a ++ b) = server.streamSeqs m a ++ server.streamSeqs m b := by
  simp [server.streamSeqs, List.filterMap_append]

theorem streamSeqs_single (m sid method : List Char) (params : protocol.Params)
    (h : method ≠ m) :
    server.streamSeqs m [(sid, protocol.Notification.mk method params)] = [] := by
  simp [server.streamSeqs, List.filterMap_cons, h]

theorem streamSeqs_stream (m sid : List Char) (p : execsvc.RunningProcess)
    (c : execsvc.Counted) :
    server.streamSeqs m [(sid, protocol.Notification.mk m (execsvc.streamParams p c))]
      = [c.seq] := by
  simp [server.streamSeqs, List.filterMap_cons, execsvc.streamParams]

theorem exit_ne_method (st : server.Stream) : "exec.exit".toList ≠ st.method := by
  cases st <;> decide

theorem output_other (t : server.Tasks) (a : server.Action) (st : server.Stream)
    (h : a.stream ≠ some st) : server.streamSeqs st.method (t.output a) = [] := by
  cases a with
  | scan s => rfl
  | count s => rfl
  | mark s => rfl
  | deadline => rfl
  | timeoutTask => rfl
  | emit s =>
    have hs : s ≠ st := fun e => h (by rw [e]; rfl)
    simp only [server.Tasks.output]
    cases t.pump s with
    | counted c =>
      simp only []
      split_ifs
      · rfl
      · exact streamSeqs_single _ _ _ _ (method_ne s st hs)
    | scanning => rfl
    | holding _ => rfl
    | killing => rfl
    | returned => rfl
  | wait err durationMs =>
    simp only [server.Tasks.output]
    split_ifs
    · rfl
    · exact streamSeqs_single _ _ _ _ (exit_ne_method st)

theorem stream_cases (a : server.Action) (st : server.Stream) :
    a.stream ≠ some st ∨ a = .scan st ∨ a = .count st ∨ a = .emit st ∨ a = .mark st := by
  cases a with
  | scan s =>
    by_cases h : s = st
    · subst h; exact Or.inr (Or.inl rfl)
    · exact Or.inl (fun e => h (Option.some.inj e))
  | count s =>
    by_cases h : s = st
    · subst h; exact Or.inr (Or.inr (Or.inl rfl))
    · exact Or.inl (fun e => h (Option.some.inj e))
  | emit s =>
    by_cases h : s = st
    · subst h; exact Or.inr (Or.inr (Or.inr (Or.inl rfl)))
    · exact Or.inl (fun e => h (Option.some.inj e))
  | mark s =>
    by_cases h : s = st
    · subst h; exact Or.inr (Or.inr (Or.inr (Or.inr rfl)))
    · exact Or.inl (fun e => h (Option.some.inj e))
  | deadline => exact Or.inl (fun e => nomatch e)
  | timeoutTask => exact Or.inl (fun e => nomatch e)
  | wait _ _ => exact Or.inl (fun e => nomatch e)

theorem range_succ_cast (n : Nat) :
    (List.range' 1 (n + 1)).map Int.ofNat
      = (List.range' 1 n).map Int.ofNat ++ [(n : Int) + 1] := by
  rw [List.range'_concat, List.map_append]
  simp
  omega

theorem seqInv_step (base : List (List Char × protocol.Notification)) (st : server.Stream)
    (t : server.Tasks) (a : server.Action) (h : server.seqInv base st t) :
    server.seqInv base st (t.step a) := by
  obtain ⟨new, hpub, hrange, hok⟩ := h
  rcases stream_cases a st with hne | rfl | rfl | rfl | rfl
  · refine ⟨new ++ t.output a, ?_, ?_, ?_⟩
    · rw [step_published, hpub, List.append_assoc]
    · rw [streamSeqs_append, output_other t a st hne, List.append_nil]; exact hrange
    · rw [streamSeqs_append, output_other t a st hne, List.append_nil,
        step_pump_other t a st hne, step_seqOf_other t a st hne]
      exact hok
  · refine ⟨new, by rw [(step_scan_svc t st).1]; exact hpub, hrange, ?_⟩
    rw [step_scan_pump, (step_scan_svc t st).2]
    cases hp : t.pump st with
    | scanning =>
      rw [hp] at hok
      cases t.pipe st with
      | nil => trivial
      | cons token rest => exact hok
    | holding _ => rw [hp] at hok; exact hok
    | counted _ => rw [hp] at hok; exact hok
    | killing => trivial
    | returned => trivial
  · by_cases hc : ∃ token, t.pump st = .holding token
    · obtain ⟨token, hc⟩ := hc
      refine ⟨new, by rw [step_count_svc t st]; exact hpub, hrange, ?_⟩
      rw [(step_count_holding t st token hc).1, (step_count_holding t st token hc).2]
      rw [hc] at hok
      have hok2 : server.seqOf st t.p = ((server.streamSeqs st.method new).length : Int) := hok
      obtain ⟨h1, h2, _⟩ := pipeCount_self st t.p token
      exact ⟨by rw [h2, hok2], by rw [h1, hok2]⟩
    · rw [step_count_idle t st (fun token e => hc ⟨token, e⟩)]
      exact ⟨new, hpub, hrange, hok⟩
  · by_cases hc : ∃ c, t.pump st = .counted c
    · obtain ⟨c, hc⟩ := hc
      rw [hc] at hok
      obtain ⟨hseq, hnow⟩ : c.seq = ((server.streamSeqs st.method new).length : Int) + 1 ∧
          server.seqOf st t.p = ((server.streamSeqs st.method new).length : Int) + 1 := hok
      cases ho : c.over with
      | true =>
        refine ⟨new, ?_, hrange, ?_⟩
        · rw [step_emit_over t st c hc ho, (setPump_svc _ st _).1]; exact hpub
        · rw [step_emit_over t st c hc ho, setPump_pump, if_pos rfl]; trivial
      | false =>
        have hout : (t.step (.emit st)).svc.bus.published
            = base ++ (new ++ [(t.p.SessionID,
                protocol.Notification.mk st.method (execsvc.streamParams t.p c))]) := by
          rw [step_published, hpub, List.append_assoc]
          simp only [server.Tasks.output, hc, ho, Bool.false_eq_true, if_false]
        have hlen : server.streamSeqs st.method (new ++ [(t.p.SessionID,
              protocol.Notification.mk st.method (execsvc.streamParams t.p c))])
            = server.streamSeqs st.method new ++ [c.seq] := by
          rw [streamSeqs_append, streamSeqs_stream]
        refine ⟨_, hout, ?_, ?_⟩
        · rw [hlen, List.length_append, List.length_singleton, range_succ_cast, ← hrange, hseq]
        · rw [hlen, List.length_append, List.length_singleton,
            step_emit_publish t st c hc ho, setPump_pump, if_pos rfl, (setPump_svc _ st _).2]
          show server.seqOf st t.p = _
          rw [hnow]
          push_cast
          rfl
    · rw [step_emit_idle t st (fun c e => hc ⟨c, e⟩)]
      exact ⟨new, hpub, hrange, hok⟩
  · by_cases hc : t.pump st = .killing
    · refine ⟨new, by rw [step_mark_svc t st]; exact hpub, hrange, ?_⟩
      rw [(step_mark_killing t st hc).1]
      trivial
    · rw [step_mark_idle t st hc]
      exact ⟨new, hpub, hrange, hok⟩

theorem seqInv_run (base : List (List Char × protocol.Notification)) (st : server.Stream)
    (schedule : List server.Action) (t : server.Tasks) (h : server.seqInv base st t) :
    server.seqInv base st (t.run schedule) := by
  induction schedule generalizing t with
  | nil => exact h
  | cons a rest ih => exact ih (t.step a) (seqInv_step base st t a h)

theorem seqInv_start (svc : server.Service) (rp : execsvc.RunningProcess)
    (out err : List Byte) (st : server.Stream) (h0 : rp.StdoutSeq = 0)
    (h1 : rp.StderrSeq = 0) :
    server.seqInv svc.bus.published st (server.Tasks.start svc rp out err) := by
  refine ⟨[], by simp [server.Tasks.start], rfl, ?_⟩
  cases st
  · exact h0
  · exact h1
/-! ## Claims about the stream pumps -/

theorem output_other_filter (t : server.Tasks) (a : server.Action) (st : server.Stream)
    (h : a.stream ≠ some st) :
    (t.output a).filter (fun e => decide (e.2.Method = st.method)) = [] := by
  cases a with
  | scan s => rfl
  | count s => rfl
  | mark s => rfl
  | deadline => rfl
  | timeoutTask => rfl
  | emit s =>
    have hs : s ≠ st := fun e => h (by rw [e]; rfl)
    simp only [server.Tasks.output]
    cases t.pump s with
    | counted c =>
      simp only []
      split_ifs
      · rfl
      · simp [method_ne s st hs]
    | scanning => rfl
    | holding _ => rfl
    | killing => rfl
    | returned => rfl
  | wait err durationMs =>
    simp only [server.Tasks.output]
    split_ifs
    · rfl
    · have hx := exit_ne_method st
      simp only [List.filter_cons, List.filter_nil]
      rw [if_neg (by simpa using hx)]

theorem stopped_step (t : server.Tasks) (a : server.Action) (st : server.Stream)
    (h : (t.pump st).stopped = true) :
    ((t.step a).pump st).stopped = true ∧
    (t.step a).svc.bus.published.filter (fun e => decide (e.2.Method = st.method))
      = t.svc.bus.published.filter (fun e => decide (e.2.Method = st.method)) := by
  rcases stream_cases a st with hne | rfl | rfl | rfl | rfl
  · rw [step_pump_other t a st hne, step_published, List.filter_append,
      output_other_filter t a st hne, List.append_nil]
    exact ⟨h, rfl⟩
  · rw [step_scan_pump, (step_scan_svc t st).1]
    refine ⟨?_, rfl⟩
    cases hp : t.pump st with
    | scanning => rw [hp] at h; exact absurd h (by decide)
    | holding _ => rw [hp] at h; exact absurd h (by simp [server.Pump.stopped])
    | counted _ => rw [hp] at h; exact absurd h (by simp [server.Pump.stopped])
    | killing => rfl
    | returned => rfl
  · rw [step_count_idle t st (fun token e => by rw [e] at h; exact absurd h (by simp [server.Pump.stopped]))]
    exact ⟨h, rfl⟩
  · rw [step_emit_idle t st (fun c e => by rw [e] at h; exact absurd h (by simp [server.Pump.stopped]))]
    exact ⟨h, rfl⟩
  · by_cases hc : t.pump st = .killing
    · rw [(step_mark_killing t st hc).1, step_mark_svc t st]
      exact ⟨rfl, rfl⟩
    · rw [step_mark_idle t st hc]
      exact ⟨h, rfl⟩

theorem stopped_run (st : server.Stream) (schedule : List server.Action) (t : server.Tasks)
    (h : (t.pump st).stopped = true) :
    ((t.run schedule).pump st).stopped = true ∧
    (t.run schedule).svc.bus.published.filter (fun e => decide (e.2.Method = st.method))
      = t.svc.bus.published.filter (fun e => decide (e.2.Method = st.method)) := by
  induction schedule generalizing t with
  | nil => exact ⟨h, rfl⟩
  | cons a rest ih =>
    obtain ⟨h1, h2⟩ := stopped_step t a st h
    obtain ⟨h3, h4⟩ := ih (t.step a) h1
    exact ⟨h3, h4.trans h2⟩

/-- C17: the output cap in the stream pump. The locked section of a pass counts
the line (the token and a newline) and reads the sum `bytes_stdout +
bytes_stderr` after the line and the cap M; steps of the other tasks do not
touch what the pump holds. With M > 0, a line after which the sum is at most M
is published and the pump scans on; a line after which the sum exceeds M is not
published, the pump sends KILL, then marks the process timed out and returns;
and from then on, whatever the tasks do, no notification of that stream is
published. -/
theorem output_cap_boundary (t : server.Tasks) (st : server.Stream) :
    (∀ token, t.pump st = .holding token →
      ∃ c, (t.step (.count st)).pump st = .counted c ∧ c.line = token ++ [byte 10] ∧
        c.maxOutput = t.p.MaxOutput ∧
        c.total = (t.step (.count st)).p.BytesStdout + (t.step (.count st)).p.BytesStderr ∧
        c.total = t.p.BytesStdout + t.p.BytesStderr + (token.length + 1 : Nat)) ∧
    (∀ a : server.Action, a.stream ≠ some st → (t.step a).pump st = t.pump st) ∧
    (∀ c, t.pump st = .counted c → 0 < c.maxOutput → c.total ≤ c.maxOutput →
      (t.step (.emit st)).svc.bus.published
        = t.svc.bus.published ++ [(t.p.SessionID, protocol.Notification.mk st.method
            (.stream t.p.SessionID t.p.ID c.seq c.line "utf8".toList))] ∧
      (t.step (.emit st)).pump st = .scanning ∧ (t.step (.emit st)).p = t.p) ∧
    (∀ c, t.pump st = .counted c → 0 < c.maxOutput → c.maxOutput < c.total →
      (t.step (.emit st)).svc.bus.published = t.svc.bus.published ∧
      (t.step (.emit st)).p.killed = true ∧ (t.step (.emit st)).pump st = .killing) ∧
    (t.pump st = .killing →
      (t.step (.mark st)).svc.bus.published = t.svc.bus.published ∧
      (t.step (.mark st)).p.TimedOut = true ∧ (t.step (.mark st)).pump st = .returned) ∧
    ((t.pump st).stopped = true → ∀ schedule : List server.Action,
      ((t.run schedule).pump st).stopped = true ∧
      (t.run schedule).svc.bus.published.filter (fun e => decide (e.2.Method = st.method))
        = t.svc.bus.published.filter (fun e => decide (e.2.Method = st.method))) := by
  refine ⟨?_, fun a ha => step_pump_other t a st ha, ?_, ?_, ?_,
    fun h schedule => stopped_run st schedule t h⟩
  · intro token h
    obtain ⟨_, _, h3, h4, h5, h6⟩ := pipeCount_self st t.p token
    refine ⟨_, (step_count_holding t st token h).1, h3, h4, ?_, h6⟩
    rw [(step_count_holding t st token h).2]
    exact h5
  · intro c hc hpos hle
    have ho : c.over = false := by
      unfold execsvc.Counted.over
      exact decide_eq_false (fun h => absurd h.2 (by omega))
    rw [step_emit_publish t st c hc ho]
    refine ⟨?_, by rw [setPump_pump, if_pos rfl], (setPump_svc _ st _).2⟩
    rw [(setPump_svc _ st _).1]
    simp [events.Bus.Publish, execsvc.streamParams]
  · intro c hc hpos hlt
    have ho : c.over = true := by
      unfold execsvc.Counted.over
      exact decide_eq_true ⟨hpos, hlt⟩
    rw [step_emit_over t st c hc ho]
    exact ⟨by rw [(setPump_svc _ st _).1], by rw [(setPump_svc _ st _).2],
      by rw [setPump_pump, if_pos rfl]⟩
  · intro h
    exact ⟨by rw [step_mark_svc t st], by rw [(step_mark_killing t st h).2],
      (step_mark_killing t st h).1⟩

/-- C19: the process that a successful `exec.start` registers starts with both
seq counters at zero, and for every output of the child on the two pipes, every
schedule of the tasks and each stream, the record of publications only grows and
the seq values of the notifications published for that stream since the start
are exactly 1, 2, ..., N in that order. -/
theorem stream_seq_counts_up (s : server.Service) (env : Env) (spawn : Except Err Unit)
    (stamp startedAt : List Char) (p : protocol.ExecStartParams)
    (res : protocol.ExecStartResult) (launch : server.ExecLaunch)
    (h : (s.execStart env spawn stamp startedAt p).1 = .ok (res, launch))
    (out err : List Byte) (schedule : List server.Action) (st : server.Stream) :
    (((server.Tasks.start (s.execStart env spawn stamp startedAt p).2 launch.rp out err).run
        schedule).svc.bus.published.take
        (s.execStart env spawn stamp startedAt p).2.bus.published.length
      = (s.execStart env spawn stamp startedAt p).2.bus.published) ∧
    server.streamSeqs st.method
        (((server.Tasks.start (s.execStart env spawn stamp startedAt p).2 launch.rp out
          err).run schedule).svc.bus.published.drop
          (s.execStart env spawn stamp startedAt p).2.bus.published.length)
      = (List.range' 1
          (server.streamSeqs st.method
            (((server.Tasks.start (s.execStart env spawn stamp startedAt p).2 launch.rp out
              err).run schedule).svc.bus.published.drop
              (s.execStart env spawn stamp startedAt p).2.bus.published.length)).length).map
          Int.ofNat := by
  obtain ⟨_, _, _, _, _, _, _, _, _, _, h0, h1, _⟩ :=
    execStart_launch s env spawn stamp startedAt p res launch h
  obtain ⟨new, hpub, hrange, _⟩ := seqInv_run _ st schedule _
    (seqInv_start (s.execStart env spawn stamp startedAt p).2 launch.rp out err st
      (by assumption) (by assumption))
  rw [hpub, List.take_left, List.drop_left]
  exact ⟨rfl, hrange⟩

/-- An instance of the cap at the boundary: with a cap of 4 bytes and the lines
`a`, `b`, `c` on stdout, the second line brings the sum to 4 and is published
with seq 2; the third brings it to 6 and is not published, and KILL is sent. -/
theorem output_cap_boundary_witness :
    tasksAtCap.pump .stdout = .counted ⟨2, bytesOf "b\n".toList, 4, 4⟩ ∧
    ((tasksAtCap.step (.emit .stdout)).svc.bus.published
        = tasksAtCap.svc.bus.published ++ [(tasksAtCap.p.SessionID,
            protocol.Notification.mk server.Stream.stdout.method
              (.stream tasksAtCap.p.SessionID tasksAtCap.p.ID 2 (bytesOf "b\n".toList)
                "utf8".toList))] ∧
      (tasksAtCap.step (.emit .stdout)).pump .stdout = .scanning ∧
      (tasksAtCap.step (.emit .stdout)).p = tasksAtCap.p) ∧
    tasksOverCap.pump .stdout = .counted ⟨3, bytesOf "c\n".toList, 6, 4⟩ ∧
    ((tasksOverCap.step (.emit .stdout)).svc.bus.published = tasksOverCap.svc.bus.published ∧
      (tasksOverCap.step (.emit .stdout)).p.killed = true ∧
      (tasksOverCap.step (.emit .stdout)).pump .stdout = .killing) :=
  ⟨by decide,
   (output_cap_boundary tasksAtCap .stdout).2.2.1 ⟨2, bytesOf "b\n".toList, 4, 4⟩
      (by decide) (by decide) (by decide),
   by decide,
   (output_cap_boundary tasksOverCap .stdout).2.2.2.1 ⟨3, bytesOf "c\n".toList, 6, 4⟩
      (by decide) (by decide) (by decide)⟩

/-- An instance: the child writes the lines `a`, `b` to stdout and `e` to
stderr, the pumps take turns; stdout gets the seq values 1, 2 and stderr 1. -/
theorem stream_seq_counts_up_witness :
    (withSession.execStart envW (.ok ()) "7".toList "t0".toList startPrintf).1
      = .ok ({ ProcessID := "p_7".toList, StartedAt := "t0".toList }, launchP7) ∧
    server.streamSeqs server.Stream.stdout.method
        (((server.Tasks.start
            (withSession.execStart envW (.ok ()) "7".toList "t0".toList startPrintf).2
            launchP7.rp (bytesOf "a\nb\n".toList) (bytesOf "e\n".toList)).run
          turnsSchedule).svc.bus.published.drop
          (withSession.execStart envW (.ok ()) "7".toList "t0".toList
            startPrintf).2.bus.published.length)
      = (List.range' 1
          (server.streamSeqs server.Stream.stdout.method
            (((server.Tasks.start
                (withSession.execStart envW (.ok ()) "7".toList "t0".toList startPrintf).2
                launchP7.rp (bytesOf "a\nb\n".toList) (bytesOf "e\n".toList)).run
              turnsSchedule).svc.bus.published.drop
              (withSession.execStart envW (.ok ()) "7".toList "t0".toList
                startPrintf).2.bus.published.length)).length).map Int.ofNat ∧
    server.streamSeqs server.Stream.stdout.method
        (tasksTwoStreams.run turnsSchedule).svc.bus.published = [1, 2] ∧
    server.streamSeqs server.Stream.stderr.method
        (tasksTwoStreams.run turnsSchedule).svc.bus.published = [1] :=
  ⟨by decide,
   (stream_seq_counts_up withSession envW (.ok ()) "7".toList "t0".toList startPrintf
      { ProcessID := "p_7".toList, StartedAt := "t0".toList } launchP7 (by decide)
      (bytesOf "a\nb\n".toList) (bytesOf "e\n".toList) turnsSchedule .stdout).2,
   by decide, by decide⟩
/-! ## Claims about the dispatcher -/

/-- C21 (the code departs from the claim): in a service with one session and
no process or PTY, `exec.wait`, `exec.kill` and `exec.input` for the unknown
process `p_404` are answered with code -32005 and the message `process not
found`, but `pty.input`, `pty.resize` and `pty.close` for the unknown PTY
`pty_404` fail with the error `pty not found`, which `errResp` answers with code
-32602. -/
theorem unknown_pty_answered_invalid_params :
    (withSession.Handle oracleW filesW waitUnknown).response.Error
      = some { Code := -32005, Message := "process not found".toList } ∧
    (withSession.Handle oracleW filesW killUnknown).response.Error
      = some { Code := -32005, Message := "process not found".toList } ∧
    (withSession.Handle oracleW filesW inputUnknown).response.Error
      = some { Code := -32005, Message := "process not found".toList } ∧
    withSession.pty.Get "pty_404".toList = .error execsvc.ptyNotFound ∧
    (withSession.Handle oracleW filesW ptyInputUnknown).response.Error
      = some { Code := -32602, Message := "pty not found".toList } ∧
    (withSession.Handle oracleW filesW ptyResizeUnknown).response.Error
      = some { Code := -32602, Message := "pty not found".toList } ∧
    (withSession.Handle oracleW filesW ptyCloseUnknown).response.Error
      = some { Code := -32602, Message := "pty not found".toList } ∧
    ErrProcessNotFound = -32005 := by
  decide

/-- C22 (the code departs from the claim): with the audit log `/w/audit.log`
enabled, the request `fs.read` of `a.txt` is answered with a result and one line
is appended to the log, but the request `fs.read` of `/etc/passwd` is answered
with the error code -32002 and the request of an unknown method with -32601, and
in both cases the file system is left as it was: no audit entry is written. With
audit disabled the successful request writes nothing either. -/
theorem error_response_not_audited :
    server.NewService envW configAudit = .ok freshAudit ∧
    filesW.lookup "/w/audit.log".toList = none ∧
    (auditedSession.Handle oracleW filesW readA).response.Error = none ∧
    (auditedSession.Handle oracleW filesW readA).response.Result.isSome = true ∧
    (auditedSession.Handle oracleW filesW readA).files.lookup "/w/audit.log".toList
      = some (.file (bytesOf "fs.read\n".toList) 2000) ∧
    (auditedSession.Handle oracleW filesW readPasswd).response.Error
      = some { Code := -32002, Message := "Path is outside allowed roots".toList } ∧
    (auditedSession.Handle oracleW filesW readPasswd).files = filesW ∧
    (auditedSession.Handle oracleW filesW unknownMethod).response.Error
      = some { Code := -32601, Message := "method not found".toList } ∧
    (auditedSession.Handle oracleW filesW unknownMethod).files = filesW ∧
    (withSession.Handle oracleW filesW readA).response.Error = none ∧
    (withSession.Handle oracleW filesW readA).files = filesW := by
  decide

/-- C26 (the code departs from the claim): `errResp` finds the process
registry's error by the text of the message. The request `fs.read` of the
missing file `process not found` in a session with cwd `/w` fails in `os.Open`
with a path error that is not the registry's error, and because its text holds
the words `process not found` it is answered with code -32005. -/
theorem errResp_matches_message_text :
    filesW.lookup "/w/process not found".toList = none ∧
    (withSession.fsRead envW filesW
        { SessionID := "s_a1".toList, Path := "process not found".toList, Offset := 0
          Length := 0, Encoding := [] }).result
      = .error (Err.other "open /w/process not found: no such file or directory".toList) ∧
    Err.other "open /w/process not found: no such file or directory".toList
      ≠ execsvc.processNotFound ∧
    (withSession.Handle oracleW filesW readOddName).response.Error
      = some { Code := -32005
               Message := "open /w/process not found: no such file or directory".toList } ∧
    ErrProcessNotFound = -32005 := by
  decide
/-! ## Claims about the timeout task -/

/-- C25 (the code departs from the claim): the child writes the line `x` and
exits with code 0 before the deadline of its context. `Manager.Wait` calls the
cancel function of the context, which ends the wait of the timeout task on
`execCtx.Done()`; the task then runs its body: it marks the process timed out
and calls `Kill`. The deadline never elapsed, `exec.exit` has reported
`timed_out = false`, and the flag of the process is true afterwards. -/
theorem timeout_task_fires_after_natural_exit :
    tasksLine.p.TimedOut = false ∧ tasksLine.p.killed = false ∧
    (tasksLine.run [.scan .stdout, .count .stdout, .emit .stdout, .scan .stdout,
        .scan .stderr, .wait .none 5]).svc.bus.published
      = [("s_a1".toList, protocol.Notification.mk "exec.stdout".toList
            (.stream "s_a1".toList "p_7".toList 1 (bytesOf "x\n".toList) "utf8".toList)),
         ("s_a1".toList, protocol.Notification.mk "exec.exit".toList
            (.execExit "s_a1".toList "p_7".toList (some 0) none false 5 2 0))] ∧
    (tasksLine.run [.scan .stdout, .count .stdout, .emit .stdout, .scan .stdout,
        .scan .stderr, .wait .none 5]).p.cancelled = true ∧
    (tasksLine.run [.scan .stdout, .count .stdout, .emit .stdout, .scan .stdout,
        .scan .stderr, .wait .none 5]).p.TimedOut = false ∧
    (tasksLine.run [.scan .stdout, .count .stdout, .emit .stdout, .scan .stdout,
        .scan .stderr, .wait .none 5, .timeoutTask]).ctxDone = false ∧
    (tasksLine.run [.scan .stdout, .count .stdout, .emit .stdout, .scan .stdout,
        .scan .stderr, .wait .none 5, .timeoutTask]).p.TimedOut = true ∧
    (tasksLine.run [.scan .stdout, .count .stdout, .emit .stdout, .scan .stdout,
        .scan .stderr, .wait .none 5, .timeoutTask]).p.killed = true := by
  decide
/-! ## Claims about the session id of `exec` requests -/

theorem Handle_execWait (s : server.Service) (o : server.Oracle) (w : FileSystem)
    (req : protocol.Request) (p : protocol.ExecWaitParams)
    (hv : req.JSONRPC = protocol.Version) (hm : req.Method = "exec.wait".toList)
    (hp : req.Params.ExecWait = .ok p) :
    s.Handle o w req =
      s.finish o req.ID req.Method ((s.execWait o.select p).1.map .execWait) s w
        (s.execWait o.select p).2 none := by
  unfold server.Service.Handle
  simp only [hv, ne_eq, not_true_eq_false, if_false, hp]
  rw [hm]
  rfl

theorem Handle_execKill (s : server.Service) (o : server.Oracle) (w : FileSystem)
    (req : protocol.Request) (p : protocol.ExecKillParams)
    (hv : req.JSONRPC = protocol.Version) (hm : req.Method = "exec.kill".toList)
    (hp : req.Params.ExecKill = .ok p) :
    s.Handle o w req =
      s.finish o req.ID req.Method ((s.execKill o.signal p).1.map (fun _ => .ok)) s w
        (s.execKill o.signal p).2 none := by
  unfold server.Service.Handle
  simp only [hv, ne_eq, not_true_eq_false, if_false, hp]
  rw [hm]
  rfl

theorem Handle_execInput (s : server.Service) (o : server.Oracle) (w : FileSystem)
    (req : protocol.Request) (p : protocol.ExecInputParams)
    (hv : req.JSONRPC = protocol.Version) (hm : req.Method = "exec.input".toList)
    (hp : req.Params.ExecInput = .ok p) :
    s.Handle o w req =
      s.finish o req.ID req.Method ((s.execInput o.write p).1.map .execInput) s w
        (s.execInput o.write p).2 none := by
  unfold server.Service.Handle
  simp only [hv, ne_eq, not_true_eq_false, if_false, hp]
  rw [hm]
  rfl

theorem Handle_bad_version (s : server.Service) (o : server.Oracle) (w : FileSystem)
    (req : protocol.Request) (hv : req.JSONRPC ≠ protocol.Version) :
    s.Handle o w req =
      { response := ErrorResponse req.ID ErrInvalidParams "jsonrpc must be 2.0".toList
        svc := s, files := w, effects := [], launch := none } := by
  unfold server.Service.Handle
  simp only [hv, ne_eq, not_false_eq_true, if_true]

theorem execWait_congr (s : server.Service) (sel : server.WaitSelect)
    (p q : protocol.ExecWaitParams) (h1 : p.ProcessID = q.ProcessID)
    (h2 : p.TimeoutMS = q.TimeoutMS) : s.execWait sel p = s.execWait sel q := by
  unfold server.Service.execWait
  rw [h1, h2]

theorem execKill_congr (s : server.Service) (signal : Except Err Unit)
    (p q : protocol.ExecKillParams) (h1 : p.ProcessID = q.ProcessID)
    (h2 : p.Signal = q.Signal) : s.execKill signal p = s.execKill signal q := by
  unfold server.Service.execKill
  rw [h1, h2]

theorem execInput_congr (s : server.Service) (write : Except Err Nat)
    (p q : protocol.ExecInputParams) (h1 : p.ProcessID = q.ProcessID)
    (h2 : p.Data = q.Data) (h3 : p.EOF = q.EOF) : s.execInput write p = s.execInput write q := by
  unfold server.Service.execInput
  rw [h1, h2, h3]

/-- C27: `exec.wait`, `exec.kill` and `exec.input` never read the session id of
their params. For every service, surroundings and file system, two requests of
one of these methods with the same version, id and method, whose params agree in
every field but `session_id`, are handled alike: the response, the service, the
file system with the audit log, and what is done to the process are the same,
whatever the two session ids are. -/
theorem exec_requests_ignore_session_id (s : server.Service) (o : server.Oracle)
    (w : FileSystem) (req1 req2 : protocol.Request) :
    (∀ p1 p2 : protocol.ExecWaitParams,
      req1.JSONRPC = req2.JSONRPC → req1.ID = req2.ID →
      req1.Method = "exec.wait".toList → req2.Method = "exec.wait".toList →
      req1.Params.ExecWait = .ok p1 → req2.Params.ExecWait = .ok p2 →
      p1.ProcessID = p2.ProcessID → p1.TimeoutMS = p2.TimeoutMS →
      s.execWait o.select p1 = s.execWait o.select p2 ∧
      s.Handle o w req1 = s.Handle o w req2) ∧
    (∀ p1 p2 : protocol.ExecKillParams,
      req1.JSONRPC = req2.JSONRPC → req1.ID = req2.ID →
      req1.Method = "exec.kill".toList → req2.Method = "exec.kill".toList →
      req1.Params.ExecKill = .ok p1 → req2.Params.ExecKill = .ok p2 →
      p1.ProcessID = p2.ProcessID → p1.Signal = p2.Signal →
      s.execKill o.signal p1 = s.execKill o.signal p2 ∧
      s.Handle o w req1 = s.Handle o w req2) ∧
    (∀ p1 p2 : protocol.ExecInputParams,
      req1.JSONRPC = req2.JSONRPC → req1.ID = req2.ID →
      req1.Method = "exec.input".toList → req2.Method = "exec.input".toList →
      req1.Params.ExecInput = .ok p1 → req2.Params.ExecInput = .ok p2 →
      p1.ProcessID = p2.ProcessID → p1.Data = p2.Data → p1.EOF = p2.EOF →
      s.execInput o.write p1 = s.execInput o.write p2 ∧
      s.Handle o w req1 = s.Handle o w req2) := by
  refine ⟨?_, ?_, ?_⟩
  · intro p1 p2 hv hid hm1 hm2 hp1 hp2 h1 h2
    have hc := execWait_congr s o.select p1 p2 h1 h2
    refine ⟨hc, ?_⟩
    by_cases hver : req1.JSONRPC = protocol.Version
    · rw [Handle_execWait s o w req1 p1 hver hm1 hp1,
        Handle_execWait s o w req2 p2 (hv ▸ hver) hm2 hp2, hc, hid, hm1, hm2]
    · rw [Handle_bad_version s o w req1 hver,
        Handle_bad_version s o w req2 (hv ▸ hver), hid]
  · intro p1 p2 hv hid hm1 hm2 hp1 hp2 h1 h2
    have hc := execKill_congr s o.signal p1 p2 h1 h2
    refine ⟨hc, ?_⟩
    by_cases hver : req1.JSONRPC = protocol.Version
    · rw [Handle_execKill s o w req1 p1 hver hm1 hp1,
        Handle_execKill s o w req2 p2 (hv ▸ hver) hm2 hp2, hc, hid, hm1, hm2]
    · rw [Handle_bad_version s o w req1 hver,
        Handle_bad_version s o w req2 (hv ▸ hver), hid]
  · intro p1 p2 hv hid hm1 hm2 hp1 hp2 h1 h2 h3
    have hc := execInput_congr s o.write p1 p2 h1 h2 h3
    refine ⟨hc, ?_⟩
    by_cases hver : req1.JSONRPC = protocol.Version
    · rw [Handle_execInput s o w req1 p1 hver hm1 hp1,
        Handle_execInput s o w req2 p2 (hv ▸ hver) hm2 hp2, hc, hid, hm1, hm2]
    · rw [Handle_bad_version s o w req1 hver,
        Handle_bad_version s o w req2 (hv ▸ hver), hid]

/-- An instance: the process `p_7` belongs to the session `s_a1`; `exec.kill`
with the session id `s_nobody`, which names no session, is handled as with
`s_a1`: the answer is a result and KILL is sent to `p_7`. -/
theorem exec_requests_ignore_session_id_witness :
    withProcess.sessions.Get "s_nobody".toList = .error Err.sessionNotFound ∧
    (withProcess.exec.Get "p_7".toList).map (fun p => p.SessionID) = .ok "s_a1".toList ∧
    withProcess.execKill oracleW.signal (killP7 "s_nobody".toList)
      = (.ok (), [.signal "p_7".toList .SIGKILL]) ∧
    (withProcess.execKill oracleW.signal (killP7 "s_nobody".toList)
        = withProcess.execKill oracleW.signal (killP7 "s_a1".toList) ∧
      withProcess.Handle oracleW filesW
          (request "exec.kill".toList
            { undecodable with ExecKill := .ok (killP7 "s_nobody".toList) })
        = withProcess.Handle oracleW filesW
          (request "exec.kill".toList
            { undecodable with ExecKill := .ok (killP7 "s_a1".toList) })) :=
  ⟨by decide, by decide, by decide,
   (exec_requests_ignore_session_id withProcess oracleW filesW
      (request "exec.kill".toList { undecodable with ExecKill := .ok (killP7 "s_nobody".toList) })
      (request "exec.kill".toList { undecodable with ExecKill := .ok (killP7 "s_a1".toList) })
      ).2.1 (killP7 "s_nobody".toList) (killP7 "s_a1".toList) rfl rfl rfl rfl rfl rfl rfl rfl⟩
/-! ## Facts about the subscriber table -/

theorem lookupSubs_map (table : List (List Char × List (Int × List protocol.Notification)))
    (sid s : List Char)
    (f : List (Int × List protocol.Notification) → List (Int × List protocol.Notification)) :
    events.lookupSubs (table.map (fun e => if e.1 = sid then (e.1, f e.2) else e)) s
      = (events.lookupSubs table s).map (fun subs => if s = sid then f subs else subs) := by
  induction table with
  | nil => rfl
  | cons e rest ih =>
    obtain ⟨k, subs⟩ := e
    have hcons : ((k, subs) :: rest).map (fun e => if e.1 = sid then (e.1, f e.2) else e)
        = (if k = sid then (k, f subs) else (k, subs))
          :: rest.map (fun e => if e.1 = sid then (e.1, f e.2) else e) := rfl
    rw [hcons]
    by_cases hk : k = sid
    · rw [if_pos hk]
      by_cases hs : k = s
      · have hsi : s = sid := hs ▸ hk
        simp only [events.lookupSubs, hs, if_true, Option.map_some', hsi]
      · simp only [events.lookupSubs, hs, if_false]
        exact ih
    · rw [if_neg hk]
      by_cases hs : k = s
      · have hsi : ¬ s = sid := hs ▸ hk
        simp only [events.lookupSubs, hs, if_true, Option.map_some', hsi, if_false]
      · simp only [events.lookupSubs, hs, if_false]
        exact ih

theorem lookupSubs_filter (table : List (List Char × List (Int × List protocol.Notification)))
    (sid s : List Char) :
    events.lookupSubs (table.filter (fun e => decide (e.1 ≠ sid))) s
      = if s = sid then none else events.lookupSubs table s := by
  induction table with
  | nil => simp [events.lookupSubs]
  | cons e rest ih =>
    obtain ⟨k, subs⟩ := e
    by_cases hk : k = sid
    · have hf : ((k, subs) :: rest).filter (fun e => decide (e.1 ≠ sid))
          = rest.filter (fun e => decide (e.1 ≠ sid)) := by
        simp [List.filter, hk]
      rw [hf, ih]
      by_cases hs : s = sid
      · simp [hs]
      · have : ¬ k = s := fun e => hs (e ▸ hk)
        simp [hs, events.lookupSubs, this]
    · have hf : ((k, subs) :: rest).filter (fun e => decide (e.1 ≠ sid))
          = (k, subs) :: rest.filter (fun e => decide (e.1 ≠ sid)) := by
        simp [List.filter, hk]
      rw [hf]
      by_cases hs : k = s
      · have : ¬ s = sid := hs ▸ hk
        simp [events.lookupSubs, hs, this]
      · simp only [events.lookupSubs, hs, if_false, ih]

theorem lookupChan_filter (subs : List (Int × List protocol.Notification)) (id j : Int) :
    events.lookupChan (subs.filter (fun ch => decide (ch.1 ≠ id))) j
      = if j = id then none else events.lookupChan subs j := by
  induction subs with
  | nil => simp [events.lookupChan]
  | cons ch rest ih =>
    obtain ⟨k, q⟩ := ch
    by_cases hk : k = id
    · have hf : ((k, q) :: rest).filter (fun ch => decide (ch.1 ≠ id))
          = rest.filter (fun ch => decide (ch.1 ≠ id)) := by
        simp [List.filter, hk]
      rw [hf, ih]
      by_cases hs : j = id
      · simp [hs]
      · have : ¬ k = j := fun e => hs (e ▸ hk)
        simp [hs, events.lookupChan, this]
    · have hf : ((k, q) :: rest).filter (fun ch => decide (ch.1 ≠ id))
          = (k, q) :: rest.filter (fun ch => decide (ch.1 ≠ id)) := by
        simp [List.filter, hk]
      rw [hf]
      by_cases hs : k = j
      · have : ¬ j = id := hs ▸ hk
        simp [events.lookupChan, hs, this]
      · simp only [events.lookupChan, hs, if_false, ih]

theorem lookupChan_map (subs : List (Int × List protocol.Notification)) (j : Int)
    (g : Int × List protocol.Notification → Int × List protocol.Notification)
    (hg : ∀ ch, (g ch).1 = ch.1) :
    events.lookupChan (subs.map g) j = (events.lookupChan subs j).map (fun q => (g (j, q)).2) := by
  induction subs with
  | nil => rfl
  | cons ch rest ih =>
    obtain ⟨k, q⟩ := ch
    have hcons : ((k, q) :: rest).map g = ((g (k, q)).1, (g (k, q)).2) :: rest.map g := rfl
    rw [hcons, hg]
    by_cases hk : k = j
    · subst hk
      simp only [events.lookupChan, if_true, Option.map_some']
    · simp only [events.lookupChan, hk, if_false]
      exact ih

theorem lookupSubs_mem (table : List (List Char × List (Int × List protocol.Notification)))
    (s : List Char) (subs : List (Int × List protocol.Notification))
    (h : events.lookupSubs table s = some subs) : (s, subs) ∈ table := by
  induction table with
  | nil => simp [events.lookupSubs] at h
  | cons e rest ih =>
    obtain ⟨k, x⟩ := e
    by_cases hk : k = s
    · simp only [events.lookupSubs, hk, if_true, Option.some.injEq] at h
      rw [hk, h]
      exact List.mem_cons_self _ _
    · simp only [events.lookupSubs, hk, if_false] at h
      exact List.mem_cons_of_mem _ (ih h)

theorem lookupChan_mem (subs : List (Int × List protocol.Notification)) (j : Int)
    (q : List protocol.Notification) (h : events.lookupChan subs j = some q) :
    (j, q) ∈ subs := by
  induction subs with
  | nil => simp [events.lookupChan] at h
  | cons ch rest ih =>
    obtain ⟨k, x⟩ := ch
    by_cases hk : k = j
    · simp only [events.lookupChan, hk, if_true, Option.some.injEq] at h
      rw [hk, h]
      exact List.mem_cons_self _ _
    · simp only [events.lookupChan, hk, if_false] at h
      exact List.mem_cons_of_mem _ (ih h)

theorem lookupChan_none_of_nil_length (subs : List (Int × List protocol.Notification))
    (h : subs.length = 0) (j : Int) : events.lookupChan subs j = none := by
  cases subs with
  | nil => rfl
  | cons _ _ => simp at h

theorem trySend_key (evt : protocol.Notification) (ch : Int × List protocol.Notification) :
    (events.trySend evt ch).1 = ch.1 := by
  unfold events.trySend
  split_ifs <;> rfl

theorem Publish_queue (b : events.Bus) (sid method : List Char) (params : protocol.Params)
    (s : List Char) (j : Int) :
    (b.Publish sid method params).queue s j
      = (b.queue s j).map (fun q =>
          if s = sid ∧ q.length < events.queueCap then
            q ++ [protocol.Notification.mk method params]
          else q) := by
  unfold events.Bus.queue events.Bus.Publish
  simp only []
  rw [lookupSubs_map b.subscribers sid s
    (fun subs => subs.map (events.trySend (protocol.Notification.mk method params)))]
  cases hl : events.lookupSubs b.subscribers s with
  | none => rfl
  | some subs =>
    simp only [Option.map_some']
    by_cases hs : s = sid
    · rw [if_pos hs, lookupChan_map subs j _ (trySend_key _)]
      cases events.lookupChan subs j with
      | none => rfl
      | some q =>
        simp only [Option.map_some', events.trySend, hs, true_and]
        split_ifs <;> rfl
    · rw [if_neg hs]
      cases events.lookupChan subs j with
      | none => rfl
      | some q => simp [hs]

theorem unsubscribe_none (b : events.Bus) (sid : List Char) (id : Int)
    (hl : events.lookupSubs b.subscribers sid = none) : b.unsubscribe sid id = b := by
  unfold events.Bus.unsubscribe
  rw [hl]

theorem unsubscribe_drop (b : events.Bus) (sid : List Char) (id : Int)
    (sessSubs : List (Int × List protocol.Notification))
    (hl : events.lookupSubs b.subscribers sid = some sessSubs)
    (hlen : (if (events.lookupChan sessSubs id).isSome then
        sessSubs.filter (fun ch => decide (ch.1 ≠ id)) else sessSubs).length = 0) :
    b.unsubscribe sid id =
      events.Bus.mk b.nextSubID (b.subscribers.filter (fun entry => decide (entry.1 ≠ sid)))
        b.published
        (if (events.lookupChan sessSubs id).isSome then b.closed ++ [(sid, id)] else b.closed) := by
  unfold events.Bus.unsubscribe
  rw [hl]
  simp only []
  rw [if_pos hlen]

theorem unsubscribe_keep (b : events.Bus) (sid : List Char) (id : Int)
    (sessSubs : List (Int × List protocol.Notification))
    (hl : events.lookupSubs b.subscribers sid = some sessSubs)
    (hlen : ¬ (if (events.lookupChan sessSubs id).isSome then
        sessSubs.filter (fun ch => decide (ch.1 ≠ id)) else sessSubs).length = 0) :
    b.unsubscribe sid id =
      events.Bus.mk b.nextSubID
        (b.subscribers.map (fun entry =>
          if entry.1 = sid then
            (entry.1, (if (events.lookupChan sessSubs id).isSome then
              sessSubs.filter (fun ch => decide (ch.1 ≠ id)) else sessSubs))
          else entry))
        b.published
        (if (events.lookupChan sessSubs id).isSome then b.closed ++ [(sid, id)] else b.closed) := by
  unfold events.Bus.unsubscribe
  rw [hl]
  simp only []
  rw [if_neg hlen]

theorem lookupChan_rest (sessSubs : List (Int × List protocol.Notification)) (id j : Int) :
    events.lookupChan (if (events.lookupChan sessSubs id).isSome then
        sessSubs.filter (fun ch => decide (ch.1 ≠ id)) else sessSubs) j
      = if j = id then none else events.lookupChan sessSubs j := by
  cases hc : events.lookupChan sessSubs id with
  | some q =>
    simp only [Option.isSome_some, if_true]
    exact lookupChan_filter sessSubs id j
  | none =>
    simp only [Option.isSome_none, Bool.false_eq_true, if_false]
    by_cases hj : j = id
    · rw [if_pos hj, hj, hc]
    · rw [if_neg hj]

theorem unsubscribe_lookupSubs (b : events.Bus) (sid : List Char) (id : Int) (s : List Char)
    (hs : s ≠ sid) :
    events.lookupSubs (b.unsubscribe sid id).subscribers s
      = events.lookupSubs b.subscribers s := by
  cases hl : events.lookupSubs b.subscribers sid with
  | none => rw [unsubscribe_none b sid id hl]
  | some sessSubs =>
    by_cases hlen : (if (events.lookupChan sessSubs id).isSome then
        sessSubs.filter (fun ch => decide (ch.1 ≠ id)) else sessSubs).length = 0
    · rw [unsubscribe_drop b sid id sessSubs hl hlen]
      show events.lookupSubs (b.subscribers.filter (fun entry => decide (entry.1 ≠ sid))) s = _
      rw [lookupSubs_filter, if_neg hs]
    · rw [unsubscribe_keep b sid id sessSubs hl hlen]
      show events.lookupSubs (b.subscribers.map _) s = _
      rw [lookupSubs_map b.subscribers sid s (fun _ => (if (events.lookupChan sessSubs id).isSome
        then sessSubs.filter (fun ch => decide (ch.1 ≠ id)) else sessSubs))]
      cases events.lookupSubs b.subscribers s with
      | none => rfl
      | some x => simp [hs]

theorem unsubscribe_queue (b : events.Bus) (sid : List Char) (id : Int) (s : List Char)
    (j : Int) :
    (b.unsubscribe sid id).queue s j
      = if s = sid ∧ j = id then none else b.queue s j := by
  by_cases hs : s = sid
  · subst hs
    cases hl : events.lookupSubs b.subscribers s with
    | none =>
      rw [unsubscribe_none b s id hl]
      unfold events.Bus.queue
      rw [hl]
      simp
    | some sessSubs =>
      by_cases hlen : (if (events.lookupChan sessSubs id).isSome then
          sessSubs.filter (fun ch => decide (ch.1 ≠ id)) else sessSubs).length = 0
      · rw [unsubscribe_drop b s id sessSubs hl hlen]
        have h0 := lookupChan_none_of_nil_length _ hlen j
        rw [lookupChan_rest] at h0
        unfold events.Bus.queue
        simp only [lookupSubs_filter, if_true, hl, true_and]
        by_cases hj : j = id
        · rw [if_pos hj]
        · rw [if_neg hj] at h0 ⊢
          exact h0.symm
      · rw [unsubscribe_keep b s id sessSubs hl hlen]
        unfold events.Bus.queue
        simp only []
        rw [lookupSubs_map b.subscribers s s (fun _ =>
          (if (events.lookupChan sessSubs id).isSome
            then sessSubs.filter (fun ch => decide (ch.1 ≠ id)) else sessSubs)), hl]
        simp only [Option.map_some', if_true, true_and]
        exact lookupChan_rest sessSubs id j
  · unfold events.Bus.queue
    rw [unsubscribe_lookupSubs b sid id s hs]
    simp [hs]

theorem unsubscribe_closed (b : events.Bus) (sid : List Char) (id : Int) :
    (b.unsubscribe sid id).closed
      = if (b.queue sid id).isSome then b.closed ++ [(sid, id)] else b.closed := by
  unfold events.Bus.queue
  cases hl : events.lookupSubs b.subscribers sid with
  | none => rw [unsubscribe_none b sid id hl]; rfl
  | some sessSubs =>
    by_cases hlen : (if (events.lookupChan sessSubs id).isSome then
        sessSubs.filter (fun ch => decide (ch.1 ≠ id)) else sessSubs).length = 0
    · rw [unsubscribe_drop b sid id sessSubs hl hlen]
    · rw [unsubscribe_keep b sid id sessSubs hl hlen]

theorem unsubscribe_frame (b : events.Bus) (sid : List Char) (id : Int) :
    (b.unsubscribe sid id).nextSubID = b.nextSubID ∧
    (b.unsubscribe sid id).published = b.published := by
  cases hl : events.lookupSubs b.subscribers sid with
  | none => rw [unsubscribe_none b sid id hl]; exact ⟨rfl, rfl⟩
  | some sessSubs =>
    by_cases hlen : (if (events.lookupChan sessSubs id).isSome then
        sessSubs.filter (fun ch => decide (ch.1 ≠ id)) else sessSubs).length = 0
    · rw [unsubscribe_drop b sid id sessSubs hl hlen]; exact ⟨rfl, rfl⟩
    · rw [unsubscribe_keep b sid id sessSubs hl hlen]; exact ⟨rfl, rfl⟩

theorem unsubscribe_entry (b : events.Bus) (sid : List Char) (id : Int)
    (h : ∀ j, (b.unsubscribe sid id).queue sid j = none) :
    events.lookupSubs (b.unsubscribe sid id).subscribers sid = none := by
  cases hl : events.lookupSubs b.subscribers sid with
  | none => rw [unsubscribe_none b sid id hl]; exact hl
  | some sessSubs =>
    by_cases hlen : (if (events.lookupChan sessSubs id).isSome then
        sessSubs.filter (fun ch => decide (ch.1 ≠ id)) else sessSubs).length = 0
    · rw [unsubscribe_drop b sid id sessSubs hl hlen]
      show events.lookupSubs (b.subscribers.filter (fun entry => decide (entry.1 ≠ sid))) sid = _
      rw [lookupSubs_filter, if_pos rfl]
    · exfalso
      have hq : ∀ j, events.lookupChan (if (events.lookupChan sessSubs id).isSome then
          sessSubs.filter (fun ch => decide (ch.1 ≠ id)) else sessSubs) j = none := by
        intro j
        have := h j
        rw [unsubscribe_keep b sid id sessSubs hl hlen] at this
        unfold events.Bus.queue at this
        simp only [] at this
        rw [lookupSubs_map b.subscribers sid sid (fun _ =>
          (if (events.lookupChan sessSubs id).isSome
            then sessSubs.filter (fun ch => decide (ch.1 ≠ id)) else sessSubs)), hl] at this
        simpa using this
      cases hrest : (if (events.lookupChan sessSubs id).isSome then
          sessSubs.filter (fun ch => decide (ch.1 ≠ id)) else sessSubs) with
      | nil => rw [hrest] at hlen; exact hlen rfl
      | cons ch rest =>
        have := hq ch.1
        rw [hrest] at this
        obtain ⟨k, q⟩ := ch
        simp [events.lookupChan] at this

theorem unsubscribe_idem (b : events.Bus) (sid : List Char) (id : Int) :
    (b.unsubscribe sid id).unsubscribe sid id = b.unsubscribe sid id := by
  cases hl : events.lookupSubs b.subscribers sid with
  | none => rw [unsubscribe_none b sid id hl, unsubscribe_none b sid id hl]
  | some sessSubs =>
    by_cases hlen : (if (events.lookupChan sessSubs id).isSome then
        sessSubs.filter (fun ch => decide (ch.1 ≠ id)) else sessSubs).length = 0
    · rw [unsubscribe_drop b sid id sessSubs hl hlen]
      apply unsubscribe_none
      show events.lookupSubs (b.subscribers.filter (fun entry => decide (entry.1 ≠ sid))) sid = _
      rw [lookupSubs_filter, if_pos rfl]
    · rw [unsubscribe_keep b sid id sessSubs hl hlen]
      generalize hr : (if (events.lookupChan sessSubs id).isSome then
        sessSubs.filter (fun ch => decide (ch.1 ≠ id)) else sessSubs) = rest at hlen
      have hnone : events.lookupChan rest id = none := by
        rw [← hr, lookupChan_rest, if_pos rfl]
      have hl2 : events.lookupSubs (b.subscribers.map (fun entry =>
          if entry.1 = sid then (entry.1, rest) else entry)) sid = some rest := by
        rw [lookupSubs_map b.subscribers sid sid (fun _ => rest), hl]
        simp
      have hlen2 : ¬ (if (events.lookupChan rest id).isSome then
          rest.filter (fun ch => decide (ch.1 ≠ id)) else rest).length = 0 := by
        rw [hnone]; exact hlen
      rw [unsubscribe_keep _ sid id rest hl2 hlen2]
      simp only [hnone, Option.isSome_none, Bool.false_eq_true, if_false, List.map_map]
      congr 1
      apply List.map_congr_left
      intro e _
      simp only [Function.comp]
      by_cases he : e.1 = sid
      · simp [he]
      · simp [he]

theorem Subscribe_queue (b : events.Bus) (sid s : List Char) (j : Int) :
    (b.Subscribe sid).2.queue s j
      = if s = sid ∧ j = b.nextSubID + 1 then some [] else b.queue s j := by
  unfold events.Bus.queue events.Bus.Subscribe
  simp only []
  cases hl : events.lookupSubs b.subscribers sid with
  | none =>
    simp only []
    rw [lookupSubs_map ((sid, []) :: b.subscribers) sid s (fun subs =>
      (b.nextSubID + 1, []) :: subs.filter (fun ch => decide (ch.1 ≠ b.nextSubID + 1)))]
    by_cases hs : s = sid
    · subst hs
      simp only [events.lookupSubs, if_true, Option.map_some', true_and, hl]
      by_cases hj : j = b.nextSubID + 1
      · simp [events.lookupChan, hj]
      · have : ¬ b.nextSubID + 1 = j := fun e => hj e.symm
        simp [events.lookupChan, hj, this]
    · have : ¬ sid = s := fun e => hs e.symm
      simp only [events.lookupSubs, this, if_false, hs, false_and]
      cases events.lookupSubs b.subscribers s with
      | none => rfl
      | some x => simp
  | some subs0 =>
    simp only []
    rw [lookupSubs_map b.subscribers sid s (fun subs =>
      (b.nextSubID + 1, []) :: subs.filter (fun ch => decide (ch.1 ≠ b.nextSubID + 1)))]
    by_cases hs : s = sid
    · subst hs
      simp only [hl, Option.map_some', if_true, true_and]
      by_cases hj : j = b.nextSubID + 1
      · simp [events.lookupChan, hj]
      · have : ¬ b.nextSubID + 1 = j := fun e => hj e.symm
        simp only [events.lookupChan, this, if_false, hj, lookupChan_filter]
    · simp only [hs, false_and, if_false]
      cases events.lookupSubs b.subscribers s with
      | none => rfl
      | some x => simp

theorem bounded_queue (b : events.Bus) (hb : b.bounded) (s : List Char) (j : Int)
    (q : List protocol.Notification) (h : b.queue s j = some q) :
    q.length ≤ events.queueCap := by
  unfold events.Bus.queue at h
  cases hl : events.lookupSubs b.subscribers s with
  | none => rw [hl] at h; simp at h
  | some subs =>
    rw [hl] at h
    exact hb (s, subs) (lookupSubs_mem _ _ _ hl) (j, q) (lookupChan_mem _ _ _ h)

theorem bounded_Subscribe (b : events.Bus) (sid : List Char) (hb : b.bounded) :
    (b.Subscribe sid).2.bounded := by
  intro entry he ch hch
  unfold events.Bus.Subscribe at he
  simp only [List.mem_map] at he
  obtain ⟨e0, he0, rfl⟩ := he
  have hbase : ∀ c ∈ e0.2, c.2.length ≤ events.queueCap := by
    cases hl : events.lookupSubs b.subscribers sid with
    | none =>
      rw [hl] at he0
      simp only [List.mem_cons] at he0
      rcases he0 with rfl | h
      · intro c hc; simp at hc
      · exact hb e0 h
    | some x =>
      rw [hl] at he0
      exact hb e0 he0
  by_cases hk : e0.1 = sid
  · rw [if_pos hk] at hch
    simp only [List.mem_cons, List.mem_filter] at hch
    rcases hch with rfl | ⟨h, _⟩
    · simp
    · exact hbase ch h
  · rw [if_neg hk] at hch
    exact hbase ch hch

theorem bounded_unsubscribe (b : events.Bus) (sid : List Char) (id : Int) (hb : b.bounded) :
    (b.unsubscribe sid id).bounded := by
  cases hl : events.lookupSubs b.subscribers sid with
  | none => rw [unsubscribe_none b sid id hl]; exact hb
  | some sessSubs =>
    have hrest : ∀ c ∈ (if (events.lookupChan sessSubs id).isSome then
        sessSubs.filter (fun ch => decide (ch.1 ≠ id)) else sessSubs),
        c.2.length ≤ events.queueCap := by
      intro c hc
      have hall := hb (sid, sessSubs) (lookupSubs_mem _ _ _ hl)
      split_ifs at hc
      · exact hall c (List.mem_filter.1 hc).1
      · exact hall c hc
    by_cases hlen : (if (events.lookupChan sessSubs id).isSome then
        sessSubs.filter (fun ch => decide (ch.1 ≠ id)) else sessSubs).length = 0
    · rw [unsubscribe_drop b sid id sessSubs hl hlen]
      intro entry he ch hch
      exact hb entry (List.mem_filter.1 he).1 ch hch
    · rw [unsubscribe_keep b sid id sessSubs hl hlen]
      intro entry he ch hch
      simp only [List.mem_map] at he
      obtain ⟨e0, he0, rfl⟩ := he
      by_cases hk : e0.1 = sid
      · rw [if_pos hk] at hch
        exact hrest ch hch
      · rw [if_neg hk] at hch
        exact hb e0 he0 ch hch

theorem bounded_Publish (b : events.Bus) (sid method : List Char) (params : protocol.Params)
    (hb : b.bounded) : (b.Publish sid method params).bounded := by
  intro entry he ch hch
  unfold events.Bus.Publish at he
  simp only [List.mem_map] at he
  obtain ⟨e0, he0, rfl⟩ := he
  by_cases hk : e0.1 = sid
  · rw [if_pos hk] at hch
    simp only [List.mem_map] at hch
    obtain ⟨c0, hc0, rfl⟩ := hch
    have := hb e0 he0 c0 hc0
    unfold events.trySend
    split_ifs with hlt
    · simp only [List.length_append, List.length_singleton]
      exact hlt
    · exact this
  · rw [if_neg hk] at hch
    exact hb e0 he0 ch hch

theorem bounded_recv (b : events.Bus) (sid : List Char) (id : Int) (hb : b.bounded) :
    (b.recv sid id).bounded := by
  intro entry he ch hch
  unfold events.Bus.recv at he
  simp only [List.mem_map] at he
  obtain ⟨e0, he0, rfl⟩ := he
  by_cases hk : e0.1 = sid
  · rw [if_pos hk] at hch
    simp only [List.mem_map] at hch
    obtain ⟨c0, hc0, rfl⟩ := hch
    have := hb e0 he0 c0 hc0
    split_ifs
    · simp only [List.length_drop]
      omega
    · exact this
  · rw [if_neg hk] at hch
    exact hb e0 he0 ch hch

theorem Reachable_bounded (b : events.Bus) (h : events.Reachable b) : b.bounded := by
  induction h with
  | init => intro entry he; simp [events.NewBus] at he
  | subscribe b sid _ ih => exact bounded_Subscribe b sid ih
  | unsubscribe b sid id _ ih => exact bounded_unsubscribe b sid id ih
  | publish b sid method params _ ih => exact bounded_Publish b sid method params ih
  | recv b sid id _ ih => exact bounded_recv b sid id ih
/-! ## Claims about the event bus -/

/-- C23: `Publish` on any bus, for any session id: the notification is appended
to the queue of each subscriber of that session that holds fewer than 128
items; a queue of that session that does not is left as it is; the queues of
every other session are left as they are, and nobody is registered or dropped.
In every bus reached from `NewBus` by subscribing, unsubscribing, publishing
and receiving, no queue holds more than 128 notifications. -/
theorem Publish_queues (b : events.Bus) (sid method : List Char) (params : protocol.Params) :
    (∀ j q, b.queue sid j = some q → q.length < 128 →
      (b.Publish sid method params).queue sid j
        = some (q ++ [protocol.Notification.mk method params])) ∧
    (∀ j q, b.queue sid j = some q → ¬ q.length < 128 →
      (b.Publish sid method params).queue sid j = some q) ∧
    (∀ s j, s ≠ sid → (b.Publish sid method params).queue s j = b.queue s j) ∧
    (∀ s j, b.queue s j = none → (b.Publish sid method params).queue s j = none) ∧
    (events.Reachable b → ∀ s j q, b.queue s j = some q → q.length ≤ 128) := by
  have hcap : events.queueCap = 128 := rfl
  refine ⟨?_, ?_, ?_, ?_, ?_⟩
  · intro j q hq hlt
    rw [Publish_queue, hq, hcap]
    simp [hlt]
  · intro j q hq hlt
    rw [Publish_queue, hq, hcap]
    simp [hlt]
  · intro s j hs
    rw [Publish_queue]
    cases b.queue s j with
    | none => rfl
    | some q => simp [hs]
  · intro s j hq
    rw [Publish_queue, hq]
    rfl
  · intro hr s j q hq
    exact bounded_queue b (Reachable_bounded b hr) s j q hq

set_option maxRecDepth 8192 in
/-- An instance: in `busFull` the queue of subscriber 1 of the session `s` is
empty and that of subscriber 2 holds 128 items; publishing to `s` puts the
notification in the first queue and leaves the second and the queue of the
session `t` as they were. -/
theorem Publish_queues_witness :
    busFull.queue "s".toList 2 = some (List.replicate 128 noteExit) ∧
    (busFull.Publish "s".toList noteExit.Method noteExit.Params).queue "s".toList 1
      = some ([] ++ [protocol.Notification.mk noteExit.Method noteExit.Params]) ∧
    (busFull.Publish "s".toList noteExit.Method noteExit.Params).queue "s".toList 2
      = some (List.replicate 128 noteExit) ∧
    (busFull.Publish "s".toList noteExit.Method noteExit.Params).queue "t".toList 3
      = busFull.queue "t".toList 3 :=
  ⟨by decide,
   (Publish_queues busFull "s".toList noteExit.Method noteExit.Params).1 1 [] (by decide)
     (by decide),
   (Publish_queues busFull "s".toList noteExit.Method noteExit.Params).2.1 2
     (List.replicate 128 noteExit) (by decide) (by decide),
   (Publish_queues busFull "s".toList noteExit.Method noteExit.Params).2.2.1 "t".toList 3
     (by decide)⟩

/-- C24: `Subscribe` registers an empty queue under a new subscriber id, and the
function it returns, called on any later bus, removes exactly that queue and
closes it if it is still registered; it removes the session's entry from the
subscriber table when no queue of that session remains; it leaves every other
queue, the entries of the other sessions, the id counter and the record of
publications as they were; and a second call changes nothing and closes
nothing. -/
theorem unsubscribe_removes_own_queue (b later : events.Bus) (sid : List Char) (id : Int) :
    (b.Subscribe sid).1 = b.nextSubID + 1 ∧
    (b.Subscribe sid).2.queue sid (b.Subscribe sid).1 = some [] ∧
    (later.unsubscribe sid id).queue sid id = none ∧
    (∀ q, later.queue sid id = some q →
      (later.unsubscribe sid id).closed = later.closed ++ [(sid, id)]) ∧
    (later.queue sid id = none → (later.unsubscribe sid id).closed = later.closed) ∧
    ((∀ j, (later.unsubscribe sid id).queue sid j = none) →
      events.lookupSubs (later.unsubscribe sid id).subscribers sid = none) ∧
    (∀ s j, ¬ (s = sid ∧ j = id) → (later.unsubscribe sid id).queue s j = later.queue s j) ∧
    (∀ s, s ≠ sid →
      events.lookupSubs (later.unsubscribe sid id).subscribers s
        = events.lookupSubs later.subscribers s) ∧
    (later.unsubscribe sid id).nextSubID = later.nextSubID ∧
    (later.unsubscribe sid id).published = later.published ∧
    (later.unsubscribe sid id).unsubscribe sid id = later.unsubscribe sid id := by
  refine ⟨rfl, ?_, ?_, ?_, ?_, unsubscribe_entry later sid id, ?_,
    fun s hs => unsubscribe_lookupSubs later sid id s hs, (unsubscribe_frame later sid id).1,
    (unsubscribe_frame later sid id).2, unsubscribe_idem later sid id⟩
  · rw [Subscribe_queue]
    have : (b.Subscribe sid).1 = b.nextSubID + 1 := rfl
    simp [this]
  · rw [unsubscribe_queue]
    simp
  · intro q hq
    rw [unsubscribe_closed, hq]
    rfl
  · intro hq
    rw [unsubscribe_closed, hq]
    rfl
  · intro s j hne
    rw [unsubscribe_queue, if_neg hne]

/-- An instance: after three calls of `Subscribe` the session `s` has the
subscribers 1 and 2 and the session `t` the subscriber 3. Unsubscribing 2 closes
its channel and leaves 1 and 3 registered; unsubscribing 3 removes the entry of
`t`; calling either function again changes nothing. -/
theorem unsubscribe_removes_own_queue_witness :
    ((busThree.queue "s".toList 1, busThree.queue "s".toList 2, busThree.queue "t".toList 3)
      = (some [], some [], some [])) ∧
    ((busThree.unsubscribe "s".toList 2).queue "s".toList 2 = none ∧
      (busThree.unsubscribe "s".toList 2).queue "s".toList 1 = some [] ∧
      (busThree.unsubscribe "s".toList 2).queue "t".toList 3 = some [] ∧
      (busThree.unsubscribe "s".toList 2).closed = [("s".toList, 2)]) ∧
    (events.lookupSubs (busThree.unsubscribe "t".toList 3).subscribers "t".toList = none ∧
      (busThree.unsubscribe "t".toList 3).closed = [("t".toList, 3)]) ∧
    (busThree.unsubscribe "s".toList 2).unsubscribe "s".toList 2
      = busThree.unsubscribe "s".toList 2 :=
  ⟨by decide, by decide, by decide,
   (unsubscribe_removes_own_queue events.NewBus busThree "s".toList 2).2.2.2.2.2.2.2.2.2.2⟩
end Rexd
